import Mathlib

/-!
Verification of the markerml compiler front end (markerml_frontend and
markerml_middleend crates): shallow embedding of the span algebra, the lexer,
the string/text segment parsers, the AST validator and the IR generator,
together with theorems settling the specification claims.

Modelling conventions:
* Rust `u32`/`usize` positions are modelled as `Nat` (no claim depends on
  wrap-around), Rust `i64` as `Int` with explicit range checks where the code
  performs them (`i64::from_str`).
* `HashMap<String, Span>` is modelled as an association list with the most
  recent insertion in front; the generator never inserts a key twice, so
  lookup behaviour coincides.
* `HashSet` fields of the IR are modelled as lists in insertion order; the
  generator checks for name collisions before every insertion, so no insert
  ever hits an equal element and set insertion coincides with appending.
* Unicode identifier classes (`UnicodeXID`) are modelled by their ASCII
  restriction (letters), which the specification explicitly admits as an
  acceptable identifier rule variant.
* Loops that consume input are written with an explicit fuel argument so that
  they evaluate by `decide`/`rfl`; `none` encodes fuel exhaustion and is
  proved unreachable for the fuel the entry points supply.
-/

namespace MarkerML

/-! ## Spans (markerml_frontend/src/common/span.rs) -/

/-- `Position` in the source code: `line` and `column` (`span.rs`).
The derived Rust `Ord` is lexicographic: line, then column. -/
structure Position where
  line : Nat
  column : Nat
deriving DecidableEq, Repr

/-- `Span` in the source code; `stop` is the field named `end` in the source. -/
structure Span where
  start : Position
  stop : Position
deriving DecidableEq, Repr

/-- Boolean rendering of the derived lexicographic `Ord` on `Position`
(`self <= other`). -/
def Position.leb (a b : Position) : Bool :=
  decide (a.line < b.line ∨ (a.line = b.line ∧ a.column ≤ b.column))

/-- Rust `Ord::min`: returns `self` when `self <= other`, else `other`. -/
def Position.minP (a b : Position) : Position :=
  if a.leb b then a else b

/-- Rust `Ord::max`: returns `other` when `self <= other`, else `self`. -/
def Position.maxP (a b : Position) : Position :=
  if a.leb b then b else a

/-- `impl BitOr for Span` (`span.rs` lines 57-69): span union, taking the
minimum start and the maximum end. -/
def Span.bitor (s t : Span) : Span :=
  { start := s.start.minP t.start, stop := s.stop.maxP t.stop }

namespace token

/-! ## Tokens (markerml_frontend/src/token/mod.rs) -/

/-- `token::Punctuator`. -/
inductive Punctuator where
  | leftSquareBracket
  | rightSquareBracket
  | leftCurlyBracket
  | rightCurlyBracket
  | comma
  | colon
  | equals
  | dollar
  | at
  | hash
deriving DecidableEq, Repr

/-- `token::Type` (type-name tokens). Named `Ty` because `Type` is reserved. -/
inductive Ty where
  | string
  | integer
  | bool
  | slot
deriving DecidableEq, Repr

/-- `token::Keyword`. -/
inductive Keyword where
  | component
  | default
  | text
deriving DecidableEq, Repr

/-- `token::StringLiteral`: contents plus whether the closing quote was found. -/
structure StringLiteral where
  content : String
  is_closed : Bool
deriving DecidableEq, Repr

/-- `token::Text`: contents plus whether the closing parenthesis was found. -/
structure Text where
  content : String
  is_closed : Bool
deriving DecidableEq, Repr

/-- `token::TokenKind`. -/
inductive TokenKind where
  | invalid
  | punctuator (p : Punctuator)
  | keyword (k : Keyword)
  | type (t : Ty)
  | identifier (name : String)
  | booleanLiteral (b : Bool)
  | integerLiteral (n : Int)
  | stringLiteral (s : StringLiteral)
  | text (t : Text)
deriving DecidableEq, Repr

end token

namespace lexer
open token

/-! ## Lexer (markerml_frontend/src/lexer/mod.rs) -/

/-- `InterpolationKind` (`lexer/mod.rs`). -/
inductive InterpolationKind where
  | text
  | string
deriving DecidableEq, Repr

/-- `InterpolationMode` (`lexer/mod.rs`). -/
inductive InterpolationMode where
  | start (k : InterpolationKind)
  | interpolation (k : InterpolationKind)
  | literal (k : InterpolationKind)
deriving DecidableEq, Repr

/-- The `Lexer` state: remaining input characters, current line/column and the
interpolation mode stack. The source stores the stack in a `Vec` with its top
at the back; here the head of `interpolation_mode` is the top of the stack. -/
structure Lexer where
  chars : List Char
  line : Nat
  column : Nat
  interpolation_mode : List InterpolationMode
deriving DecidableEq, Repr

/-- `Lexer::new`. -/
def Lexer.new (input : List Char) : Lexer :=
  { chars := input, line := 1, column := 1, interpolation_mode := [] }

/-- `Lexer::position`. -/
def Lexer.position (st : Lexer) : Position :=
  { line := st.line, column := st.column }

/-- `Lexer::span`. -/
def Lexer.span (st : Lexer) (start : Position) : Span :=
  { start := start, stop := st.position }

/-- `Lexer::peek`. -/
def Lexer.peek (st : Lexer) : Option Char :=
  st.chars.head?

/-- `Lexer::next`: consume one character, advancing the column. -/
def Lexer.next (st : Lexer) : Option Char × Lexer :=
  match st.chars with
  | [] => (none, st)
  | c :: cs => (some c, { st with chars := cs, column := st.column + 1 })

/-- `Lexer::skip`. -/
def Lexer.skip (st : Lexer) : Lexer :=
  st.next.2

/-- `Lexer::advance_line`. -/
def Lexer.advanceLine (st : Lexer) : Lexer :=
  { st with line := st.line + 1, column := 1 }

/-- `Lexer::consume_if`. -/
def Lexer.consumeIf (st : Lexer) (pred : Char → Bool) : Option Char × Lexer :=
  match st.peek with
  | some ch => if pred ch then (some ch, st.skip) else (none, st)
  | none => (none, st)

/-- `Lexer::consume_if_eq`. -/
def Lexer.consumeIfEq (st : Lexer) (ch : Char) : Option Char × Lexer :=
  st.consumeIf (fun x => x = ch)

/-- `Lexer::is_newline`. -/
def isNewline (ch : Char) : Bool :=
  ch = '\n' || ch = '\r'

/-- `Lexer::is_whitespace_except_newline`. -/
def isWhitespaceExceptNewline (ch : Char) : Bool :=
  ch = ' ' || ch = '\t'

/-- `UnicodeXID::is_xid_start`, modelled by its ASCII restriction (letters);
the specification admits the ASCII identifier rule as an acceptable variant. -/
def isXidStart (ch : Char) : Bool :=
  ch.isAlpha

/-- `UnicodeXID::is_xid_continue`, modelled by its ASCII restriction
(letters, digits and underscore). -/
def isXidContinue (ch : Char) : Bool :=
  ch.isAlpha || ch.isDigit || ch = '_'

/-- `Lexer::is_identifier_head`. -/
def isIdentifierHead (ch : Char) : Bool :=
  isXidStart ch || ch = '_'

/-- `Lexer::is_identifier_tail`. -/
def isIdentifierTail (ch : Char) : Bool :=
  isXidContinue ch || ch = '_'

/-- `Lexer::is_integer_head`. -/
def isIntegerHead (ch : Char) : Bool :=
  ch = '-' || ('0' ≤ ch && ch ≤ '9')

/-- `Lexer::is_integer_tail`. -/
def isIntegerTail (ch : Char) : Bool :=
  '0' ≤ ch && ch ≤ '9'

/-- `Lexer::get_boolean_literal`. -/
def getBooleanLiteral (identifier : String) : Option Bool :=
  if identifier = "true" then some true
  else if identifier = "false" then some false
  else none

/-- `Lexer::get_type`. -/
def getType (identifier : String) : Option Ty :=
  if identifier = "string" then some .string
  else if identifier = "integer" then some .integer
  else if identifier = "bool" then some .bool
  else if identifier = "slot" then some .slot
  else none

/-- `Lexer::get_keyword`. -/
def getKeyword (identifier : String) : Option Keyword :=
  if identifier = "component" then some .component
  else if identifier = "default" then some .default
  else if identifier = "text" then some .text
  else none

/-- `Lexer::try_consume_line_ending`. `ch` is the character the caller
examined; the function itself consumes from the state (one `skip`, plus a
`consume_if_eq('\n')` after `'\r'`), exactly as in the source. -/
def Lexer.tryConsumeLineEnding (st : Lexer) (ch : Char) : Bool × Lexer :=
  if ch = '\r' then
    (true, (st.skip.consumeIfEq '\n').2.advanceLine)
  else if ch = '\n' then
    (true, st.skip.advanceLine)
  else
    (false, st)

/-- The `while … try_consume_whitespace` loop inside `consume_text_until`:
skip horizontal whitespace. -/
def skipWhitespaceAux : List Char → Nat → List Char × Nat
  | [], column => ([], column)
  | c :: cs, column =>
    if isWhitespaceExceptNewline c then skipWhitespaceAux cs (column + 1)
    else (c :: cs, column)

/-- State-level wrapper for `skipWhitespaceAux`. -/
def Lexer.skipWhitespace (st : Lexer) : Lexer :=
  let r := skipWhitespaceAux st.chars st.column
  { st with chars := r.1, column := r.2 }

/-- `Lexer::consume_text_until` (`lexer/mod.rs` lines 208-248), the shared
string/text literal scanner. The fuel argument makes the loop structurally
recursive; `none` encodes fuel exhaustion and is unreachable for the fuel
supplied by the entry points (each iteration consumes at least one
character). -/
def Lexer.consumeTextUntil (delimiter : Char) (kind : InterpolationKind) :
    Nat → Lexer → String → Option ((String × Bool) × Lexer)
  | 0, _, _ => none
  | fuel + 1, st, text =>
    match st.chars with
    | [] => some ((text, false), st)
    | ch :: _ =>
      let st1 := st.skip
      if ch = delimiter then
        some ((text, true), { st1 with interpolation_mode := st1.interpolation_mode.tail })
      else
        let le := st1.tryConsumeLineEnding ch
        if le.1 then
          let st2 := le.2.skipWhitespace
          let text :=
            match st2.peek with
            | some c => if c ≠ delimiter && !isNewline c then text.push ' ' else text
            | none => text
          Lexer.consumeTextUntil delimiter kind fuel st2 text
        else if ch = '\\' then
          let ci := st1.consumeIf (fun c => c = '$' || c = delimiter)
          Lexer.consumeTextUntil delimiter kind fuel ci.2 (text.push (ci.1.getD ch))
        else if ch = '$' then
          if st1.peek = some '{' then
            some ((text, true),
              { st1 with interpolation_mode := .start kind :: st1.interpolation_mode })
          else
            Lexer.consumeTextUntil delimiter kind fuel st1 (text.push ch)
        else
          Lexer.consumeTextUntil delimiter kind fuel st1 (text.push ch)

/-- `Lexer::consume_string_literal`. -/
def Lexer.consumeStringLiteral (st : Lexer) : Option (StringLiteral × Lexer) :=
  (Lexer.consumeTextUntil '"' .string (st.chars.length + 1) st "").map
    (fun ((content, is_closed), st) => ({ content := content, is_closed := is_closed }, st))

/-- `Lexer::consume_text`. -/
def Lexer.consumeText (st : Lexer) : Option (Text × Lexer) :=
  (Lexer.consumeTextUntil ')' .text (st.chars.length + 1) st "").map
    (fun ((content, is_closed), st) => ({ content := content, is_closed := is_closed }, st))

/-- The comment-body loop inside `try_consume_comment`: skip until a newline,
end of input, or the active interpolation delimiter. -/
def skipCommentAux (delimiter : Option Char) : List Char → Nat → List Char × Nat
  | [], column => ([], column)
  | c :: cs, column =>
    if isNewline c || delimiter = some c then (c :: cs, column)
    else skipCommentAux delimiter cs (column + 1)

/-- `Lexer::try_consume_comment`. Returns `none` when `ch` is not `'/'`;
otherwise `some (tok?, st)` where `tok?` is an `Invalid` token for a single
slash. -/
def Lexer.tryConsumeComment (st : Lexer) (ch : Char) : Option (Option TokenKind × Lexer) :=
  if ch ≠ '/' then none
  else
    let delimiter : Option Char :=
      match st.interpolation_mode.head? with
      | some (.interpolation _) => some '}'
      | _ => none
    let ci := st.skip.consumeIfEq '/'
    if ci.1.isSome then
      let r := skipCommentAux delimiter ci.2.chars ci.2.column
      some (none, { ci.2 with chars := r.1, column := r.2 })
    else
      some (some .invalid, ci.2)

/-- The digit-gathering loop of `try_consume_integer_literal`. -/
def takeTailAux (pred : Char → Bool) : List Char → Nat → String → String × List Char × Nat
  | [], column, content => (content, [], column)
  | c :: cs, column, content =>
    if pred c then takeTailAux pred cs (column + 1) (content.push c)
    else (content, c :: cs, column)

/-- `i64::from_str`: an optional minus sign followed by at least one digit,
rejecting values outside the `i64` range. -/
def i64FromStr (s : String) : Option Int :=
  let chars := s.toList
  let (neg, digits) :=
    match chars with
    | '-' :: rest => (true, rest)
    | _ => (false, chars)
  if digits.isEmpty || digits.any (fun c => !isIntegerTail c) then none
  else
    let magnitude : Nat := digits.foldl (fun acc c => acc * 10 + (c.toNat - 48)) 0
    let value : Int := if neg then -(magnitude : Int) else (magnitude : Int)
    if -(2 ^ 63) ≤ value ∧ value ≤ 2 ^ 63 - 1 then some value else none

/-- `Lexer::try_consume_integer_literal`. -/
def Lexer.tryConsumeIntegerLiteral (st : Lexer) : Option (TokenKind × Lexer) :=
  match st.peek with
  | none => none
  | some ch =>
    if !isIntegerHead ch then none
    else
      let st1 := st.skip
      let r := takeTailAux isIntegerTail st1.chars st1.column (String.mk [ch])
      let st2 := { st1 with chars := r.2.1, column := r.2.2 }
      match i64FromStr r.1 with
      | some number => some (.integerLiteral number, st2)
      | none => some (.invalid, st2)

/-- `Lexer::try_consume_identifier_string`. -/
def Lexer.tryConsumeIdentifierString (st : Lexer) : Option (String × Lexer) :=
  match st.peek with
  | none => none
  | some ch =>
    if !isIdentifierHead ch then none
    else
      let st1 := st.skip
      let r := takeTailAux isIdentifierTail st1.chars st1.column (String.mk [ch])
      some (r.1, { st1 with chars := r.2.1, column := r.2.2 })

/-- `Lexer::try_consume_identifier`: classify the identifier string as a
type name, keyword, boolean literal or plain identifier, in that order. -/
def Lexer.tryConsumeIdentifier (st : Lexer) : Option (TokenKind × Lexer) :=
  match st.tryConsumeIdentifierString with
  | none => none
  | some (string, st) =>
    match getType string with
    | some t => some (.type t, st)
    | none =>
      match getKeyword string with
      | some k => some (.keyword k, st)
      | none =>
        match getBooleanLiteral string with
        | some b => some (.booleanLiteral b, st)
        | none => some (.identifier string, st)

/-- `Lexer::try_consume_punctuator`. -/
def Lexer.tryConsumePunctuator (st : Lexer) : Option (Punctuator × Lexer) :=
  match st.peek with
  | none => none
  | some ch =>
    let punctuator : Option Punctuator :=
      if ch = '[' then some .leftSquareBracket
      else if ch = ']' then some .rightSquareBracket
      else if ch = '{' then some .leftCurlyBracket
      else if ch = '}' then some .rightCurlyBracket
      else if ch = ',' then some .comma
      else if ch = ':' then some .colon
      else if ch = '=' then some .equals
      else if ch = '$' then some .dollar
      else if ch = '@' then some .at
      else if ch = '#' then some .hash
      else none
    punctuator.map (fun p => (p, st.skip))

/-- `Lexer::lex_default` (`lexer/mod.rs` lines 91-116). `ch` is the peeked
character and `start` the position captured at the top of the `lex` loop.
Returns the emitted tokens (zero, one, or — never here — more) and the new
state; `none` only on fuel exhaustion inside a literal scan. -/
def Lexer.lexDefault (st : Lexer) (ch : Char) (start : Position) :
    Option (List (TokenKind × Span) × Lexer) :=
  if isWhitespaceExceptNewline ch then some ([], st.skip)
  else
    let le := st.tryConsumeLineEnding ch
    if le.1 then some ([], le.2)
    else
      match st.tryConsumeComment ch with
      | some (tok?, st') =>
        some (match tok? with
          | some t => [(t, st'.span start)]
          | none => [], st')
      | none =>
        if ch = '(' then
          (st.skip.consumeText).map
            (fun (t, st') => ([(.text t, st'.span start)], st'))
        else if ch = '"' then
          (st.skip.consumeStringLiteral).map
            (fun (s, st') => ([(.stringLiteral s, st'.span start)], st'))
        else
          match st.tryConsumeIntegerLiteral with
          | some (tok, st') => some ([(tok, st'.span start)], st')
          | none =>
            match st.tryConsumePunctuator with
            | some (p, st') => some ([(.punctuator p, st'.span start)], st')
            | none =>
              match st.tryConsumeIdentifier with
              | some (tok, st') => some ([(tok, st'.span start)], st')
              | none => some ([(.invalid, st.skip.span start)], st.skip)

/-- The `while let Some(ch) = self.peek()` loop of `Lexer::lex`
(`lexer/mod.rs` lines 37-55), dispatching on the interpolation mode stack.
Fuel-indexed; each iteration consumes at least one character, and
`Lexer.lexLoop_isSome` below shows the entry point's fuel suffices. -/
def Lexer.lexLoop : Nat → Lexer → List (TokenKind × Span) →
    Option (List (TokenKind × Span) × Span)
  | 0, st, acc =>
    match st.chars with
    | [] => some (acc.reverse, st.span st.position)
    | _ => none
  | fuel + 1, st, acc =>
    match st.peek with
    | none => some (acc.reverse, st.span st.position)
    | some ch =>
      let start := st.position
      match st.interpolation_mode.head? with
      | some (.start kind) =>
        let tok1 := (TokenKind.punctuator .dollar, st.span start)
        let st1 := st.skip
        let tok2 := (TokenKind.punctuator .leftCurlyBracket, st1.span start)
        let st2 :=
          { st1 with interpolation_mode := .interpolation kind :: st1.interpolation_mode.tail }
        Lexer.lexLoop fuel st2 (tok2 :: tok1 :: acc)
      | some (.interpolation kind) =>
        if ch = '}' then
          let st1 := st.skip
          let st2 :=
            { st1 with interpolation_mode := .literal kind :: st1.interpolation_mode.tail }
          Lexer.lexLoop fuel st2 ((TokenKind.punctuator .rightCurlyBracket, st1.span start) :: acc)
        else
          match st.lexDefault ch start with
          | some (toks, st1) => Lexer.lexLoop fuel st1 (toks.reverse ++ acc)
          | none => none
      | some (.literal kind) =>
        match kind with
        | .string =>
          match st.consumeStringLiteral with
          | some (s, st1) =>
            Lexer.lexLoop fuel st1 ((.stringLiteral s, st1.span start) :: acc)
          | none => none
        | .text =>
          match st.consumeText with
          | some (t, st1) =>
            Lexer.lexLoop fuel st1 ((.text t, st1.span start) :: acc)
          | none => none
      | none =>
        match st.lexDefault ch start with
        | some (toks, st1) => Lexer.lexLoop fuel st1 (toks.reverse ++ acc)
        | none => none

/-- `Lexer::lex`: produce the token list and the end-of-file span. -/
def lex (input : List Char) : Option (List (TokenKind × Span) × Span) :=
  let st := Lexer.new input
  Lexer.lexLoop st.chars.length st []

end lexer

namespace ast

/-! ## AST (markerml_frontend/src/ast.rs) -/

/-- `ast::Identifier` (span-carrying name). -/
structure Identifier where
  span : Span
  name : String
deriving DecidableEq, Repr

/-- `ast::TypeKind`. -/
inductive TypeKind where
  | string
  | integer
  | bool
  | slot
  | slotList
deriving DecidableEq, Repr

/-- `ast::Type` (named `Ty` because `Type` is reserved). -/
structure Ty where
  span : Span
  kind : TypeKind
deriving DecidableEq, Repr

/-- `ast::InterpolationSegmentKind`; `var` is the source's `Variable`
(a Lean keyword). -/
inductive InterpolationSegmentKind where
  | literal (s : String)
  | var (identifier : Identifier)
deriving DecidableEq, Repr

/-- `ast::InterpolationSegment`. -/
structure InterpolationSegment where
  span : Span
  kind : InterpolationSegmentKind
deriving DecidableEq, Repr

/-- `ast::StringValue`. -/
structure StringValue where
  span : Span
  segments : List InterpolationSegment
deriving DecidableEq, Repr

/-- `ast::Text`. -/
structure Text where
  span : Span
  segments : List InterpolationSegment
deriving DecidableEq, Repr

/-- `ast::ValueKind`; `var` is the source's `Variable`. -/
inductive ValueKind where
  | string (value : StringValue)
  | integer (n : Int)
  | bool (b : Bool)
  | var (identifier : Identifier)
deriving DecidableEq, Repr

/-- `ast::Value`. -/
structure Value where
  span : Span
  kind : ValueKind
deriving DecidableEq, Repr

/-- `ast::PropertyKind`. -/
inductive PropertyKind where
  | keyValue (key : Identifier) (value : Value)
  | flag (key : Identifier)
deriving DecidableEq, Repr

/-- `ast::Property`. -/
structure Property where
  span : Span
  kind : PropertyKind
deriving DecidableEq, Repr

/-- `ast::Properties`: optional default value plus ordered named/flag list. -/
structure Properties where
  span : Span
  default : Option Value
  properties : List Property
deriving DecidableEq, Repr

/-- `ast::TextPropertyDefinition`. -/
structure TextPropertyDefinition where
  name : Identifier
deriving DecidableEq, Repr

/-- `ast::NamedPropertyDefinition`. -/
structure NamedPropertyDefinition where
  name : Identifier
  ty : Ty
  default_value : Option Value
deriving DecidableEq, Repr

/-- `ast::PropertyDefinitionKind`. -/
inductive PropertyDefinitionKind where
  | text (d : TextPropertyDefinition)
  | default (d : NamedPropertyDefinition)
  | named (d : NamedPropertyDefinition)
deriving DecidableEq, Repr

/-- `ast::PropertyDefinition`. -/
structure PropertyDefinition where
  span : Span
  kind : PropertyDefinitionKind
deriving DecidableEq, Repr

/-- `ast::PropertiesDefinition`. -/
structure PropertiesDefinition where
  span : Span
  properties : List PropertyDefinition
deriving DecidableEq, Repr

mutual
/-- `ast::Component`: name plus optional properties, children and text. -/
inductive Component where
  | mk (span : Span) (name : Identifier) (properties : Option Properties)
      (children : Option ComponentChildren) (text : Option Text)

/-- `ast::ComponentChildren`. -/
inductive ComponentChildren where
  | mk (span : Span) (children : List Component)
end

def Component.span : Component → Span
  | .mk s _ _ _ _ => s

def Component.name : Component → Identifier
  | .mk _ n _ _ _ => n

def Component.properties : Component → Option Properties
  | .mk _ _ p _ _ => p

def Component.children : Component → Option ComponentChildren
  | .mk _ _ _ c _ => c

def Component.text : Component → Option Text
  | .mk _ _ _ _ t => t

def ComponentChildren.span : ComponentChildren → Span
  | .mk s _ => s

def ComponentChildren.children : ComponentChildren → List Component
  | .mk _ c => c

/-- `ast::ComponentDefinition`. -/
structure ComponentDefinition where
  span : Span
  name : Identifier
  properties : Option PropertiesDefinition
  children : Option ComponentChildren

/-- `ast::ModuleItem`. -/
inductive ModuleItem where
  | component (c : Component)
  | componentDefinition (d : ComponentDefinition)

/-- `ast::Module`. -/
structure Module where
  span : Span
  items : List ModuleItem

end ast

namespace ir

/-! ## IR (markerml_middleend/src/ir.rs)

`HashSet` collections are modelled as lists in insertion order (the generator
checks names before every insertion, so set insertion never collides and
coincides with appending); membership is what the theorems consume. -/

/-- `ir::Identifier`. -/
structure Identifier where
  span : Span
  name : String
deriving DecidableEq, Repr

/-- `ir::Identifier::as_str`. -/
def Identifier.as_str (i : Identifier) : String :=
  i.name

/-- `ir::TypeKind`. -/
inductive TypeKind where
  | string
  | integer
  | bool
  | slot
  | slotList
deriving DecidableEq, Repr

/-- `ir::Type`. -/
structure Ty where
  span : Span
  kind : TypeKind
deriving DecidableEq, Repr

/-- `ir::InterpolationSegmentKind`; `var` is the source's `Variable`. -/
inductive InterpolationSegmentKind where
  | literal (s : String)
  | var (identifier : Identifier)
deriving DecidableEq, Repr

/-- `ir::InterpolationSegment`. -/
structure InterpolationSegment where
  span : Span
  kind : InterpolationSegmentKind
deriving DecidableEq, Repr

/-- `ir::StringValue`. -/
structure StringValue where
  span : Span
  segments : List InterpolationSegment
deriving DecidableEq, Repr

/-- `ir::Text`. -/
structure Text where
  span : Span
  segments : List InterpolationSegment
deriving DecidableEq, Repr

/-- `ir::ValueKind`; `var` is the source's `Variable`. -/
inductive ValueKind where
  | string (value : StringValue)
  | integer (n : Int)
  | bool (b : Bool)
  | var (identifier : Identifier)
deriving DecidableEq, Repr

/-- `ir::Value`. -/
structure Value where
  span : Span
  kind : ValueKind
deriving DecidableEq, Repr

/-- `ir::Property` (named property with key and value; hashed by key). -/
structure Property where
  span : Span
  key : Identifier
  value : Value
deriving DecidableEq, Repr

/-- `ir::Properties`: `flag_properties` and `named_properties` are `HashSet`s
in the source, modelled as insertion-ordered lists. -/
structure Properties where
  default : Option Value
  flag_properties : List Identifier
  named_properties : List Property
deriving DecidableEq, Repr

/-- `ir::PropertyDefinition`. -/
structure PropertyDefinition where
  span : Span
  name : Identifier
  ty : Ty
  default_value : Option Value
deriving DecidableEq, Repr

/-- `ir::PropertiesDefinition`: the at-most-one text/default declarations get
dedicated optional fields; `properties` is a `HashSet` in the source,
modelled as an insertion-ordered list. -/
structure PropertiesDefinition where
  span : Span
  text_property : Option Identifier
  default_property : Option PropertyDefinition
  properties : List PropertyDefinition
deriving DecidableEq, Repr

/-- `ir::Component`: children are a `Vec`. -/
inductive Component where
  | mk (span : Span) (name : Identifier) (properties : Properties)
      (children : List Component) (text : Option Text)

def Component.span : Component → Span
  | .mk s _ _ _ _ => s

def Component.name : Component → Identifier
  | .mk _ n _ _ _ => n

def Component.properties : Component → Properties
  | .mk _ _ p _ _ => p

def Component.children : Component → List Component
  | .mk _ _ _ c _ => c

def Component.text : Component → Option Text
  | .mk _ _ _ _ t => t

/-- `ir::ComponentDefinition`. -/
structure ComponentDefinition where
  span : Span
  name : Identifier
  properties : PropertiesDefinition
  children : List Component

/-- `ir::ModuleItem`. -/
inductive ModuleItem where
  | component (c : Component)
  | componentDefinition (d : ComponentDefinition)

/-- `ir::Module`. -/
structure Module where
  span : Span
  items : List ModuleItem

end ir

/-! ## IR generator errors (markerml_middleend/src/error.rs) -/

/-- `IrGeneratorError` with the per-variant span payloads of `error.rs`. -/
inductive IrGeneratorError where
  | duplicatedProperty (name : String) (first second : Span)
  | textComponentWithChildren (component_name children text : Span)
  | multipleTextProperties (component_name first second : Span)
  | multipleDefaultProperties (component_name first second : Span)
  | circularDefinition (component_name circular : Span)
  | defaultPropertyWithValue (component_name property default_value : Span)
deriving DecidableEq, Repr

namespace irgen

/-! ## IR generator (markerml_middleend/src/ir_generator.rs)

The leaf generators (`generate_identifier`, `generate_value`,
`generate_text`, `generate_string_value`, `generate_interpolation_segment`,
`generate_type`) return `Result` in the source but have no error path; they
are embedded as total functions. -/

/-- `HashMap::get` over the association-list model of the `names` map. -/
def lookupName (names : List (String × Span)) (s : String) : Option Span :=
  (names.find? (fun p => p.1 = s)).map Prod.snd

/-- `IrGenerator::generate_identifier`. -/
def generate_identifier (identifier : ast.Identifier) : ir.Identifier :=
  { span := identifier.span, name := identifier.name }

/-- `IrGenerator::generate_type`. -/
def generate_type (ty : ast.Ty) : ir.Ty :=
  { span := ty.span,
    kind :=
      match ty.kind with
      | .string => .string
      | .integer => .integer
      | .bool => .bool
      | .slot => .slot
      | .slotList => .slotList }

/-- `IrGenerator::generate_interpolation_segment`. -/
def generate_interpolation_segment (segment : ast.InterpolationSegment) :
    ir.InterpolationSegment :=
  { span := segment.span,
    kind :=
      match segment.kind with
      | .literal s => .literal s
      | .var identifier => .var (generate_identifier identifier) }

/-- `IrGenerator::generate_string_value`. -/
def generate_string_value (value : ast.StringValue) : ir.StringValue :=
  { span := value.span, segments := value.segments.map generate_interpolation_segment }

/-- `IrGenerator::generate_text`. -/
def generate_text (text : ast.Text) : ir.Text :=
  { span := text.span, segments := text.segments.map generate_interpolation_segment }

/-- `IrGenerator::generate_value`. -/
def generate_value (value : ast.Value) : ir.Value :=
  { span := value.span,
    kind :=
      match value.kind with
      | .string v => .string (generate_string_value v)
      | .var identifier => .var (generate_identifier identifier)
      | .integer n => .integer n
      | .bool b => .bool b }

/-- The key of a property, as the duplicate check reads it. -/
def propertyKey (p : ast.Property) : ast.Identifier :=
  match p.kind with
  | .keyValue key _ => key
  | .flag key => key

/-- The name under which a property is entered into the `names` map. -/
def propName (p : ast.Property) : String :=
  (propertyKey p).name

/-- The span stored in the `names` map for a property. -/
def propKeySpan (p : ast.Property) : Span :=
  (propertyKey p).span

/-- The `for property in properties.properties` loop of
`IrGenerator::generate_properties` (`ir_generator.rs` lines 109-144):
accumulates the `names` map and the two sets, failing on a name collision
with the first occurrence's span and the colliding occurrence's span. -/
def generate_properties_go :
    List ast.Property → List (String × Span) → List ir.Property → List ir.Identifier →
    Except IrGeneratorError (List ir.Property × List ir.Identifier)
  | [], _, named_properties, flag_properties => .ok (named_properties, flag_properties)
  | property :: rest, names, named_properties, flag_properties =>
    match property.kind with
    | .keyValue key value =>
      let key := generate_identifier key
      match lookupName names key.as_str with
      | some span => .error (.duplicatedProperty key.name span key.span)
      | none =>
        generate_properties_go rest ((key.as_str, key.span) :: names)
          (named_properties ++
            [{ span := property.span, key := key, value := generate_value value }])
          flag_properties
    | .flag key =>
      let key := generate_identifier key
      match lookupName names key.as_str with
      | some span => .error (.duplicatedProperty key.name span key.span)
      | none =>
        generate_properties_go rest ((key.as_str, key.span) :: names)
          named_properties (flag_properties ++ [key])

/-- `IrGenerator::generate_properties` (`ir_generator.rs` lines 97-151). -/
def generate_properties (properties : ast.Properties) :
    Except IrGeneratorError ir.Properties :=
  let default := properties.default.map generate_value
  (generate_properties_go properties.properties [] [] []).map
    (fun r =>
      { default := default, named_properties := r.1, flag_properties := r.2 })

mutual
/-- `IrGenerator::generate_component` (`ir_generator.rs` lines 53-95):
properties first, then the text/children exclusion check, then children and
text. The source's two steps (exclusion check, then `children.map(...)
.unwrap_or(Ok(vec![]))`) are expanded into explicit cases on the two options
so the recursion is visibly structural; the produced values coincide. -/
def generate_component : ast.Component → Except IrGeneratorError ir.Component
  | .mk span name properties children text =>
    let name_span := name.span
    let name := generate_identifier name
    match
      (match properties with
       | some props => generate_properties props
       | none =>
         .ok { default := none, named_properties := [], flag_properties := [] })
    with
    | .error e => .error e
    | .ok properties =>
      match children, text with
      | some ch, some tx =>
        .error (.textComponentWithChildren name_span ch.span tx.span)
      | some ch, none =>
        match generate_components ch.children with
        | .error e => .error e
        | .ok children => .ok (.mk span name properties children none)
      | none, text =>
        .ok (.mk span name properties [] (text.map generate_text))
termination_by c => sizeOf c
decreasing_by
  rcases ch with ⟨sp2, cs2⟩
  simp [ast.ComponentChildren.children]
  omega

/-- The `map … collect::<Result<_, _>>()` over a child list. -/
def generate_components : List ast.Component → Except IrGeneratorError (List ir.Component)
  | [] => .ok []
  | c :: cs =>
    match generate_component c with
    | .error e => .error e
    | .ok c' =>
      match generate_components cs with
      | .error e => .error e
      | .ok cs' => .ok (c' :: cs')
termination_by cs => sizeOf cs
decreasing_by
  all_goals simp
  omega
end

/-- `IrGenerator::generate_children` (delegates to the child-list collector). -/
def generate_children (children : ast.ComponentChildren) :
    Except IrGeneratorError (List ir.Component) :=
  generate_components children.children

/-- The `for property in def.properties` loop of
`IrGenerator::generate_properties_definition` (`ir_generator.rs` lines
201-282). Note that a `Default` declaration is stored in `default_property`
and also inserted into the `properties` set. -/
def generate_properties_definition_go :
    List ast.PropertyDefinition → Option ir.PropertyDefinition → Option ir.Identifier →
    List ir.PropertyDefinition → List (String × Span) →
    Except IrGeneratorError
      (Option ir.PropertyDefinition × Option ir.Identifier × List ir.PropertyDefinition)
  | [], default_property, text_property, properties, _ =>
    .ok (default_property, text_property, properties)
  | property :: rest, default_property, text_property, properties, names =>
    match property.kind with
    | .default d =>
      match default_property with
      | some prop_def =>
        .error (.multipleDefaultProperties d.name.span prop_def.span property.span)
      | none =>
        match lookupName names d.name.name with
        | some span => .error (.duplicatedProperty d.name.name span property.span)
        | none =>
          match d.default_value with
          | some default =>
            .error (.defaultPropertyWithValue d.name.span property.span default.span)
          | none =>
            let irdef : ir.PropertyDefinition :=
              { span := property.span, name := generate_identifier d.name,
                ty := generate_type d.ty, default_value := none }
            generate_properties_definition_go rest (some irdef) text_property
              (properties ++ [irdef]) ((d.name.name, property.span) :: names)
    | .text d =>
      match text_property with
      | some prop_def =>
        .error (.multipleTextProperties d.name.span prop_def.span property.span)
      | none =>
        match lookupName names d.name.name with
        | some span => .error (.duplicatedProperty d.name.name span property.span)
        | none =>
          generate_properties_definition_go rest default_property
            (some (generate_identifier d.name)) properties
            ((d.name.name, property.span) :: names)
    | .named d =>
      match lookupName names d.name.name with
      | some span => .error (.duplicatedProperty d.name.name span property.span)
      | none =>
        generate_properties_definition_go rest default_property text_property
          (properties ++
            [{ span := property.span, name := generate_identifier d.name,
               ty := generate_type d.ty,
               default_value := d.default_value.map generate_value }])
          ((d.name.name, property.span) :: names)

/-- `IrGenerator::generate_properties_definition` (`ir_generator.rs` lines
192-290). -/
def generate_properties_definition (d : ast.PropertiesDefinition) :
    Except IrGeneratorError ir.PropertiesDefinition :=
  (generate_properties_definition_go d.properties none none [] []).map
    (fun r =>
      { span := d.span, default_property := r.1, text_property := r.2.1,
        properties := r.2.2 })

/-- `IrGenerator::generate_component_definition` (`ir_generator.rs` lines
153-190): children first, then the direct self-reference check over the
immediate lowered children, then the properties definition. -/
def generate_component_definition (d : ast.ComponentDefinition) :
    Except IrGeneratorError ir.ComponentDefinition :=
  let name := generate_identifier d.name
  match
    (match d.children with
     | some ch => generate_children ch
     | none => .ok [])
  with
  | .error e => .error e
  | .ok children =>
    match children.find? (fun child => child.name.as_str = name.as_str) with
    | some child => .error (.circularDefinition name.span child.span)
    | none =>
      match
        (match d.properties with
         | some props => generate_properties_definition props
         | none =>
           .ok { span := d.name.span, text_property := none,
                 default_property := none, properties := [] })
      with
      | .error e => .error e
      | .ok properties =>
        .ok { span := d.span, name := generate_identifier d.name,
              properties := properties, children := children }

/-- `IrGenerator::generate_module_item`. -/
def generate_module_item : ast.ModuleItem → Except IrGeneratorError ir.ModuleItem
  | .component c => (generate_component c).map .component
  | .componentDefinition d => (generate_component_definition d).map .componentDefinition

/-- The `map … collect::<Result<_, _>>()` over the module items. -/
def generate_module_items : List ast.ModuleItem → Except IrGeneratorError (List ir.ModuleItem)
  | [] => .ok []
  | item :: rest =>
    match generate_module_item item with
    | .error e => .error e
    | .ok item' =>
      match generate_module_items rest with
      | .error e => .error e
      | .ok rest' => .ok (item' :: rest')

/-- `IrGenerator::generate_module`. -/
def generate_module (m : ast.Module) : Except IrGeneratorError ir.Module :=
  (generate_module_items m.items).map (fun items => { span := m.span, items := items })

/-- `IrGenerator::generate` (the public entry point over the stored AST). -/
def generate (m : ast.Module) : Except IrGeneratorError ir.Module :=
  generate_module m

/-- The AST children list of a component definition (empty when absent). -/
def childrenList (d : ast.ComponentDefinition) : List ast.Component :=
  match d.children with
  | some ch => ch.children
  | none => []

mutual
/-- No component in this subtree has both `children` and `text` populated
(the conflict `generate_component` reports as `TextComponentWithChildren`).
This predicate follows the specification wording (applying at any depth);
the theorems compare the validator and the generator against it. -/
def noBothB : ast.Component → Bool
  | .mk _ _ _ (some _) (some _) => false
  | .mk _ _ _ (some (.mk _ cs)) none => noBothListB cs
  | .mk _ _ _ none _ => true
termination_by c => sizeOf c
decreasing_by
  simp
  omega

def noBothListB : List ast.Component → Bool
  | [] => true
  | c :: cs => noBothB c && noBothListB cs
termination_by cs => sizeOf cs
decreasing_by
  all_goals simp
  omega
end

/-- The subtree predicate over a module item: the components of a component
item, and the immediate children of a definition item. -/
def noBothItemB : ast.ModuleItem → Bool
  | .component c => noBothB c
  | .componentDefinition d => noBothListB (childrenList d)

/-- No component anywhere in the module has both `children` and `text`. -/
def noBothModuleB (m : ast.Module) : Bool :=
  m.items.all noBothItemB

/-- Matcher for `Default` property declarations. -/
def isDefaultDeclB (pd : ast.PropertyDefinition) : Bool :=
  match pd.kind with
  | .default _ => true
  | _ => false

/-- Matcher for `Text` property declarations. -/
def isTextDeclB (pd : ast.PropertyDefinition) : Bool :=
  match pd.kind with
  | .text _ => true
  | _ => false

/-- The declared name of a property definition, as a string. -/
def declNameStr (pd : ast.PropertyDefinition) : String :=
  match pd.kind with
  | .text d => d.name.name
  | .named d => d.name.name
  | .default d => d.name.name

/-- A `Default` declaration carries no default value (others always pass). -/
def pdeclValuelessB (pd : ast.PropertyDefinition) : Bool :=
  match pd.kind with
  | .default d => d.default_value.isNone
  | _ => true

/-- Conditions under which a properties definition lowers successfully:
distinct declared names, at most one default and one text declaration, and
no default declaration carrying a value. These mirror the checks
`generate_properties_definition` performs. -/
def propertiesDefinitionOkB (pd : ast.PropertiesDefinition) : Bool :=
  (pd.properties.map declNameStr).Nodup &&
  pd.properties.countP isDefaultDeclB ≤ 1 &&
  pd.properties.countP isTextDeclB ≤ 1 &&
  pd.properties.all pdeclValuelessB

/-- Conditions on the optional property list of a component: distinct
property names. -/
def propsOkB : Option ast.Properties → Bool
  | some props => (props.properties.map propName).Nodup
  | none => true

mutual
/-- Conditions under which a component lowers successfully: distinct
property names, not both `children` and `text`, recursively in every
child. -/
def componentOkB : ast.Component → Bool
  | .mk _ _ _ (some _) (some _) => false
  | .mk _ _ pr (some (.mk _ cs)) none => propsOkB pr && componentsOkB cs
  | .mk _ _ pr none _ => propsOkB pr
termination_by c => sizeOf c
decreasing_by
  simp
  omega

def componentsOkB : List ast.Component → Bool
  | [] => true
  | c :: cs => componentOkB c && componentsOkB cs
termination_by cs => sizeOf cs
decreasing_by
  all_goals simp
  omega
end

/-- Conditions under which a component definition lowers successfully:
every child lowers, no immediate child bears the definition's name, and the
properties definition (when present) is well-formed. -/
def componentDefinitionOkB (d : ast.ComponentDefinition) : Bool :=
  componentsOkB (childrenList d) &&
  (childrenList d).all (fun c => c.name.name ≠ d.name.name) &&
  (match d.properties with
   | some pd => propertiesDefinitionOkB pd
   | none => true)

/-- Per-item lowering precondition. -/
def itemOkB : ast.ModuleItem → Bool
  | .component c => componentOkB c
  | .componentDefinition d => componentDefinitionOkB d

/-- Module-wide lowering precondition: the amended totality claim shows
`generate` succeeds exactly on this kind of module (the validator's `Ok` is
weaker, as it ignores nested components and definition-level checks). -/
def moduleOkB (m : ast.Module) : Bool :=
  m.items.all itemOkB

/-- The IR property definition a `Default` declaration lowers to, if any. -/
def defaultImage (pd : ast.PropertyDefinition) : Option ir.PropertyDefinition :=
  match pd.kind with
  | .default d => some { span := pd.span, name := generate_identifier d.name,
                         ty := generate_type d.ty, default_value := none }
  | _ => none

/-- The IR identifier a `Text` declaration lowers to, if any. -/
def textImage (pd : ast.PropertyDefinition) : Option ir.Identifier :=
  match pd.kind with
  | .text d => some (generate_identifier d.name)
  | _ => none

/-- The member the `properties` set receives for a declaration: named and
default declarations are inserted, text declarations are not. -/
def declImage (pd : ast.PropertyDefinition) : Option ir.PropertyDefinition :=
  match pd.kind with
  | .text _ => none
  | .default d => some { span := pd.span, name := generate_identifier d.name,
                         ty := generate_type d.ty, default_value := none }
  | .named d => some { span := pd.span, name := generate_identifier d.name,
                       ty := generate_type d.ty,
                       default_value := d.default_value.map generate_value }

end irgen

namespace validator

/-! ## Validator (markerml_frontend/src/validator/mod.rs)

The validator converts spans to `miette::SourceSpan`s against the source
text before storing them in errors; `SourceSpan` and
`SourceOffset::from_location` are modelled below (with character offsets
standing in for UTF-8 byte offsets, which coincide on ASCII input). -/

/-- `miette::SourceSpan`: offset plus length. -/
structure SourceSpan where
  offset : Nat
  length : Nat
deriving DecidableEq, Repr

/-- `miette::SourceOffset::from_location`: walk the source counting 1-based
line/column until the location is reached. -/
def fromLocationGo : List Char → Nat → Nat → Nat → Nat → Nat → Nat
  | [], _, _, _, _, offset => offset
  | c :: cs, locLine, locCol, line, col, offset =>
    if line + 1 ≥ locLine ∧ col + 1 ≥ locCol then offset
    else
      fromLocationGo cs locLine locCol
        (if c = '\n' then line + 1 else line)
        (if c = '\n' then 0 else col + 1)
        (offset + 1)

/-- `Position::to_miette_offset`. -/
def Position.to_miette_offset (p : Position) (code : List Char) : Nat :=
  fromLocationGo code p.line p.column 0 0 0

/-- `Span::to_miette_span` (`span.rs` lines 42-48). -/
def Span.to_miette_span (s : Span) (code : List Char) : SourceSpan :=
  let start := Position.to_miette_offset s.start code
  let stop := Position.to_miette_offset s.stop code
  { offset := start, length := stop - start }

/-- `ValidatorError` (`validator/validator_error.rs`). -/
inductive ValidatorError where
  | duplicatedPropertyName (component_name first second : SourceSpan) (name : String)
  | textComponentWithChildren (component_name text children : SourceSpan)
  | multipleTextProps (component_name first second : SourceSpan)
  | multipleDefaultProps (component_name first second : SourceSpan)
  | multipleSlotProps (component_name first second : SourceSpan)
  | multipleSlotListProps (component_name first second : SourceSpan)
  | slotAndSlotListProps (component_name slot slot_list : SourceSpan)
deriving DecidableEq, Repr

/-- `HashMap::get` over the association-list model of the `keys` map. -/
def lookupKey (keys : List (String × SourceSpan)) (s : String) : Option SourceSpan :=
  (keys.find? (fun p => p.1 = s)).map Prod.snd

/-- The `for property in &properties.properties` loop of
`Validator::validate_component_properties` (`validator/mod.rs` lines 56-76). -/
def validate_component_properties_go (code : List Char) (componentName : ast.Identifier) :
    List ast.Property → List (String × SourceSpan) → Except ValidatorError Unit
  | [], _ => .ok ()
  | property :: rest, keys =>
    let key :=
      match property.kind with
      | .flag key => key
      | .keyValue key _ => key
    match lookupKey keys key.name with
    | some prev =>
      .error (.duplicatedPropertyName (Span.to_miette_span componentName.span code)
        prev (Span.to_miette_span key.span code) key.name)
    | none =>
      validate_component_properties_go code componentName rest
        ((key.name, Span.to_miette_span key.span code) :: keys)

/-- `Validator::validate_component_properties`. -/
def validate_component_properties (code : List Char) (properties : ast.Properties)
    (component : ast.Component) : Except ValidatorError Unit :=
  validate_component_properties_go code component.name properties.properties []

/-- `Validator::validate_component` (`validator/mod.rs` lines 40-54): the
text/children exclusion first, then the property list; children are NOT
visited. -/
def validate_component (code : List Char) (component : ast.Component) :
    Except ValidatorError Unit :=
  match component.text, component.children with
  | some text, some children =>
    .error (.textComponentWithChildren
      (Span.to_miette_span component.name.span code)
      (Span.to_miette_span text.span code)
      (Span.to_miette_span children.span code))
  | _, _ =>
    match component.properties with
    | some properties => validate_component_properties code properties component
    | none => .ok ()

/-- `Itertools::next_tuple::<(_, _)>()` over a filtered iterator: the first
two matching elements. -/
def firstTwo (pred : α → Bool) (l : List α) : Option (α × α) :=
  match l.filter pred with
  | a :: b :: _ => some (a, b)
  | _ => none

/-- Matcher for `PropertyDefinitionKind::Text(_)`. -/
def isTextDef (pd : ast.PropertyDefinition) : Bool :=
  match pd.kind with
  | .text _ => true
  | _ => false

/-- Matcher for `PropertyDefinitionKind::Default(_)`. -/
def isDefaultDef (pd : ast.PropertyDefinition) : Bool :=
  match pd.kind with
  | .default _ => true
  | _ => false

/-- Matcher for `Named` declarations of type `Slot`. -/
def isSlotDef (pd : ast.PropertyDefinition) : Bool :=
  match pd.kind with
  | .named d => d.ty.kind = .slot
  | _ => false

/-- Matcher for `Named` declarations of type `SlotList`. -/
def isSlotListDef (pd : ast.PropertyDefinition) : Bool :=
  match pd.kind with
  | .named d => d.ty.kind = .slotList
  | _ => false

/-- The declared name of a property definition (text, named or default). -/
def declName (pd : ast.PropertyDefinition) : ast.Identifier :=
  match pd.kind with
  | .text d => d.name
  | .named d => d.name
  | .default d => d.name

/-- The final duplicate-name loop of
`Validator::validate_component_definition_properties` (`validator/mod.rs`
lines 170-187). -/
def validate_definition_names_go (code : List Char) (componentName : ast.Identifier) :
    List ast.PropertyDefinition → List (String × SourceSpan) → Except ValidatorError Unit
  | [], _ => .ok ()
  | property :: rest, keys =>
    let name := declName property
    match lookupKey keys name.name with
    | some prev =>
      .error (.duplicatedPropertyName (Span.to_miette_span componentName.span code)
        prev (Span.to_miette_span name.span code) name.name)
    | none =>
      validate_definition_names_go code componentName rest
        ((name.name, Span.to_miette_span name.span code) :: keys)

/-- `Validator::validate_component_definition_properties` (`validator/mod.rs`
lines 86-190). -/
def validate_component_definition_properties (code : List Char)
    (properties : ast.PropertiesDefinition) (component : ast.ComponentDefinition) :
    Except ValidatorError Unit :=
  let props := properties.properties
  match firstTwo isTextDef props with
  | some (a, b) =>
    .error (.multipleTextProps (Span.to_miette_span component.name.span code)
      (Span.to_miette_span a.span code) (Span.to_miette_span b.span code))
  | none =>
    match firstTwo isDefaultDef props with
    | some (a, b) =>
      .error (.multipleDefaultProps (Span.to_miette_span component.name.span code)
        (Span.to_miette_span a.span code) (Span.to_miette_span b.span code))
    | none =>
      match firstTwo isSlotDef props with
      | some (a, b) =>
        .error (.multipleSlotProps (Span.to_miette_span component.name.span code)
          (Span.to_miette_span a.span code) (Span.to_miette_span b.span code))
      | none =>
        match firstTwo isSlotListDef props with
        | some (a, b) =>
          .error (.multipleSlotListProps (Span.to_miette_span component.name.span code)
            (Span.to_miette_span a.span code) (Span.to_miette_span b.span code))
        | none =>
          match props.find? isSlotDef, props.find? isSlotListDef with
          | some slot_prop, some slot_list_prop =>
            .error (.slotAndSlotListProps (Span.to_miette_span component.name.span code)
              (Span.to_miette_span slot_prop.span code)
              (Span.to_miette_span slot_list_prop.span code))
          | _, _ => validate_definition_names_go code component.name props []

/-- `Validator::validate_component_definition`. -/
def validate_component_definition (code : List Char)
    (component_def : ast.ComponentDefinition) : Except ValidatorError Unit :=
  match component_def.properties with
  | some properties =>
    validate_component_definition_properties code properties component_def
  | none => .ok ()

/-- `Validator::validate_module_item`. -/
def validate_module_item (code : List Char) (item : ast.ModuleItem) :
    Except ValidatorError Unit :=
  match item with
  | .component component => validate_component code component
  | .componentDefinition component_def => validate_component_definition code component_def

/-- The `for item in &module.items` loop of `Validator::validate_module`. -/
def validate_module_items (code : List Char) :
    List ast.ModuleItem → Except ValidatorError Unit
  | [] => .ok ()
  | item :: rest =>
    match validate_module_item code item with
    | .error e => .error e
    | .ok () => validate_module_items code rest

/-- `Validator::validate_module`. -/
def validate_module (code : List Char) (module : ast.Module) :
    Except ValidatorError Unit :=
  validate_module_items code module.items

/-- `Validator::validate`. -/
def validate (code : List Char) (module : ast.Module) : Except ValidatorError Unit :=
  validate_module code module

end validator

namespace parser
open token

/-! ## Parser: string/text values (markerml_frontend/src/parser/mod.rs)

Only the `string` and `text` combinators are embedded (the segment-folding
part of the chumsky parser that the claims address). Chumsky's `or` tries
`variable_interpolation` before the literal and backtracks without consuming;
`repeated` is greedy. The loops are fuel-indexed; on fuel exhaustion the loop
simply stops, and every claim conditions on the parse succeeding. -/

/-- A token paired with its span, as the parser consumes them. -/
abbrev Tok := TokenKind × Span

/-- `variable_interpolation` (`parser/mod.rs` lines 217-229):
`'$' '{' IDENTIFIER '}'`, producing a `Variable` segment spanning the four
tokens. -/
def variable_interpolation : List Tok → Option (ast.InterpolationSegment × List Tok)
  | (.punctuator .dollar, s1) :: (.punctuator .leftCurlyBracket, _) ::
      (.identifier name, s3) :: (.punctuator .rightCurlyBracket, s4) :: rest =>
    some ({ span := { start := s1.start, stop := s4.stop },
            kind := .var { span := s3, name := name } }, rest)
  | _ => none

/-- `text_literal` (`parser/mod.rs` lines 231-235): any `Text` token becomes
a literal segment holding its content. -/
def text_literal : List Tok → Option (ast.InterpolationSegment × List Tok)
  | (.text t, sp) :: rest => some ({ span := sp, kind := .literal t.content }, rest)
  | _ => none

/-- `string_literal` (`parser/mod.rs` lines 237-241). -/
def string_literal : List Tok → Option (ast.InterpolationSegment × List Tok)
  | (.stringLiteral s, sp) :: rest => some ({ span := sp, kind := .literal s.content }, rest)
  | _ => none

/-- The `foldl` body shared by `text` and `string` (`parser/mod.rs` lines
182-191 and 200-209): empty literal segments are dropped, any other segment
extends the span and is pushed. -/
def foldSegment (acc : Span × List ast.InterpolationSegment)
    (x : ast.InterpolationSegment) : Span × List ast.InterpolationSegment :=
  match x.kind with
  | .literal s =>
    if s = "" then acc
    else (acc.1.bitor x.span, acc.2 ++ [x])
  | .var _ => (acc.1.bitor x.span, acc.2 ++ [x])

/-- The greedy `(variable_interpolation.or(literal)).repeated()` fold. The
`lit` argument is `text_literal` for text values and `string_literal` for
string values. -/
def segments_go (lit : List Tok → Option (ast.InterpolationSegment × List Tok)) :
    Nat → Span × List ast.InterpolationSegment → List Tok →
    (Span × List ast.InterpolationSegment) × List Tok
  | 0, acc, toks => (acc, toks)
  | fuel + 1, acc, toks =>
    match variable_interpolation toks with
    | some (seg, rest) => segments_go lit fuel (foldSegment acc seg) rest
    | none =>
      match lit toks with
      | some (seg, rest) => segments_go lit fuel (foldSegment acc seg) rest
      | none => (acc, toks)

/-- `text` (`parser/mod.rs` lines 176-192): a leading text literal (kept even
when empty), then folded segments. -/
def text (fuel : Nat) (toks : List Tok) : Option (ast.Text × List Tok) :=
  (text_literal toks).map
    (fun (seg, rest) =>
      let r := segments_go text_literal fuel (seg.span, [seg]) rest
      ({ span := r.1.1, segments := r.1.2 }, r.2))

/-- `string` (`parser/mod.rs` lines 194-215): like `text` over string
literal tokens, wrapped as a `String` value. -/
def string (fuel : Nat) (toks : List Tok) : Option (ast.Value × List Tok) :=
  (string_literal toks).map
    (fun (seg, rest) =>
      let r := segments_go string_literal fuel (seg.span, [seg]) rest
      let value : ast.StringValue := { span := r.1.1, segments := r.1.2 }
      ({ span := value.span, kind := .string value }, r.2))

end parser

namespace lexer
open token

/-! ## Lexer: the unrecognized-character step (claim C3) -/

/-- A character that begins no recognized token in default lexing mode: not
horizontal whitespace, not a line ending, not the start of a comment (`/`),
a text literal (`(`), a string literal (`"`), an integer (digit or `-`), a
punctuator, or an identifier. -/
def unrecognizedChar (ch : Char) : Bool :=
  !isWhitespaceExceptNewline ch && !isNewline ch &&
  !(ch == '/') && !(ch == '(') && !(ch == '"') &&
  !isIntegerHead ch &&
  !(ch == '[' || ch == ']' || ch == '{' || ch == '}' || ch == ',' || ch == ':' ||
    ch == '=' || ch == '$' || ch == '@' || ch == '#') &&
  !isIdentifierHead ch

end lexer

namespace irgen

/-! ## Properties-loop specification (claims C1, C10) -/

/-- The IR named property a `KeyValue` AST property lowers to, if any. -/
def kvImage (p : ast.Property) : Option ir.Property :=
  match p.kind with
  | .keyValue key value =>
    some { span := p.span, key := generate_identifier key, value := generate_value value }
  | .flag _ => none

/-- The IR flag identifier a `Flag` AST property lowers to, if any. -/
def flagImage (p : ast.Property) : Option ir.Identifier :=
  match p.kind with
  | .flag key => some (generate_identifier key)
  | .keyValue _ _ => none

end irgen

/-- Concrete duplicate-property list modelling `box[a, a]`: two flag
properties named `a`. -/
def c1dup : ast.Properties :=
  { span := { start := ⟨1, 4⟩, stop := ⟨1, 10⟩ }, default := none,
    properties :=
      [{ span := { start := ⟨1, 5⟩, stop := ⟨1, 6⟩ },
         kind := .flag { span := { start := ⟨1, 5⟩, stop := ⟨1, 6⟩ }, name := "a" } },
       { span := { start := ⟨1, 8⟩, stop := ⟨1, 9⟩ },
         kind := .flag { span := { start := ⟨1, 8⟩, stop := ⟨1, 9⟩ }, name := "a" } }] }

/-- The `x = 1` property of the duplicate-free example. -/
def c1okP1 : ast.Property :=
  { span := { start := ⟨1, 5⟩, stop := ⟨1, 10⟩ },
    kind := .keyValue { span := { start := ⟨1, 5⟩, stop := ⟨1, 6⟩ }, name := "x" }
      { span := { start := ⟨1, 9⟩, stop := ⟨1, 10⟩ }, kind := .integer 1 } }

/-- The `y` flag property of the duplicate-free example. -/
def c1okP2 : ast.Property :=
  { span := { start := ⟨1, 12⟩, stop := ⟨1, 13⟩ },
    kind := .flag { span := { start := ⟨1, 12⟩, stop := ⟨1, 13⟩ }, name := "y" } }

/-- Concrete duplicate-free property list modelling `box[x = 1, y]`. -/
def c1ok : ast.Properties :=
  { span := { start := ⟨1, 4⟩, stop := ⟨1, 14⟩ }, default := none,
    properties := [c1okP1, c1okP2] }

/-- The IR property set `c1ok` lowers to. -/
def c1okResult : ir.Properties :=
  { default := none,
    flag_properties := [{ span := { start := ⟨1, 12⟩, stop := ⟨1, 13⟩ }, name := "y" }],
    named_properties :=
      [{ span := { start := ⟨1, 5⟩, stop := ⟨1, 10⟩ },
         key := { span := { start := ⟨1, 5⟩, stop := ⟨1, 6⟩ }, name := "x" },
         value := { span := { start := ⟨1, 9⟩, stop := ⟨1, 10⟩ }, kind := .integer 1 } }] }

/-- Concrete component definition modelling `component custom { custom }`:
a definition named `custom` whose single immediate child is a component
also named `custom`. -/
def c5def : ast.ComponentDefinition :=
  { span := { start := ⟨0, 0⟩, stop := ⟨0, 26⟩ },
    name := { span := ⟨⟨0, 10⟩, ⟨0, 16⟩⟩, name := "custom" },
    properties := none,
    children := some (.mk ⟨⟨0, 17⟩, ⟨0, 26⟩⟩
      [.mk ⟨⟨0, 19⟩, ⟨0, 25⟩⟩ { span := ⟨⟨0, 19⟩, ⟨0, 25⟩⟩, name := "custom" }
        none none none]) }

/-- Concrete component definition modelling `component custom { box { custom } }`:
the definition's own name appears only nested inside `box`, not as an
immediate child. -/
def c5nested : ast.ComponentDefinition :=
  { span := { start := ⟨0, 0⟩, stop := ⟨0, 35⟩ },
    name := { span := ⟨⟨0, 10⟩, ⟨0, 16⟩⟩, name := "custom" },
    properties := none,
    children := some (.mk ⟨⟨0, 17⟩, ⟨0, 35⟩⟩
      [.mk ⟨⟨0, 19⟩, ⟨0, 33⟩⟩ { span := ⟨⟨0, 19⟩, ⟨0, 22⟩⟩, name := "box" }
        none
        (some (.mk ⟨⟨0, 23⟩, ⟨0, 33⟩⟩
          [.mk ⟨⟨0, 25⟩, ⟨0, 31⟩⟩ { span := ⟨⟨0, 25⟩, ⟨0, 31⟩⟩, name := "custom" }
            none none none]))
        none]) }

/-- The text value of the nested conflicted component of the C2 example. -/
def c2text : ast.Text := { span := ⟨⟨0, 30⟩, ⟨0, 33⟩⟩, segments := [] }

/-- The children block of the nested conflicted component of the C2
example: a single `box`. -/
def c2innerChildren : ast.ComponentChildren :=
  .mk ⟨⟨0, 20⟩, ⟨0, 28⟩⟩
    [.mk ⟨⟨0, 22⟩, ⟨0, 25⟩⟩ { span := ⟨⟨0, 22⟩, ⟨0, 25⟩⟩, name := "box" }
      none none none]

/-- A component with both `children` and `text` populated (modelling
`paragraph(x) { box }`-style conflicts). -/
def c2nested : ast.Component :=
  .mk ⟨⟨0, 10⟩, ⟨0, 35⟩⟩ { span := ⟨⟨0, 10⟩, ⟨0, 19⟩⟩, name := "paragraph" } none
    (some c2innerChildren) (some c2text)

/-- A top-level `box` holding the conflicted component as a nested child. -/
def c2top : ast.Component :=
  .mk ⟨⟨0, 0⟩, ⟨0, 37⟩⟩ { span := ⟨⟨0, 0⟩, ⟨0, 3⟩⟩, name := "box" } none
    (some (.mk ⟨⟨0, 4⟩, ⟨0, 37⟩⟩ [c2nested])) none

/-- A module whose only conflicted component sits at nesting depth one. -/
def c2mod : ast.Module :=
  { span := ⟨⟨0, 0⟩, ⟨0, 37⟩⟩, items := [.component c2top] }

/-- A conflict-free component with a duplicated property name, modelling
`box[a, a]` as a module item. -/
def c2dupcomp : ast.Component :=
  .mk ⟨⟨0, 0⟩, ⟨0, 10⟩⟩ { span := ⟨⟨0, 0⟩, ⟨0, 3⟩⟩, name := "box" }
    (some { span := ⟨⟨0, 3⟩, ⟨0, 10⟩⟩, default := none,
            properties :=
              [{ span := ⟨⟨0, 4⟩, ⟨0, 5⟩⟩,
                 kind := .flag { span := ⟨⟨0, 4⟩, ⟨0, 5⟩⟩, name := "a" } },
               { span := ⟨⟨0, 7⟩, ⟨0, 8⟩⟩,
                 kind := .flag { span := ⟨⟨0, 7⟩, ⟨0, 8⟩⟩, name := "a" } }] })
    none none

/-- A conflict-free module that still fails both validation and lowering
(with duplicate-property errors). -/
def c2dupmod : ast.Module :=
  { span := ⟨⟨0, 0⟩, ⟨0, 10⟩⟩, items := [.component c2dupcomp] }

/-- A component definition with a direct self-reference, modelling
`component custom { custom }` as a module item (distinct from the C5
examples). -/
def c4circdef : ast.ComponentDefinition :=
  { span := { start := ⟨0, 0⟩, stop := ⟨0, 26⟩ },
    name := { span := ⟨⟨0, 10⟩, ⟨0, 16⟩⟩, name := "custom" },
    properties := none,
    children := some (.mk ⟨⟨0, 17⟩, ⟨0, 26⟩⟩
      [.mk ⟨⟨0, 19⟩, ⟨0, 25⟩⟩ { span := ⟨⟨0, 19⟩, ⟨0, 25⟩⟩, name := "custom" }
        none none none]) }

/-- A module holding only the circular definition. -/
def c4circmod : ast.Module :=
  { span := { start := ⟨0, 0⟩, stop := ⟨0, 26⟩ }, items := [.componentDefinition c4circdef] }

/-- A plain component definition with no properties and no children. -/
def c4plaindef : ast.ComponentDefinition :=
  { span := { start := ⟨0, 0⟩, stop := ⟨0, 16⟩ },
    name := { span := ⟨⟨0, 10⟩, ⟨0, 16⟩⟩, name := "custom" },
    properties := none, children := none }

/-- A module that satisfies the lowering precondition: one `box` with a flag
property and one plain child. -/
def c4okcomp : ast.Component :=
  .mk ⟨⟨0, 0⟩, ⟨0, 20⟩⟩ { span := ⟨⟨0, 0⟩, ⟨0, 3⟩⟩, name := "box" }
    (some { span := ⟨⟨0, 3⟩, ⟨0, 8⟩⟩, default := none,
            properties :=
              [{ span := ⟨⟨0, 4⟩, ⟨0, 5⟩⟩,
                 kind := .flag { span := ⟨⟨0, 4⟩, ⟨0, 5⟩⟩, name := "a" } }] })
    (some (.mk ⟨⟨0, 9⟩, ⟨0, 20⟩⟩
      [.mk ⟨⟨0, 11⟩, ⟨0, 18⟩⟩ { span := ⟨⟨0, 11⟩, ⟨0, 18⟩⟩, name := "heading" }
        none none none]))
    none

/-- The module wrapping `c4okcomp`. -/
def c4okmod : ast.Module :=
  { span := ⟨⟨0, 0⟩, ⟨0, 20⟩⟩, items := [.component c4okcomp] }

/-- A properties definition block with a default, a text and a named
declaration: `properties { default a: string, text t, b: bool }`. -/
def c8pd : ast.PropertiesDefinition :=
  { span := ⟨⟨0, 0⟩, ⟨0, 40⟩⟩,
    properties :=
      [{ span := ⟨⟨1, 0⟩, ⟨1, 17⟩⟩,
         kind := .default { name := { span := ⟨⟨1, 8⟩, ⟨1, 9⟩⟩, name := "a" },
                            ty := { span := ⟨⟨1, 11⟩, ⟨1, 17⟩⟩, kind := .string },
                            default_value := none } },
       { span := ⟨⟨2, 0⟩, ⟨2, 6⟩⟩,
         kind := .text { name := { span := ⟨⟨2, 5⟩, ⟨2, 6⟩⟩, name := "t" } } },
       { span := ⟨⟨3, 0⟩, ⟨3, 7⟩⟩,
         kind := .named { name := { span := ⟨⟨3, 0⟩, ⟨3, 1⟩⟩, name := "b" },
                          ty := { span := ⟨⟨3, 3⟩, ⟨3, 7⟩⟩, kind := .bool },
                          default_value := none } }] }

/-- The IR image of the default declaration of `c8pd`. -/
def c8irdef : ir.PropertyDefinition :=
  { span := ⟨⟨1, 0⟩, ⟨1, 17⟩⟩, name := { span := ⟨⟨1, 8⟩, ⟨1, 9⟩⟩, name := "a" },
    ty := { span := ⟨⟨1, 11⟩, ⟨1, 17⟩⟩, kind := .string }, default_value := none }

/-- The IR properties definition `c8pd` lowers to: note the default
declaration sits in `default_property` AND in the `properties` set. -/
def c8res : ir.PropertiesDefinition :=
  { span := ⟨⟨0, 0⟩, ⟨0, 40⟩⟩,
    default_property := some c8irdef,
    text_property := some { span := ⟨⟨2, 5⟩, ⟨2, 6⟩⟩, name := "t" },
    properties :=
      [c8irdef,
       { span := ⟨⟨3, 0⟩, ⟨3, 7⟩⟩, name := { span := ⟨⟨3, 0⟩, ⟨3, 1⟩⟩, name := "b" },
         ty := { span := ⟨⟨3, 3⟩, ⟨3, 7⟩⟩, kind := .bool },
         default_value := none }] }

/-- The string value `"x"` of the key-value property of `c10ps`. -/
def c10strAst : ast.Value :=
  { span := ⟨⟨0, 11⟩, ⟨0, 14⟩⟩,
    kind := .string { span := ⟨⟨0, 11⟩, ⟨0, 14⟩⟩,
                      segments := [{ span := ⟨⟨0, 12⟩, ⟨0, 13⟩⟩,
                                     kind := .literal "x" }] } }

/-- The IR image of `c10strAst`. -/
def c10strIr : ir.Value :=
  { span := ⟨⟨0, 11⟩, ⟨0, 14⟩⟩,
    kind := .string { span := ⟨⟨0, 11⟩, ⟨0, 14⟩⟩,
                      segments := [{ span := ⟨⟨0, 12⟩, ⟨0, 13⟩⟩,
                                     kind := .literal "x" }] } }

/-- A property list modelling `box[a, b = "x"]` (one flag, one key-value;
distinct names). -/
def c10ps : ast.Properties :=
  { span := ⟨⟨0, 3⟩, ⟨0, 14⟩⟩, default := none,
    properties :=
      [{ span := ⟨⟨0, 4⟩, ⟨0, 5⟩⟩,
         kind := .flag { span := ⟨⟨0, 4⟩, ⟨0, 5⟩⟩, name := "a" } },
       { span := ⟨⟨0, 7⟩, ⟨0, 14⟩⟩,
         kind := .keyValue { span := ⟨⟨0, 7⟩, ⟨0, 8⟩⟩, name := "b" } c10strAst }] }

/-- The IR properties `c10ps` lowers to. -/
def c10res1 : ir.Properties :=
  { default := none,
    flag_properties := [{ span := ⟨⟨0, 4⟩, ⟨0, 5⟩⟩, name := "a" }],
    named_properties :=
      [{ span := ⟨⟨0, 7⟩, ⟨0, 14⟩⟩,
         key := { span := ⟨⟨0, 7⟩, ⟨0, 8⟩⟩, name := "b" },
         value := c10strIr }] }

/-- A properties definition block with a text and a named declaration. -/
def c10pd2 : ast.PropertiesDefinition :=
  { span := ⟨⟨0, 0⟩, ⟨0, 30⟩⟩,
    properties :=
      [{ span := ⟨⟨1, 0⟩, ⟨1, 6⟩⟩,
         kind := .text { name := { span := ⟨⟨1, 5⟩, ⟨1, 6⟩⟩, name := "t" } } },
       { span := ⟨⟨2, 0⟩, ⟨2, 7⟩⟩,
         kind := .named { name := { span := ⟨⟨2, 0⟩, ⟨2, 1⟩⟩, name := "b" },
                          ty := { span := ⟨⟨2, 3⟩, ⟨2, 7⟩⟩, kind := .bool },
                          default_value := none } }] }

/-- The IR properties definition `c10pd2` lowers to. -/
def c10res2 : ir.PropertiesDefinition :=
  { span := ⟨⟨0, 0⟩, ⟨0, 30⟩⟩,
    default_property := none,
    text_property := some { span := ⟨⟨1, 5⟩, ⟨1, 6⟩⟩, name := "t" },
    properties :=
      [{ span := ⟨⟨2, 0⟩, ⟨2, 7⟩⟩, name := { span := ⟨⟨2, 0⟩, ⟨2, 1⟩⟩, name := "b" },
         ty := { span := ⟨⟨2, 3⟩, ⟨2, 7⟩⟩, kind := .bool },
         default_value := none }] }

/-- A properties definition block with a single default declaration
`default b: integer`, whose name ends up both in `default_property` and in
the `properties` set. -/
def c10pd3 : ast.PropertiesDefinition :=
  { span := ⟨⟨0, 0⟩, ⟨0, 20⟩⟩,
    properties :=
      [{ span := ⟨⟨1, 0⟩, ⟨1, 18⟩⟩,
         kind := .default { name := { span := ⟨⟨1, 8⟩, ⟨1, 9⟩⟩, name := "b" },
                            ty := { span := ⟨⟨1, 11⟩, ⟨1, 18⟩⟩, kind := .integer },
                            default_value := none } }] }

/-- The IR image of the default declaration of `c10pd3`. -/
def c10irdef3 : ir.PropertyDefinition :=
  { span := ⟨⟨1, 0⟩, ⟨1, 18⟩⟩, name := { span := ⟨⟨1, 8⟩, ⟨1, 9⟩⟩, name := "b" },
    ty := { span := ⟨⟨1, 11⟩, ⟨1, 18⟩⟩, kind := .integer }, default_value := none }

/-- The lowered form of `c10pd3`, with the default copied into the set. -/
def c10res3 : ir.PropertiesDefinition :=
  { span := ⟨⟨0, 0⟩, ⟨0, 20⟩⟩,
    default_property := some c10irdef3,
    text_property := none,
    properties := [c10irdef3] }

/-- The token stream `lex` produces for the text value `(${x})`: an empty
leading text token, the interpolation, and an empty trailing text token. -/
def c7toks : List parser.Tok :=
  [(.text { content := "", is_closed := true }, ⟨⟨1, 1⟩, ⟨1, 3⟩⟩),
   (.punctuator .dollar, ⟨⟨1, 3⟩, ⟨1, 3⟩⟩),
   (.punctuator .leftCurlyBracket, ⟨⟨1, 3⟩, ⟨1, 4⟩⟩),
   (.identifier "x", ⟨⟨1, 4⟩, ⟨1, 5⟩⟩),
   (.punctuator .rightCurlyBracket, ⟨⟨1, 5⟩, ⟨1, 6⟩⟩),
   (.text { content := "", is_closed := true }, ⟨⟨1, 6⟩, ⟨1, 7⟩⟩)]

/-- The parse of `c7toks`: one interpolation, and an empty literal segment
kept at the head. -/
def c7res : ast.Text :=
  { span := ⟨⟨1, 1⟩, ⟨1, 6⟩⟩,
    segments :=
      [{ span := ⟨⟨1, 1⟩, ⟨1, 3⟩⟩, kind := .literal "" },
       { span := ⟨⟨1, 3⟩, ⟨1, 6⟩⟩,
         kind := .var { span := ⟨⟨1, 4⟩, ⟨1, 5⟩⟩, name := "x" } }] }

/-- A string-token stream with a leading empty literal and an
interpolation. -/
def c7stoks : List parser.Tok :=
  [(.stringLiteral { content := "", is_closed := true }, ⟨⟨1, 1⟩, ⟨1, 2⟩⟩),
   (.punctuator .dollar, ⟨⟨1, 2⟩, ⟨1, 2⟩⟩),
   (.punctuator .leftCurlyBracket, ⟨⟨1, 2⟩, ⟨1, 3⟩⟩),
   (.identifier "x", ⟨⟨1, 3⟩, ⟨1, 4⟩⟩),
   (.punctuator .rightCurlyBracket, ⟨⟨1, 4⟩, ⟨1, 5⟩⟩)]

/-- The string value `c7stoks` parses to. -/
def c7sval : ast.StringValue :=
  { span := ⟨⟨1, 1⟩, ⟨1, 5⟩⟩,
    segments :=
      [{ span := ⟨⟨1, 1⟩, ⟨1, 2⟩⟩, kind := .literal "" },
       { span := ⟨⟨1, 2⟩, ⟨1, 5⟩⟩,
         kind := .var { span := ⟨⟨1, 3⟩, ⟨1, 4⟩⟩, name := "x" } }] }

/-- The value wrapper of `c7sval`. -/
def c7sres : ast.Value :=
  { span := ⟨⟨1, 1⟩, ⟨1, 5⟩⟩, kind := .string c7sval }

/-! ## Theorems -/

theorem Position.leb_total (a b : Position) : a.leb b = true ∨ b.leb a = true := by
  rcases a with ⟨la, ca⟩; rcases b with ⟨lb, cb⟩
  simp only [Position.leb, decide_eq_true_eq]
  omega

theorem Position.leb_antisymm {a b : Position} (h1 : a.leb b = true)
    (h2 : b.leb a = true) : a = b := by
  rcases a with ⟨la, ca⟩; rcases b with ⟨lb, cb⟩
  simp only [Position.leb, decide_eq_true_eq] at h1 h2
  have : la = lb ∧ ca = cb := by omega
  simp [this.1, this.2]

theorem Position.leb_trans {a b c : Position} (h1 : a.leb b = true)
    (h2 : b.leb c = true) : a.leb c = true := by
  rcases a with ⟨la, ca⟩; rcases b with ⟨lb, cb⟩; rcases c with ⟨lc, cc⟩
  simp only [Position.leb, decide_eq_true_eq] at h1 h2 ⊢
  omega

theorem Position.leb_of_not_leb {a b : Position} (h : a.leb b = false) :
    b.leb a = true := by
  rcases Position.leb_total a b with h' | h'
  · rw [h'] at h; exact absurd h (by simp)
  · exact h'

theorem Position.minP_comm (a b : Position) : a.minP b = b.minP a := by
  unfold Position.minP
  cases h1 : a.leb b <;> cases h2 : b.leb a <;> simp [h1, h2]
  · exact absurd (Position.leb_of_not_leb h1) (by simp [h2])
  · exact Position.leb_antisymm h1 h2

theorem Position.maxP_comm (a b : Position) : a.maxP b = b.maxP a := by
  unfold Position.maxP
  cases h1 : a.leb b <;> cases h2 : b.leb a <;> simp [h1, h2]
  · exact absurd (Position.leb_of_not_leb h1) (by simp [h2])
  · exact (Position.leb_antisymm h1 h2).symm

theorem Position.minP_assoc (a b c : Position) :
    (a.minP b).minP c = a.minP (b.minP c) := by
  unfold Position.minP
  cases hab : a.leb b <;> cases hbc : b.leb c <;> cases hac : a.leb c <;>
      simp [hab, hbc, hac]
  · exact absurd
      (Position.leb_trans hac (Position.leb_of_not_leb hbc)) (by simp [hab])
  · exact absurd (Position.leb_trans hab hbc) (by simp [hac])

theorem Position.maxP_assoc (a b c : Position) :
    (a.maxP b).maxP c = a.maxP (b.maxP c) := by
  unfold Position.maxP
  cases hab : a.leb b <;> cases hbc : b.leb c <;> cases hac : a.leb c <;>
      simp [hab, hbc, hac]
  · exact absurd
      (Position.leb_trans hac (Position.leb_of_not_leb hbc)) (by simp [hab])
  · exact absurd (Position.leb_trans hab hbc) (by simp [hac])

namespace lexer
open token

/-! ### Lexer termination: the fuel supplied by `lex` always suffices -/

theorem skipWhitespaceAux_length_le (cs : List Char) (col : Nat) :
    (skipWhitespaceAux cs col).1.length ≤ cs.length := by
  induction cs generalizing col with
  | nil => simp [skipWhitespaceAux]
  | cons c cs ih =>
    simp only [skipWhitespaceAux]
    split
    · exact le_trans (ih _) (by simp)
    · simp

theorem skipCommentAux_length_le (delim : Option Char) (cs : List Char) (col : Nat) :
    (skipCommentAux delim cs col).1.length ≤ cs.length := by
  induction cs generalizing col with
  | nil => simp [skipCommentAux]
  | cons c cs ih =>
    simp only [skipCommentAux]
    split
    · simp
    · exact le_trans (ih _) (by simp)

theorem takeTailAux_length_le (pred : Char → Bool) (cs : List Char) (col : Nat)
    (content : String) :
    (takeTailAux pred cs col content).2.1.length ≤ cs.length := by
  induction cs generalizing col content with
  | nil => simp [takeTailAux]
  | cons c cs ih =>
    simp only [takeTailAux]
    split
    · exact le_trans (ih _ _) (by simp)
    · simp

theorem Lexer.skip_length_le (st : Lexer) : st.skip.chars.length ≤ st.chars.length := by
  cases h : st.chars <;> simp [Lexer.skip, Lexer.next, h]

theorem Lexer.skip_length_lt (st : Lexer) (h : st.chars ≠ []) :
    st.skip.chars.length < st.chars.length := by
  cases hc : st.chars with
  | nil => exact absurd hc h
  | cons c cs => simp [Lexer.skip, Lexer.next, hc]

theorem Lexer.consumeIf_length_le (st : Lexer) (pred : Char → Bool) :
    (st.consumeIf pred).2.chars.length ≤ st.chars.length := by
  unfold Lexer.consumeIf
  cases h : st.peek with
  | none => simp
  | some ch =>
    by_cases hp : pred ch <;> simp [hp, Lexer.skip_length_le]

theorem Lexer.advanceLine_chars (st : Lexer) : st.advanceLine.chars = st.chars := rfl

theorem Lexer.consumeIfEq_length_le (st : Lexer) (ch : Char) :
    (st.consumeIfEq ch).2.chars.length ≤ st.chars.length :=
  Lexer.consumeIf_length_le st _

theorem Lexer.tryConsumeLineEnding_length_le (st : Lexer) (ch : Char) :
    (st.tryConsumeLineEnding ch).2.chars.length ≤ st.chars.length := by
  unfold Lexer.tryConsumeLineEnding
  by_cases h1 : ch = '\r'
  · rw [if_pos h1]
    show ((st.skip.consumeIfEq '\n').2.advanceLine).chars.length ≤ _
    rw [Lexer.advanceLine_chars]
    exact le_trans (Lexer.consumeIfEq_length_le _ _) (Lexer.skip_length_le st)
  · by_cases h2 : ch = '\n'
    · rw [if_neg h1, if_pos h2]
      show (st.skip.advanceLine).chars.length ≤ _
      rw [Lexer.advanceLine_chars]
      exact Lexer.skip_length_le st
    · rw [if_neg h1, if_neg h2]

theorem Lexer.tryConsumeLineEnding_length_lt (st : Lexer) (ch : Char)
    (hne : st.chars ≠ []) (h : (st.tryConsumeLineEnding ch).1 = true) :
    (st.tryConsumeLineEnding ch).2.chars.length < st.chars.length := by
  unfold Lexer.tryConsumeLineEnding at h ⊢
  by_cases h1 : ch = '\r'
  · rw [if_pos h1]
    show ((st.skip.consumeIfEq '\n').2.advanceLine).chars.length < _
    rw [Lexer.advanceLine_chars]
    exact lt_of_le_of_lt (Lexer.consumeIfEq_length_le _ _)
      (Lexer.skip_length_lt st hne)
  · by_cases h2 : ch = '\n'
    · rw [if_neg h1, if_pos h2]
      show (st.skip.advanceLine).chars.length < _
      rw [Lexer.advanceLine_chars]
      exact Lexer.skip_length_lt st hne
    · rw [if_neg h1, if_neg h2] at h
      simp at h

theorem Lexer.skipWhitespace_length_le (st : Lexer) :
    st.skipWhitespace.chars.length ≤ st.chars.length := by
  unfold Lexer.skipWhitespace
  exact skipWhitespaceAux_length_le st.chars st.column

theorem Lexer.skip_chars (st : Lexer) : st.skip.chars = st.chars.tail := by
  cases h : st.chars <;> simp [Lexer.skip, Lexer.next, h]

theorem Lexer.consumeTextUntil_length_le (delimiter : Char) (kind : InterpolationKind) :
    ∀ (fuel : Nat) (st : Lexer) (text : String) (r : String × Bool) (st' : Lexer),
      Lexer.consumeTextUntil delimiter kind fuel st text = some (r, st') →
      st'.chars.length ≤ st.chars.length := by
  intro fuel
  induction fuel with
  | zero => intro st text r st' h; simp [Lexer.consumeTextUntil] at h
  | succ fuel ih =>
    intro st text r st' h
    rw [Lexer.consumeTextUntil] at h
    cases hc : st.chars with
    | nil =>
      simp only [hc] at h
      obtain ⟨h1, h2⟩ : (text, false) = r ∧ st = st' := by simpa using h
      simp [← h2, hc]
    | cons c cs =>
      have hskip : st.skip.chars = cs := by simp [Lexer.skip_chars, hc]
      simp only [hc] at h
      by_cases hdel : c = delimiter
      · simp only [hdel, if_true] at h
        obtain ⟨h1, h2⟩ : (text, true) = r ∧ _ = st' := by simpa using h
        simp [← h2, hskip, hc]
      · simp only [hdel, if_false] at h
        by_cases hle : (st.skip.tryConsumeLineEnding c).1 = true
        · simp only [hle, if_true] at h
          have h1 := ih _ _ _ _ h
          have h2 := Lexer.skipWhitespace_length_le (st.skip.tryConsumeLineEnding c).2
          have h3 := Lexer.tryConsumeLineEnding_length_le st.skip c
          rw [hskip] at h3
          simp only [hc, List.length_cons]
          omega
        · simp [hle] at h
          by_cases hbs : c = '\\'
          · simp only [hbs, if_true] at h
            have h1 := ih _ _ _ _ h
            have h2 := Lexer.consumeIf_length_le st.skip (fun x => x = '$' || x = delimiter)
            rw [hskip] at h2
            simp only [hc, List.length_cons]
            omega
          · simp only [hbs, if_false] at h
            by_cases hd : c = '$'
            · simp only [hd, if_true] at h
              by_cases hpk : st.skip.peek = some '{'
              · simp only [hpk, if_true] at h
                obtain ⟨h1, h2⟩ : (text, true) = r ∧ _ = st' := by simpa using h
                simp [← h2, hskip, hc]
              · simp only [hpk, if_false] at h
                have h1 := ih _ _ _ _ h
                rw [hskip] at h1
                simp only [hc, List.length_cons]
                omega
            · simp only [hd, if_false] at h
              have h1 := ih _ _ _ _ h
              rw [hskip] at h1
              simp only [hc, List.length_cons]
              omega

theorem Lexer.consumeTextUntil_length_lt (delimiter : Char) (kind : InterpolationKind)
    (fuel : Nat) (st : Lexer) (text : String) (r : String × Bool) (st' : Lexer)
    (hne : st.chars ≠ [])
    (h : Lexer.consumeTextUntil delimiter kind fuel st text = some (r, st')) :
    st'.chars.length < st.chars.length := by
  cases fuel with
  | zero => simp [Lexer.consumeTextUntil] at h
  | succ fuel =>
    rw [Lexer.consumeTextUntil] at h
    cases hc : st.chars with
    | nil => exact absurd hc hne
    | cons c cs =>
      have hskip : st.skip.chars = cs := by simp [Lexer.skip_chars, hc]
      simp only [hc] at h
      by_cases hdel : c = delimiter
      · simp only [hdel, if_true] at h
        obtain ⟨h1, h2⟩ : (text, true) = r ∧ _ = st' := by simpa using h
        simp [← h2, hskip, hc]
      · simp only [hdel, if_false] at h
        by_cases hle : (st.skip.tryConsumeLineEnding c).1 = true
        · simp only [hle, if_true] at h
          have h1 := Lexer.consumeTextUntil_length_le _ _ _ _ _ _ _ h
          have h2 := Lexer.skipWhitespace_length_le (st.skip.tryConsumeLineEnding c).2
          have h3 := Lexer.tryConsumeLineEnding_length_le st.skip c
          rw [hskip] at h3
          simp only [hc, List.length_cons]
          omega
        · simp [hle] at h
          by_cases hbs : c = '\\'
          · simp only [hbs, if_true] at h
            have h1 := Lexer.consumeTextUntil_length_le _ _ _ _ _ _ _ h
            have h2 := Lexer.consumeIf_length_le st.skip (fun x => x = '$' || x = delimiter)
            rw [hskip] at h2
            simp only [hc, List.length_cons]
            omega
          · simp only [hbs, if_false] at h
            by_cases hd : c = '$'
            · simp only [hd, if_true] at h
              by_cases hpk : st.skip.peek = some '{'
              · simp only [hpk, if_true] at h
                obtain ⟨h1, h2⟩ : (text, true) = r ∧ _ = st' := by simpa using h
                simp [← h2, hskip, hc]
              · simp only [hpk, if_false] at h
                have h1 := Lexer.consumeTextUntil_length_le _ _ _ _ _ _ _ h
                rw [hskip] at h1
                simp only [hc, List.length_cons]
                omega
            · simp only [hd, if_false] at h
              have h1 := Lexer.consumeTextUntil_length_le _ _ _ _ _ _ _ h
              rw [hskip] at h1
              simp only [hc, List.length_cons]
              omega

theorem Lexer.consumeTextUntil_isSome (delimiter : Char) (kind : InterpolationKind) :
    ∀ (fuel : Nat) (st : Lexer) (text : String), st.chars.length < fuel →
      (Lexer.consumeTextUntil delimiter kind fuel st text).isSome := by
  intro fuel
  induction fuel with
  | zero => intro st text h; omega
  | succ fuel ih =>
    intro st text h
    rw [Lexer.consumeTextUntil]
    cases hc : st.chars with
    | nil => simp
    | cons c cs =>
      have hskip : st.skip.chars = cs := by simp [Lexer.skip_chars, hc]
      have hlen : cs.length < fuel := by rw [hc] at h; simpa using h
      by_cases hdel : c = delimiter
      · simp [hdel]
      · simp only [hdel, if_false]
        by_cases hle : (st.skip.tryConsumeLineEnding c).1 = true
        · simp only [hle, if_true]
          apply ih
          have h2 := Lexer.skipWhitespace_length_le (st.skip.tryConsumeLineEnding c).2
          have h3 := Lexer.tryConsumeLineEnding_length_le st.skip c
          rw [hskip] at h3
          omega
        · rw [Bool.not_eq_true] at hle
          simp only [hle, Bool.false_eq_true, if_false]
          by_cases hbs : c = '\\'
          · simp only [hbs, if_true]
            apply ih
            have h2 := Lexer.consumeIf_length_le st.skip (fun x => x = '$' || x = delimiter)
            rw [hskip] at h2
            omega
          · simp only [hbs, if_false]
            by_cases hd : c = '$'
            · simp only [hd, if_true]
              by_cases hpk : st.skip.peek = some '{'
              · simp [hpk]
              · simp only [hpk, if_false]
                apply ih
                rw [hskip]
                omega
            · simp only [hd, if_false]
              apply ih
              rw [hskip]
              omega

theorem Lexer.consumeStringLiteral_isSome (st : Lexer) :
    st.consumeStringLiteral.isSome := by
  unfold Lexer.consumeStringLiteral
  have h := Lexer.consumeTextUntil_isSome '"' .string (st.chars.length + 1) st ""
    (by omega)
  obtain ⟨v, hv⟩ := Option.isSome_iff_exists.mp h
  rw [hv]
  simp

theorem Lexer.consumeText_isSome (st : Lexer) :
    st.consumeText.isSome := by
  unfold Lexer.consumeText
  have h := Lexer.consumeTextUntil_isSome ')' .text (st.chars.length + 1) st ""
    (by omega)
  obtain ⟨v, hv⟩ := Option.isSome_iff_exists.mp h
  rw [hv]
  simp

theorem Lexer.consumeStringLiteral_length_le (st : Lexer) (s : StringLiteral)
    (st' : Lexer) (h : st.consumeStringLiteral = some (s, st')) :
    st'.chars.length ≤ st.chars.length := by
  unfold Lexer.consumeStringLiteral at h
  cases hv : Lexer.consumeTextUntil '"' .string (st.chars.length + 1) st "" with
  | none => rw [hv] at h; simp at h
  | some v =>
    obtain ⟨⟨content, closed⟩, st1⟩ := v
    rw [hv] at h
    simp at h
    rw [← h.2]
    exact Lexer.consumeTextUntil_length_le _ _ _ _ _ _ _ hv

theorem Lexer.consumeText_length_le (st : Lexer) (t : Text)
    (st' : Lexer) (h : st.consumeText = some (t, st')) :
    st'.chars.length ≤ st.chars.length := by
  unfold Lexer.consumeText at h
  cases hv : Lexer.consumeTextUntil ')' .text (st.chars.length + 1) st "" with
  | none => rw [hv] at h; simp at h
  | some v =>
    obtain ⟨⟨content, closed⟩, st1⟩ := v
    rw [hv] at h
    simp at h
    rw [← h.2]
    exact Lexer.consumeTextUntil_length_le _ _ _ _ _ _ _ hv

theorem Lexer.consumeStringLiteral_length_lt (st : Lexer) (s : StringLiteral)
    (st' : Lexer) (hne : st.chars ≠ []) (h : st.consumeStringLiteral = some (s, st')) :
    st'.chars.length < st.chars.length := by
  unfold Lexer.consumeStringLiteral at h
  cases hv : Lexer.consumeTextUntil '"' .string (st.chars.length + 1) st "" with
  | none => rw [hv] at h; simp at h
  | some v =>
    obtain ⟨⟨content, closed⟩, st1⟩ := v
    rw [hv] at h
    simp at h
    rw [← h.2]
    exact Lexer.consumeTextUntil_length_lt _ _ _ _ _ _ _ hne hv

theorem Lexer.consumeText_length_lt (st : Lexer) (t : Text)
    (st' : Lexer) (hne : st.chars ≠ []) (h : st.consumeText = some (t, st')) :
    st'.chars.length < st.chars.length := by
  unfold Lexer.consumeText at h
  cases hv : Lexer.consumeTextUntil ')' .text (st.chars.length + 1) st "" with
  | none => rw [hv] at h; simp at h
  | some v =>
    obtain ⟨⟨content, closed⟩, st1⟩ := v
    rw [hv] at h
    simp at h
    rw [← h.2]
    exact Lexer.consumeTextUntil_length_lt _ _ _ _ _ _ _ hne hv

theorem Lexer.tryConsumeComment_length_lt (st : Lexer) (ch : Char)
    (hne : st.chars ≠ []) (tok? : Option TokenKind) (st' : Lexer)
    (h : st.tryConsumeComment ch = some (tok?, st')) :
    st'.chars.length < st.chars.length := by
  unfold Lexer.tryConsumeComment at h
  by_cases hch : ch ≠ '/'
  · simp [hch] at h
  · simp only [hch, if_false] at h
    by_cases hci : (st.skip.consumeIfEq '/').1.isSome = true
    · simp only [hci, if_true] at h
      obtain ⟨h1, h2⟩ : none = tok? ∧ _ = st' := by simpa using h
      have h3 := skipCommentAux_length_le
        (match st.interpolation_mode.head? with
          | some (.interpolation _) => some '}'
          | _ => none)
        (st.skip.consumeIfEq '/').2.chars (st.skip.consumeIfEq '/').2.column
      have h4 := Lexer.consumeIfEq_length_le st.skip '/'
      have h5 := Lexer.skip_length_lt st hne
      rw [← h2]
      simp only
      omega
    · simp only [hci, if_false] at h
      obtain ⟨h1, h2⟩ : some TokenKind.invalid = tok? ∧ _ = st' := by simpa using h
      have h4 := Lexer.consumeIfEq_length_le st.skip '/'
      have h5 := Lexer.skip_length_lt st hne
      rw [← h2]
      omega

theorem Lexer.peek_ne_nil {st : Lexer} {ch : Char} (h : st.peek = some ch) :
    st.chars ≠ [] := by
  cases hc : st.chars
  · simp [Lexer.peek, hc] at h
  · simp [hc]

theorem Lexer.tryConsumeIntegerLiteral_length_lt (st : Lexer)
    (tok : TokenKind) (st' : Lexer)
    (h : st.tryConsumeIntegerLiteral = some (tok, st')) :
    st'.chars.length < st.chars.length := by
  unfold Lexer.tryConsumeIntegerLiteral at h
  cases hpk : st.peek with
  | none => rw [hpk] at h; simp at h
  | some ch =>
    rw [hpk] at h
    by_cases hih : (!isIntegerHead ch) = true
    · simp [hih] at h
    · simp only [hih, Bool.false_eq_true, if_false] at h
      have hne := Lexer.peek_ne_nil hpk
      have h4 := takeTailAux_length_le isIntegerTail st.skip.chars st.skip.column
        (String.mk [ch])
      have h5 := Lexer.skip_length_lt st hne
      cases hfs : i64FromStr (takeTailAux isIntegerTail st.skip.chars st.skip.column
          (String.mk [ch])).1 with
      | some number =>
        rw [hfs] at h
        obtain ⟨h1, h2⟩ : TokenKind.integerLiteral number = tok ∧ _ = st' := by simpa using h
        rw [← h2]
        simp only
        omega
      | none =>
        rw [hfs] at h
        obtain ⟨h1, h2⟩ : TokenKind.invalid = tok ∧ _ = st' := by simpa using h
        rw [← h2]
        simp only
        omega

theorem Lexer.tryConsumeIdentifierString_length_lt (st : Lexer)
    (s : String) (st' : Lexer)
    (h : st.tryConsumeIdentifierString = some (s, st')) :
    st'.chars.length < st.chars.length := by
  unfold Lexer.tryConsumeIdentifierString at h
  cases hpk : st.peek with
  | none => rw [hpk] at h; simp at h
  | some ch =>
    rw [hpk] at h
    by_cases hih : (!isIdentifierHead ch) = true
    · simp [hih] at h
    · simp only [hih, Bool.false_eq_true, if_false] at h
      have hne := Lexer.peek_ne_nil hpk
      have h4 := takeTailAux_length_le isIdentifierTail st.skip.chars st.skip.column
        (String.mk [ch])
      have h5 := Lexer.skip_length_lt st hne
      obtain ⟨h1, h2⟩ : _ = s ∧ _ = st' := by simpa using h
      rw [← h2]
      simp only
      omega

theorem Lexer.tryConsumeIdentifier_length_lt (st : Lexer)
    (tok : TokenKind) (st' : Lexer)
    (h : st.tryConsumeIdentifier = some (tok, st')) :
    st'.chars.length < st.chars.length := by
  unfold Lexer.tryConsumeIdentifier at h
  cases his : st.tryConsumeIdentifierString with
  | none => rw [his] at h; simp at h
  | some pr =>
    obtain ⟨string, st1⟩ := pr
    simp only [his] at h
    have hlt := Lexer.tryConsumeIdentifierString_length_lt st string st1 his
    cases hgt : getType string with
    | some t =>
      simp only [hgt] at h
      obtain ⟨h1, h2⟩ : _ = tok ∧ st1 = st' := by simpa using h
      rw [← h2]; exact hlt
    | none =>
      simp only [hgt] at h
      cases hgk : getKeyword string with
      | some k =>
        simp only [hgk] at h
        obtain ⟨h1, h2⟩ : _ = tok ∧ st1 = st' := by simpa using h
        rw [← h2]; exact hlt
      | none =>
        simp only [hgk] at h
        cases hgb : getBooleanLiteral string with
        | some b =>
          simp only [hgb] at h
          obtain ⟨h1, h2⟩ : _ = tok ∧ st1 = st' := by simpa using h
          rw [← h2]; exact hlt
        | none =>
          simp only [hgb] at h
          obtain ⟨h1, h2⟩ : _ = tok ∧ st1 = st' := by simpa using h
          rw [← h2]; exact hlt

theorem Lexer.tryConsumePunctuator_length_lt (st : Lexer)
    (p : Punctuator) (st' : Lexer)
    (h : st.tryConsumePunctuator = some (p, st')) :
    st'.chars.length < st.chars.length := by
  unfold Lexer.tryConsumePunctuator at h
  cases hpk : st.peek with
  | none => rw [hpk] at h; simp at h
  | some ch =>
    rw [hpk] at h
    have hne := Lexer.peek_ne_nil hpk
    simp only [Option.map_eq_some'] at h
    obtain ⟨q, hq1, hq2⟩ := h
    obtain ⟨h1, h2⟩ : q = p ∧ st.skip = st' := by
      constructor
      · exact congrArg Prod.fst hq2
      · exact congrArg Prod.snd hq2
    rw [← h2]
    exact Lexer.skip_length_lt st hne

theorem Lexer.lexDefault_isSome (st : Lexer) (ch : Char) (start : Position) :
    (st.lexDefault ch start).isSome := by
  unfold Lexer.lexDefault
  by_cases h1 : isWhitespaceExceptNewline ch = true
  · simp [h1]
  · rw [Bool.not_eq_true] at h1
    simp only [h1, Bool.false_eq_true, if_false]
    by_cases h2 : (st.tryConsumeLineEnding ch).1 = true
    · simp [h2]
    · rw [Bool.not_eq_true] at h2
      simp only [h2, Bool.false_eq_true, if_false]
      cases hcm : st.tryConsumeComment ch with
      | some pr =>
        obtain ⟨tok?, st1⟩ := pr
        simp [hcm]
      | none =>
        simp only [hcm]
        by_cases h3 : ch = '('
        · simp only [h3, if_true]
          obtain ⟨v, hv⟩ := Option.isSome_iff_exists.mp (Lexer.consumeText_isSome st.skip)
          rw [hv]
          simp
        · simp only [h3, if_false]
          by_cases h4 : ch = '"'
          · simp only [h4, if_true]
            obtain ⟨v, hv⟩ :=
              Option.isSome_iff_exists.mp (Lexer.consumeStringLiteral_isSome st.skip)
            rw [hv]
            simp
          · simp only [h4, if_false]
            cases hint : st.tryConsumeIntegerLiteral with
            | some pr => obtain ⟨tok, st1⟩ := pr; simp [hint]
            | none =>
              simp only [hint]
              cases hpct : st.tryConsumePunctuator with
              | some pr => obtain ⟨p, st1⟩ := pr; simp [hpct]
              | none =>
                simp only [hpct]
                cases hid : st.tryConsumeIdentifier with
                | some pr => obtain ⟨tok, st1⟩ := pr; simp [hid]
                | none => simp [hid]

theorem Lexer.lexDefault_length_lt (st : Lexer) (ch : Char) (start : Position)
    (toks : List (TokenKind × Span)) (st' : Lexer)
    (hpk : st.peek = some ch) (h : st.lexDefault ch start = some (toks, st')) :
    st'.chars.length < st.chars.length := by
  have hne := Lexer.peek_ne_nil hpk
  unfold Lexer.lexDefault at h
  by_cases h1 : isWhitespaceExceptNewline ch = true
  · simp only [h1, if_true] at h
    obtain ⟨ht, hs⟩ : [] = toks ∧ st.skip = st' := by simpa using h
    rw [← hs]
    exact Lexer.skip_length_lt st hne
  · rw [Bool.not_eq_true] at h1
    simp only [h1, Bool.false_eq_true, if_false] at h
    by_cases h2 : (st.tryConsumeLineEnding ch).1 = true
    · simp only [h2, if_true] at h
      obtain ⟨ht, hs⟩ : [] = toks ∧ _ = st' := by simpa using h
      rw [← hs]
      exact Lexer.tryConsumeLineEnding_length_lt st ch hne h2
    · rw [Bool.not_eq_true] at h2
      simp only [h2, Bool.false_eq_true, if_false] at h
      cases hcm : st.tryConsumeComment ch with
      | some pr =>
        obtain ⟨tok?, st1⟩ := pr
        simp only [hcm] at h
        obtain ⟨ht, hs⟩ : _ = toks ∧ st1 = st' := by simpa using h
        rw [← hs]
        exact Lexer.tryConsumeComment_length_lt st ch hne tok? st1 hcm
      | none =>
        simp only [hcm] at h
        by_cases h3 : ch = '('
        · simp only [h3, if_true] at h
          simp only [Option.map_eq_some'] at h
          obtain ⟨⟨t, st1⟩, hv, heq⟩ := h
          have hs : st1 = st' := congrArg Prod.snd heq
          rw [← hs]
          exact lt_of_le_of_lt (Lexer.consumeText_length_le st.skip t st1 hv)
            (Lexer.skip_length_lt st hne)
        · simp only [h3, if_false] at h
          by_cases h4 : ch = '"'
          · simp only [h4, if_true] at h
            simp only [Option.map_eq_some'] at h
            obtain ⟨⟨s, st1⟩, hv, heq⟩ := h
            have hs : st1 = st' := congrArg Prod.snd heq
            rw [← hs]
            exact lt_of_le_of_lt (Lexer.consumeStringLiteral_length_le st.skip s st1 hv)
              (Lexer.skip_length_lt st hne)
          · simp only [h4, if_false] at h
            cases hint : st.tryConsumeIntegerLiteral with
            | some pr =>
              obtain ⟨tok, st1⟩ := pr
              simp only [hint] at h
              obtain ⟨ht, hs⟩ : _ = toks ∧ st1 = st' := by simpa using h
              rw [← hs]
              exact Lexer.tryConsumeIntegerLiteral_length_lt st tok st1 hint
            | none =>
              simp only [hint] at h
              cases hpct : st.tryConsumePunctuator with
              | some pr =>
                obtain ⟨p, st1⟩ := pr
                simp only [hpct] at h
                obtain ⟨ht, hs⟩ : _ = toks ∧ st1 = st' := by simpa using h
                rw [← hs]
                exact Lexer.tryConsumePunctuator_length_lt st p st1 hpct
              | none =>
                simp only [hpct] at h
                cases hid : st.tryConsumeIdentifier with
                | some pr =>
                  obtain ⟨tok, st1⟩ := pr
                  simp only [hid] at h
                  obtain ⟨ht, hs⟩ : _ = toks ∧ st1 = st' := by simpa using h
                  rw [← hs]
                  exact Lexer.tryConsumeIdentifier_length_lt st tok st1 hid
                | none =>
                  simp only [hid] at h
                  obtain ⟨ht, hs⟩ : _ = toks ∧ st.skip = st' := by simpa using h
                  rw [← hs]
                  exact Lexer.skip_length_lt st hne

theorem Lexer.lexLoop_isSome :
    ∀ (fuel : Nat) (st : Lexer) (acc : List (TokenKind × Span)),
      st.chars.length ≤ fuel → (Lexer.lexLoop fuel st acc).isSome := by
  intro fuel
  induction fuel with
  | zero =>
    intro st acc h
    have hnil : st.chars = [] := List.eq_nil_of_length_eq_zero (by omega)
    rw [Lexer.lexLoop]
    simp [hnil]
  | succ fuel ih =>
    intro st acc h
    rw [Lexer.lexLoop]
    cases hpk : st.peek with
    | none => simp
    | some ch =>
      have hne := Lexer.peek_ne_nil hpk
      have hlt : st.skip.chars.length < st.chars.length := Lexer.skip_length_lt st hne
      simp only
      cases hmode : st.interpolation_mode.head? with
      | none =>
        simp only
        cases hld : st.lexDefault ch st.position with
        | none =>
          exact absurd (Lexer.lexDefault_isSome st ch st.position) (by simp [hld])
        | some pr =>
          obtain ⟨toks, st1⟩ := pr
          simp only
          apply ih
          have := Lexer.lexDefault_length_lt st ch st.position toks st1 hpk hld
          omega
      | some mode =>
        cases mode with
        | start kind =>
          simp only
          apply ih
          change st.skip.chars.length ≤ fuel
          omega
        | interpolation kind =>
          by_cases hbr : ch = '}'
          · simp only [hbr, if_true]
            apply ih
            change st.skip.chars.length ≤ fuel
            omega
          · simp only [hbr, if_false]
            cases hld : st.lexDefault ch st.position with
            | none =>
              exact absurd (Lexer.lexDefault_isSome st ch st.position) (by simp [hld])
            | some pr =>
              obtain ⟨toks, st1⟩ := pr
              simp only
              apply ih
              have := Lexer.lexDefault_length_lt st ch st.position toks st1 hpk hld
              omega
        | literal kind =>
          cases kind with
          | string =>
            cases hcs : st.consumeStringLiteral with
            | none =>
              exact absurd (Lexer.consumeStringLiteral_isSome st) (by simp [hcs])
            | some pr =>
              obtain ⟨s, st1⟩ := pr
              simp only
              apply ih
              have := Lexer.consumeStringLiteral_length_lt st s st1 hne hcs
              omega
          | text =>
            cases hct : st.consumeText with
            | none =>
              exact absurd (Lexer.consumeText_isSome st) (by simp [hct])
            | some pr =>
              obtain ⟨t, st1⟩ := pr
              simp only
              apply ih
              have := Lexer.consumeText_length_lt st t st1 hne hct
              omega

/-- Totality of the lexer: the fuel supplied by `lex` always suffices, so
`lex` always produces a token list and an end-of-file span. -/
theorem lex_isSome (input : List Char) : (lex input).isSome := by
  unfold lex
  exact Lexer.lexLoop_isSome _ _ _ (by simp [Lexer.new])

theorem Lexer.lexDefault_unrecognized (st : Lexer) (ch : Char) (start : Position)
    (hpk : st.peek = some ch) (hun : unrecognizedChar ch = true) :
    st.lexDefault ch start = some ([(.invalid, st.skip.span start)], st.skip) := by
  have hun' := hun
  simp only [unrecognizedChar, Bool.and_eq_true, Bool.not_eq_true'] at hun'
  obtain ⟨⟨⟨⟨⟨⟨⟨hws, hnl⟩, hsl⟩, hpar⟩, hq⟩, hint⟩, hpunc⟩, hid⟩ := hun'
  have hnl2 : ¬ ch = '\n' ∧ ¬ ch = '\r' := by
    simpa [isNewline] using hnl
  have hsl' : ¬ ch = '/' := by simpa using hsl
  have hpar' : ¬ ch = '(' := by simpa using hpar
  have hq' : ¬ ch = '"' := by simpa using hq
  unfold Lexer.lexDefault
  rw [if_neg (by simp [hws])]
  have hle : st.tryConsumeLineEnding ch = (false, st) := by
    unfold Lexer.tryConsumeLineEnding
    rw [if_neg hnl2.2, if_neg hnl2.1]
  have hcm : st.tryConsumeComment ch = none := by
    unfold Lexer.tryConsumeComment
    rw [if_pos hsl']
  have hil : st.tryConsumeIntegerLiteral = none := by
    unfold Lexer.tryConsumeIntegerLiteral
    rw [hpk]
    simp [hint]
  have hpc : st.tryConsumePunctuator = none := by
    unfold Lexer.tryConsumePunctuator
    simp only [Bool.or_eq_false_iff] at hpunc
    obtain ⟨⟨⟨⟨⟨⟨⟨⟨⟨p1, p2⟩, p3⟩, p4⟩, p5⟩, p6⟩, p7⟩, p8⟩, p9⟩, p10⟩ := hpunc
    have q1 : ¬ ch = '[' := by simpa using p1
    have q2 : ¬ ch = ']' := by simpa using p2
    have q3 : ¬ ch = '{' := by simpa using p3
    have q4 : ¬ ch = '}' := by simpa using p4
    have q5 : ¬ ch = ',' := by simpa using p5
    have q6 : ¬ ch = ':' := by simpa using p6
    have q7 : ¬ ch = '=' := by simpa using p7
    have q8 : ¬ ch = '$' := by simpa using p8
    have q9 : ¬ ch = '@' := by simpa using p9
    have q10 : ¬ ch = '#' := by simpa using p10
    simp [hpk, q1, q2, q3, q4, q5, q6, q7, q8, q9, q10]
  have hids : st.tryConsumeIdentifierString = none := by
    unfold Lexer.tryConsumeIdentifierString
    rw [hpk]
    simp [hid]
  have hidt : st.tryConsumeIdentifier = none := by
    unfold Lexer.tryConsumeIdentifier
    rw [hids]
  simp only [hle, Bool.false_eq_true, if_false, hcm, hil, hpc, hidt,
    if_neg hpar', if_neg hq']

/-- One step of the `lex` loop on an unrecognized character in default mode:
the character is consumed, a single `Invalid` token spanning it is emitted,
and lexing continues on the remaining input. -/
theorem Lexer.lexLoop_invalid_step (fuel : Nat) (st : Lexer)
    (acc : List (TokenKind × Span)) (ch : Char) (cs : List Char)
    (hmode : st.interpolation_mode = []) (hc : st.chars = ch :: cs)
    (hun : unrecognizedChar ch = true) :
    Lexer.lexLoop (fuel + 1) st acc =
      Lexer.lexLoop fuel st.skip
        ((TokenKind.invalid, { start := st.position, stop := st.skip.position }) :: acc) := by
  have hpk : st.peek = some ch := by simp [Lexer.peek, hc]
  rw [Lexer.lexLoop]
  rw [hpk]
  simp only [hmode, List.head?_nil]
  rw [Lexer.lexDefault_unrecognized st ch st.position hpk hun]
  simp [Lexer.span]

end lexer

namespace irgen

theorem generate_identifier_as_str (k : ast.Identifier) :
    (generate_identifier k).as_str = k.name := rfl

theorem generate_identifier_name (k : ast.Identifier) :
    (generate_identifier k).name = k.name := rfl

theorem generate_identifier_span (k : ast.Identifier) :
    (generate_identifier k).span = k.span := rfl

theorem lookupName_nil (s : String) : lookupName [] s = none := rfl

theorem lookupName_cons (n : String) (sp : Span) (names : List (String × Span))
    (s : String) :
    lookupName ((n, sp) :: names) s = if n = s then some sp else lookupName names s := by
  by_cases h : n = s <;> simp [lookupName, List.find?_cons, h]

theorem inv1_extend (done : List ast.Property) (p : ast.Property)
    (names : List (String × Span)) (key : ast.Identifier)
    (hname : propName p = key.name)
    (hinv1 : ∀ s, lookupName names s = none ↔ s ∉ done.map propName) :
    ∀ s, lookupName ((key.name, key.span) :: names) s = none ↔
      s ∉ (done ++ [p]).map propName := by
  intro s
  rw [lookupName_cons]
  by_cases hs : key.name = s
  · constructor
    · intro h
      rw [if_pos hs] at h
      simp at h
    · intro h
      exact absurd (by simp [hname, hs]) h
  · rw [if_neg hs, hinv1 s]
    constructor
    · intro h h2
      simp only [List.map_append, List.mem_append] at h2
      rcases h2 with h2 | h2
      · exact h h2
      · simp only [List.map_cons, List.map_nil, List.mem_singleton, hname] at h2
        exact hs h2.symm
    · intro h h2
      exact h (by simp [h2])

theorem inv2_extend (done : List ast.Property) (p : ast.Property)
    (names : List (String × Span)) (key : ast.Identifier)
    (hname : propName p = key.name) (hspan : propKeySpan p = key.span)
    (hmem : key.name ∉ done.map propName)
    (hinv2 : ∀ s sp, lookupName names s = some sp →
      ∃ pre a post, done = pre ++ a :: post ∧ propName a = s ∧
        propKeySpan a = sp ∧ s ∉ pre.map propName) :
    ∀ s sp, lookupName ((key.name, key.span) :: names) s = some sp →
      ∃ pre a post, done ++ [p] = pre ++ a :: post ∧ propName a = s ∧
        propKeySpan a = sp ∧ s ∉ pre.map propName := by
  intro s sp hlk
  rw [lookupName_cons] at hlk
  by_cases hs : key.name = s
  · rw [if_pos hs] at hlk
    obtain rfl : key.span = sp := by simpa using hlk
    exact ⟨done, p, [], by simp, by rw [hname, hs], hspan, by rw [← hs]; exact hmem⟩
  · rw [if_neg hs] at hlk
    obtain ⟨pre, a, post, hdone, hn, hsp2, hpre⟩ := hinv2 s sp hlk
    exact ⟨pre, a, post ++ [p], by rw [hdone]; simp, hn, hsp2, hpre⟩

theorem nodup_extend (done : List ast.Property) (p : ast.Property)
    (key : ast.Identifier) (hname : propName p = key.name)
    (hnd : (done.map propName).Nodup) (hmem : key.name ∉ done.map propName) :
    ((done ++ [p]).map propName).Nodup := by
  rw [List.map_append]
  refine List.Nodup.append hnd (by simp) ?_
  simp only [List.map_cons, List.map_nil, List.disjoint_singleton, hname]
  exact hmem

/-- Success case of the `generate_properties` loop: given that `names` is
exactly the name map of the already scanned prefix `done` (with distinct
names), success extends the distinctness over the whole list and the two
result sets are the images of the key-value and flag properties in order. -/
theorem generate_properties_go_ok (props : List ast.Property) :
    ∀ (done : List ast.Property) (names : List (String × Span))
      (named : List ir.Property) (flag : List ir.Identifier)
      (named' : List ir.Property) (flag' : List ir.Identifier),
      (∀ s, lookupName names s = none ↔ s ∉ done.map propName) →
      ((done.map propName).Nodup) →
      generate_properties_go props names named flag = .ok (named', flag') →
      (((done ++ props).map propName).Nodup ∧
        named' = named ++ props.filterMap kvImage ∧
        flag' = flag ++ props.filterMap flagImage) := by
  induction props with
  | nil =>
    intro done names named flag named' flag' hinv1 hnd h
    obtain ⟨h1, h2⟩ : named = named' ∧ flag = flag' := by
      simpa [generate_properties_go] using h
    simp [← h1, ← h2, hnd]
  | cons p rest ih =>
    intro done names named flag named' flag' hinv1 hnd h
    rw [generate_properties_go] at h
    cases hk : p.kind with
    | keyValue key value =>
      simp only [hk, generate_identifier_as_str, generate_identifier_name,
        generate_identifier_span] at h
      cases hl : lookupName names key.name with
      | some sp => simp [hl] at h
      | none =>
        simp only [hl] at h
        have hname : propName p = key.name := by simp [propName, propertyKey, hk]
        have hmem : key.name ∉ done.map propName := (hinv1 key.name).mp hl
        obtain ⟨ha, hb, hc⟩ := ih (done ++ [p]) _ _ _ _ _
          (inv1_extend done p names key hname hinv1)
          (nodup_extend done p key hname hnd hmem) h
        refine ⟨by simpa using ha, ?_, by simpa [flagImage, hk] using hc⟩
        rw [hb]
        simp [kvImage, hk]
    | flag key =>
      simp only [hk, generate_identifier_as_str, generate_identifier_name,
        generate_identifier_span] at h
      cases hl : lookupName names key.name with
      | some sp => simp [hl] at h
      | none =>
        simp only [hl] at h
        have hname : propName p = key.name := by simp [propName, propertyKey, hk]
        have hmem : key.name ∉ done.map propName := (hinv1 key.name).mp hl
        obtain ⟨ha, hb, hc⟩ := ih (done ++ [p]) _ _ _ _ _
          (inv1_extend done p names key hname hinv1)
          (nodup_extend done p key hname hnd hmem) h
        refine ⟨by simpa using ha, by simpa [kvImage, hk] using hb, ?_⟩
        rw [hc]
        simp [flagImage, hk]

/-- Error case of the `generate_properties` loop: the error is a
`DuplicatedProperty` whose first span is the key span of the earliest
property with the colliding name and whose second span is the key span of
the collision site, which is the first collision of the scan. -/
theorem generate_properties_go_error (props : List ast.Property) :
    ∀ (done : List ast.Property) (names : List (String × Span))
      (named : List ir.Property) (flag : List ir.Identifier) (e : IrGeneratorError),
      (∀ s, lookupName names s = none ↔ s ∉ done.map propName) →
      (∀ s sp, lookupName names s = some sp →
        ∃ pre a post, done = pre ++ a :: post ∧ propName a = s ∧
          propKeySpan a = sp ∧ s ∉ pre.map propName) →
      ((done.map propName).Nodup) →
      generate_properties_go props names named flag = .error e →
      ∃ pre a mid b post,
        done ++ props = pre ++ a :: (mid ++ b :: post) ∧
        b ∈ props ∧ propName a = propName b ∧
        ((pre ++ a :: mid).map propName).Nodup ∧
        e = .duplicatedProperty (propName b) (propKeySpan a) (propKeySpan b) := by
  induction props with
  | nil =>
    intro done names named flag e hinv1 hinv2 hnd h
    simp [generate_properties_go] at h
  | cons p rest ih =>
    intro done names named flag e hinv1 hinv2 hnd h
    rw [generate_properties_go] at h
    cases hk : p.kind with
    | keyValue key value =>
      simp only [hk, generate_identifier_as_str, generate_identifier_name,
        generate_identifier_span] at h
      have hname : propName p = key.name := by simp [propName, propertyKey, hk]
      have hspan : propKeySpan p = key.span := by simp [propKeySpan, propertyKey, hk]
      cases hl : lookupName names key.name with
      | some sp =>
        simp only [hl] at h
        obtain ⟨pre, a, post, hdone, hn, hsp, hpre⟩ := hinv2 key.name sp hl
        have he : e = .duplicatedProperty key.name sp key.span := by
          simpa using h.symm
        refine ⟨pre, a, post, p, rest, ?_, by simp, ?_, ?_, ?_⟩
        · rw [hdone]; simp
        · rw [hn, hname]
        · rw [← hdone]; exact hnd
        · rw [he, hname, hspan, hsp]
      | none =>
        simp only [hl] at h
        have hmem : key.name ∉ done.map propName := (hinv1 key.name).mp hl
        obtain ⟨pre, a, mid, b, post, hsplit2, hbmem, hab, hpnodup, he⟩ :=
          ih (done ++ [p]) _ _ _ _
            (inv1_extend done p names key hname hinv1)
            (inv2_extend done p names key hname hspan hmem hinv2)
            (nodup_extend done p key hname hnd hmem) h
        exact ⟨pre, a, mid, b, post, by rw [← hsplit2]; simp, by simp [hbmem],
          hab, hpnodup, he⟩
    | flag key =>
      simp only [hk, generate_identifier_as_str, generate_identifier_name,
        generate_identifier_span] at h
      have hname : propName p = key.name := by simp [propName, propertyKey, hk]
      have hspan : propKeySpan p = key.span := by simp [propKeySpan, propertyKey, hk]
      cases hl : lookupName names key.name with
      | some sp =>
        simp only [hl] at h
        obtain ⟨pre, a, post, hdone, hn, hsp, hpre⟩ := hinv2 key.name sp hl
        have he : e = .duplicatedProperty key.name sp key.span := by
          simpa using h.symm
        refine ⟨pre, a, post, p, rest, ?_, by simp, ?_, ?_, ?_⟩
        · rw [hdone]; simp
        · rw [hn, hname]
        · rw [← hdone]; exact hnd
        · rw [he, hname, hspan, hsp]
      | none =>
        simp only [hl] at h
        have hmem : key.name ∉ done.map propName := (hinv1 key.name).mp hl
        obtain ⟨pre, a, mid, b, post, hsplit2, hbmem, hab, hpnodup, he⟩ :=
          ih (done ++ [p]) _ _ _ _
            (inv1_extend done p names key hname hinv1)
            (inv2_extend done p names key hname hspan hmem hinv2)
            (nodup_extend done p key hname hnd hmem) h
        exact ⟨pre, a, mid, b, post, by rw [← hsplit2]; simp, by simp [hbmem],
          hab, hpnodup, he⟩

/-- A list split around two positions carrying the same name is not
name-nodup. -/
theorem not_nodup_of_dup_split {α : Type} (f : α → String) (pre mid post : List α)
    (a b : α) (hab : f a = f b) :
    ¬ (((pre ++ a :: (mid ++ b :: post)).map f).Nodup) := by
  intro h
  rw [List.map_append] at h
  have h2 := h.sublist (List.sublist_append_right (pre.map f) _)
  simp only [List.map_cons, List.nodup_cons] at h2
  exact h2.1 (by rw [hab]; simp)

/-- A list split with two equally-named positions has a duplicate name. -/
theorem not_nodup_of_dup_split' {α : Type} (f : α → String) (pre mid post : List α)
    (a b : α) (hab : f a = f b) :
    ((pre ++ a :: (mid ++ b :: post)).map f).Nodup → False := fun h =>
  not_nodup_of_dup_split f pre mid post a b hab h

/-- Any error of `generate_properties` is a `DuplicatedProperty`. -/
theorem generate_properties_error_shape (ps : ast.Properties) (e : IrGeneratorError)
    (h : generate_properties ps = .error e) :
    ∃ n s1 s2, e = .duplicatedProperty n s1 s2 := by
  have hgo : generate_properties_go ps.properties [] [] [] = .error e := by
    revert h
    unfold generate_properties
    cases generate_properties_go ps.properties [] [] [] with
    | error e' => intro h; simpa [Except.map] using h
    | ok r => intro h; simp [Except.map] at h
  obtain ⟨pre, a, mid, b, post, h1, h2, h3, h4, he⟩ :=
    generate_properties_go_error ps.properties [] [] [] [] e
      (by simp [lookupName_nil])
      (by intro s sp h'; rw [lookupName_nil] at h'; exact absurd h' (by simp))
      (by simp) hgo
  exact ⟨_, _, _, he⟩

/-- Strong induction over `ast.Component` (children at any depth). -/
theorem componentStrongInduction (P : ast.Component → Prop)
    (h : ∀ sp n pr ch tx,
      (∀ sp2 cs c, ch = some (ast.ComponentChildren.mk sp2 cs) → c ∈ cs → P c) →
      P (ast.Component.mk sp n pr ch tx)) :
    ∀ c, P c := by
  have key : ∀ (fuel : Nat) (c : ast.Component), sizeOf c ≤ fuel → P c := by
    intro fuel
    induction fuel with
    | zero =>
      intro c hc
      cases c with
      | mk sp n pr ch tx => simp at hc
    | succ fuel ih =>
      intro c hc
      cases c with
      | mk sp n pr ch tx =>
        apply h
        intro sp2 cs c' hch hmem
        apply ih
        subst hch
        have h1 : sizeOf c' < sizeOf cs := List.sizeOf_lt_of_mem hmem
        simp at hc
        omega
  intro c
  exact key (sizeOf c) c (le_refl _)

/-- If every member of a child list only produces errors satisfying `Q`, so
does the collected lowering of the list. -/
theorem generate_components_error_from_member (Q : IrGeneratorError → Prop) :
    ∀ (cs : List ast.Component),
      (∀ c ∈ cs, ∀ e, generate_component c = .error e → Q e) →
      ∀ e, generate_components cs = .error e → Q e := by
  intro cs
  induction cs with
  | nil => intro hmem e h; simp [generate_components] at h
  | cons c rest ih =>
    intro hmem e h
    rw [generate_components] at h
    revert h
    cases hc : generate_component c with
    | error e1 =>
      intro h
      have heq : e1 = e := by simpa using h
      exact heq ▸ hmem c (by simp) e1 hc
    | ok c1 =>
      cases hcs : generate_components rest with
      | error e1 =>
        intro h
        have heq : e1 = e := by simpa using h
        exact heq ▸ ih (fun c hm => hmem c (by simp [hm])) e1 hcs
      | ok cs1 => intro h; simp at h

/-- Any error of `generate_component` is a `DuplicatedProperty` or a
`TextComponentWithChildren` (never a `CircularDefinition` or a
properties-definition error). -/
theorem generate_component_error_shape :
    ∀ (c : ast.Component) (e : IrGeneratorError), generate_component c = .error e →
      (∃ n s1 s2, e = .duplicatedProperty n s1 s2) ∨
      (∃ s1 s2 s3, e = .textComponentWithChildren s1 s2 s3) := by
  have main := componentStrongInduction
    (fun c => ∀ e, generate_component c = .error e →
      (∃ n s1 s2, e = .duplicatedProperty n s1 s2) ∨
      (∃ s1 s2 s3, e = .textComponentWithChildren s1 s2 s3))
  intro c e
  refine main ?_ c e
  intro sp n pr ch tx hrec e h
  cases pr with
  | some props =>
    rw [generate_component.eq_1] at h
    split at h
    · rename_i ep hp
      have heq : ep = e := by simpa using h
      exact heq ▸ Or.inl (generate_properties_error_shape props ep hp)
    · rename_i props1 hp
      split at h
      · rename_i chv2 txv2
        have heq : IrGeneratorError.textComponentWithChildren n.span chv2.span txv2.span = e := by
          simpa using h
        exact heq ▸ Or.inr ⟨_, _, _, rfl⟩
      · rename_i chv
        split at h
        · rename_i eg hg
          have heq : eg = e := by simpa using h
          obtain ⟨sp2, cs⟩ := chv
          exact heq ▸ generate_components_error_from_member _ cs
            (fun c hm e2 he2 => hrec sp2 cs c rfl hm e2 he2) eg hg
        · simp at h
      · simp at h
  | none =>
    cases ch with
    | some chv =>
      cases tx with
      | some txv =>
        rw [generate_component.eq_2] at h
        have heq : IrGeneratorError.textComponentWithChildren n.span chv.span txv.span = e := by
          simpa using h
        exact heq ▸ Or.inr ⟨_, _, _, rfl⟩
      | none =>
        rw [generate_component.eq_3] at h
        split at h
        · rename_i eg hg
          have heq : eg = e := by simpa using h
          obtain ⟨sp2, cs⟩ := chv
          exact heq ▸ generate_components_error_from_member _ cs
            (fun c hm e2 he2 => hrec sp2 cs c rfl hm e2 he2) eg hg
        · simp at h
    | none =>
      rw [generate_component.eq_4] at h
      simp at h

/-- Any error of `generate_properties_definition` is a `DuplicatedProperty`,
`MultipleTextProperties`, `MultipleDefaultProperties` or
`DefaultPropertyWithValue`. -/
theorem generate_properties_definition_go_error_shape :
    ∀ (props : List ast.PropertyDefinition) (dp : Option ir.PropertyDefinition)
      (tp : Option ir.Identifier) (acc : List ir.PropertyDefinition)
      (names : List (String × Span)) (e : IrGeneratorError),
      generate_properties_definition_go props dp tp acc names = .error e →
      (∃ n s1 s2, e = .duplicatedProperty n s1 s2) ∨
      (∃ s1 s2 s3, e = .multipleTextProperties s1 s2 s3) ∨
      (∃ s1 s2 s3, e = .multipleDefaultProperties s1 s2 s3) ∨
      (∃ s1 s2 s3, e = .defaultPropertyWithValue s1 s2 s3) := by
  intro props
  induction props with
  | nil =>
    intro dp tp acc names e h
    simp [generate_properties_definition_go] at h
  | cons p rest ih =>
    intro dp tp acc names e h
    rw [generate_properties_definition_go] at h
    split at h
    · -- Default declaration
      rename_i d hk
      split at h
      · injection h with h2
        subst h2
        exact Or.inr (Or.inr (Or.inl ⟨_, _, _, rfl⟩))
      · split at h
        · injection h with h2
          subst h2
          exact Or.inl ⟨_, _, _, rfl⟩
        · split at h
          · injection h with h2
            subst h2
            exact Or.inr (Or.inr (Or.inr ⟨_, _, _, rfl⟩))
          · exact ih _ _ _ _ e h
    · -- Text declaration
      rename_i d hk
      split at h
      · injection h with h2
        subst h2
        exact Or.inr (Or.inl ⟨_, _, _, rfl⟩)
      · split at h
        · injection h with h2
          subst h2
          exact Or.inl ⟨_, _, _, rfl⟩
        · exact ih _ _ _ _ e h
    · -- Named declaration
      rename_i d hk
      split at h
      · injection h with h2
        subst h2
        exact Or.inl ⟨_, _, _, rfl⟩
      · exact ih _ _ _ _ e h

/-- Error-shape corollary for `generate_properties_definition`. -/
theorem generate_properties_definition_error_shape (pd : ast.PropertiesDefinition)
    (e : IrGeneratorError) (h : generate_properties_definition pd = .error e) :
    (∃ n s1 s2, e = .duplicatedProperty n s1 s2) ∨
    (∃ s1 s2 s3, e = .multipleTextProperties s1 s2 s3) ∨
    (∃ s1 s2 s3, e = .multipleDefaultProperties s1 s2 s3) ∨
    (∃ s1 s2 s3, e = .defaultPropertyWithValue s1 s2 s3) := by
  have hgo : generate_properties_definition_go pd.properties none none [] [] = .error e := by
    revert h
    unfold generate_properties_definition
    cases generate_properties_definition_go pd.properties none none [] [] with
    | error e1 => intro h; simpa [Except.map] using h
    | ok r => intro h; simp [Except.map] at h
  exact generate_properties_definition_go_error_shape pd.properties none none [] [] e hgo

theorem children_match_eq (d : ast.ComponentDefinition) :
    (match d.children with
     | some ch => generate_children ch
     | none => .ok []) = generate_components (childrenList d) := by
  cases h : d.children with
  | some ch => simp [childrenList, h, generate_children]
  | none => simp [childrenList, h, generate_components]

/-- Name preservation of component lowering. -/
theorem generate_component_name (c : ast.Component) (ic : ir.Component)
    (h : generate_component c = .ok ic) : ic.name.name = c.name.name := by
  cases c with
  | mk sp n pr ch tx =>
    cases pr with
    | some props =>
      rw [generate_component.eq_1] at h
      split at h
      · simp at h
      · rename_i props1 hp
        split at h
        · simp at h
        · split at h
          · simp at h
          · rename_i cs1 hg
            have heq : ir.Component.mk sp (generate_identifier n) props1 cs1 none = ic := by
              simpa using h
            rw [← heq]
            simp [ir.Component.name, ast.Component.name, generate_identifier_name]
        · have heq : ir.Component.mk sp (generate_identifier n) props1 []
              (tx.map generate_text) = ic := by simpa using h
          rw [← heq]
          simp [ir.Component.name, ast.Component.name, generate_identifier_name]
    | none =>
      cases ch with
      | some chv =>
        cases tx with
        | some txv => rw [generate_component.eq_2] at h; simp at h
        | none =>
          rw [generate_component.eq_3] at h
          split at h
          · simp at h
          · rename_i cs1 hg
            have heq : ir.Component.mk sp (generate_identifier n)
                { default := none, flag_properties := [], named_properties := [] }
                cs1 none = ic := by simpa using h
            rw [← heq]
            simp [ir.Component.name, ast.Component.name, generate_identifier_name]
      | none =>
        rw [generate_component.eq_4] at h
        have heq : ir.Component.mk sp (generate_identifier n)
            { default := none, flag_properties := [], named_properties := [] } []
            (tx.map generate_text) = ic := by simpa using h
        rw [← heq]
        simp [ir.Component.name, ast.Component.name, generate_identifier_name]

/-- Membership of a name among lowered children matches membership among the
AST children. -/
theorem generate_components_name_mem (s : String) :
    ∀ (cs : List ast.Component) (irs : List ir.Component),
      generate_components cs = .ok irs →
      ((∃ i ∈ irs, i.name.name = s) ↔ (∃ a ∈ cs, a.name.name = s)) := by
  intro cs
  induction cs with
  | nil =>
    intro irs h
    obtain rfl : [] = irs := by simpa [generate_components] using h
    simp
  | cons c rest ih =>
    intro irs h
    rw [generate_components] at h
    revert h
    cases hc : generate_component c with
    | error e => intro h; simp at h
    | ok c' =>
      cases hcs : generate_components rest with
      | error e => intro h; simp [hcs] at h
      | ok rs' =>
        intro h
        obtain rfl : c' :: rs' = irs := by simpa [hcs] using h
        have hname := generate_component_name c c' hc
        constructor
        · rintro ⟨i, hmem, hn⟩
          rcases List.mem_cons.mp hmem with rfl | hmem2
          · exact ⟨c, by simp, by rw [← hname]; exact hn⟩
          · obtain ⟨a, ha, hn2⟩ := (ih rs' hcs).mp ⟨i, hmem2, hn⟩
            exact ⟨a, by simp [ha], hn2⟩
        · rintro ⟨a, hmem, hn⟩
          rcases List.mem_cons.mp hmem with rfl | hmem2
          · exact ⟨c', by simp, by rw [hname]; exact hn⟩
          · obtain ⟨i, hi, hn2⟩ := (ih rs' hcs).mpr ⟨a, hmem2, hn⟩
            exact ⟨i, by simp [hi], hn2⟩

/-- Error-shape corollary for child-list lowering. -/
theorem generate_components_error_shape (cs : List ast.Component)
    (e : IrGeneratorError) (h : generate_components cs = .error e) :
    (∃ n s1 s2, e = .duplicatedProperty n s1 s2) ∨
    (∃ s1 s2 s3, e = .textComponentWithChildren s1 s2 s3) :=
  generate_components_error_from_member _ cs
    (fun c _ e2 he2 => generate_component_error_shape c e2 he2) e h

/-- `generate_component_definition` rewritten over `childrenList`. -/
theorem generate_component_definition_eq (d : ast.ComponentDefinition) :
    generate_component_definition d =
      match generate_components (childrenList d) with
      | .error e => .error e
      | .ok children =>
        match children.find?
            (fun child => child.name.as_str = (generate_identifier d.name).as_str) with
        | some child =>
          .error (.circularDefinition (generate_identifier d.name).span child.span)
        | none =>
          match
            (match d.properties with
             | some props => generate_properties_definition props
             | none =>
               .ok { span := d.name.span, text_property := none,
                     default_property := none, properties := [] })
          with
          | .error e => .error e
          | .ok properties =>
            .ok { span := d.span, name := generate_identifier d.name,
                  properties := properties, children := children } := by
  cases h : d.children with
  | some ch => simp [generate_component_definition, childrenList, h, generate_children]
  | none => simp [generate_component_definition, childrenList, h, generate_components]

/-- `generate_component_definition` once the children have lowered. -/
theorem generate_component_definition_find (d : ast.ComponentDefinition)
    (irs : List ir.Component)
    (h : generate_components (childrenList d) = .ok irs) :
    generate_component_definition d =
      match irs.find?
          (fun child => child.name.as_str = (generate_identifier d.name).as_str) with
      | some child =>
        .error (.circularDefinition (generate_identifier d.name).span child.span)
      | none =>
        match
          (match d.properties with
           | some props => generate_properties_definition props
           | none =>
             .ok { span := d.name.span, text_property := none,
                   default_property := none, properties := [] })
        with
        | .error e => .error e
        | .ok properties =>
          .ok { span := d.span, name := generate_identifier d.name,
                properties := properties, children := irs } := by
  rw [generate_component_definition_eq, h]

theorem noBothListB_mem {cs : List ast.Component} {c : ast.Component}
    (h : noBothListB cs = true) (hm : c ∈ cs) : noBothB c = true := by
  induction cs with
  | nil => cases hm
  | cons c1 rest ih =>
    rw [noBothListB] at h
    simp only [Bool.and_eq_true] at h
    rcases List.mem_cons.mp hm with rfl | hm2
    · exact h.1
    · exact ih h.2 hm2

/-- Lowering a component none of whose subcomponents has both `children` and
`text` never yields a `TextComponentWithChildren` error. -/
theorem generate_component_not_text :
    ∀ (c : ast.Component), noBothB c = true →
      ∀ (e : IrGeneratorError), generate_component c = .error e →
      ∀ s1 s2 s3, e ≠ .textComponentWithChildren s1 s2 s3 := by
  have main := componentStrongInduction
    (fun c => noBothB c = true →
      ∀ e, generate_component c = .error e →
      ∀ s1 s2 s3, e ≠ .textComponentWithChildren s1 s2 s3)
  intro c
  refine main ?_ c
  intro sp n pr ch tx hrec hno e h
  cases pr with
  | some props =>
    rw [generate_component.eq_1] at h
    split at h
    · rename_i ep hp
      injection h with h2
      subst h2
      rcases generate_properties_error_shape props ep hp with ⟨n1, t1, t2, rfl⟩
      simp
    · rename_i props1 hp
      split at h
      · rename_i chv2 txv2
        rw [noBothB] at hno
        cases hno
      · rename_i chv
        obtain ⟨sp2, cs⟩ := chv
        rw [noBothB] at hno
        split at h
        · rename_i eg hg
          injection h with h2
          subst h2
          exact generate_components_error_from_member _ cs
            (fun c2 hm e2 he2 =>
              hrec sp2 cs c2 rfl hm (noBothListB_mem hno hm) e2 he2) eg hg
        · simp at h
      · simp at h
  | none =>
    cases ch with
    | some chv =>
      cases tx with
      | some txv =>
        rw [noBothB] at hno
        cases hno
      | none =>
        obtain ⟨sp2, cs⟩ := chv
        rw [noBothB] at hno
        rw [generate_component.eq_3] at h
        split at h
        · rename_i eg hg
          injection h with h2
          subst h2
          exact generate_components_error_from_member _ cs
            (fun c2 hm e2 he2 =>
              hrec sp2 cs c2 rfl hm (noBothListB_mem hno hm) e2 he2) eg hg
        · simp at h
    | none =>
      rw [generate_component.eq_4] at h
      simp at h

/-- The same for a component definition whose immediate children satisfy the
subtree predicate. -/
theorem generate_component_definition_not_text (d : ast.ComponentDefinition)
    (hno : noBothListB (childrenList d) = true)
    (e : IrGeneratorError) (h : generate_component_definition d = .error e) :
    ∀ s1 s2 s3, e ≠ .textComponentWithChildren s1 s2 s3 := by
  rw [generate_component_definition_eq] at h
  split at h
  · rename_i eg hg
    injection h with h2
    subst h2
    exact generate_components_error_from_member _ (childrenList d)
      (fun c2 hm e2 he2 =>
        generate_component_not_text c2 (noBothListB_mem hno hm) e2 he2) eg hg
  · rename_i children hg
    split at h
    · injection h with h2
      subst h2
      simp
    · split at h
      · rename_i ep heq
        injection h with h2
        subst h2
        split at heq
        · rename_i props hps
          rcases generate_properties_definition_error_shape props ep heq with
            ⟨n1, t1, t2, rfl⟩ | ⟨t1, t2, t3, rfl⟩ | ⟨t1, t2, t3, rfl⟩ |
              ⟨t1, t2, t3, rfl⟩ <;> simp
        · simp at heq
      · simp at h

/-- The same over a whole module: `generate` never reports
`TextComponentWithChildren` when no component of the module has both
`children` and `text`. -/
theorem generate_not_text (m : ast.Module) (hno : noBothModuleB m = true)
    (e : IrGeneratorError) (h : generate m = .error e) :
    ∀ s1 s2 s3, e ≠ .textComponentWithChildren s1 s2 s3 := by
  have hitems : ∀ item ∈ m.items, noBothItemB item = true :=
    List.all_eq_true.mp hno
  have hgo : ∀ (items : List ast.ModuleItem),
      (∀ item ∈ items, noBothItemB item = true) →
      ∀ e2, generate_module_items items = .error e2 →
      ∀ s1 s2 s3, e2 ≠ .textComponentWithChildren s1 s2 s3 := by
    intro items
    induction items with
    | nil => intro hall e2 h2; simp [generate_module_items] at h2
    | cons item rest ih =>
      intro hall e2 h2
      rw [generate_module_items] at h2
      split at h2
      · rename_i e3 h3
        injection h2 with h4
        subst h4
        have hitem := hall item (by simp)
        cases item with
        | component c =>
          rw [noBothItemB] at hitem
          revert h3
          rw [generate_module_item]
          cases hc : generate_component c with
          | error e5 =>
            intro h3
            have h5 : e5 = e3 := by simpa [Except.map] using h3
            exact h5 ▸ generate_component_not_text c hitem e5 hc
          | ok r => intro h3; simp [Except.map] at h3
        | componentDefinition d =>
          rw [noBothItemB] at hitem
          revert h3
          rw [generate_module_item]
          cases hc : generate_component_definition d with
          | error e5 =>
            intro h3
            have h5 : e5 = e3 := by simpa [Except.map] using h3
            exact h5 ▸ generate_component_definition_not_text d hitem e5 hc
          | ok r => intro h3; simp [Except.map] at h3
      · rename_i r h3
        split at h2
        · rename_i e4 h4
          injection h2 with h5
          subst h5
          exact ih (fun it hm => hall it (by simp [hm])) e4 h4
        · simp at h2
  have hmod : generate_module_items m.items = .error e := by
    revert h
    rw [generate, generate_module]
    cases hg : generate_module_items m.items with
    | error e2 => intro h; simpa [Except.map] using h
    | ok r => intro h; simp [Except.map] at h
  exact hgo m.items hitems e hmod

/-- A duplicate-free property list lowers successfully. -/
theorem generate_properties_ok_of_nodup (ps : ast.Properties)
    (hnd : (ps.properties.map propName).Nodup) :
    ∃ r, generate_properties ps = .ok r := by
  cases hr : generate_properties ps with
  | ok r => exact ⟨r, rfl⟩
  | error e =>
    exfalso
    have hgo : generate_properties_go ps.properties [] [] [] = .error e := by
      revert hr
      unfold generate_properties
      cases generate_properties_go ps.properties [] [] [] with
      | error e1 => intro hr; simpa [Except.map] using hr
      | ok r => intro hr; simp [Except.map] at hr
    obtain ⟨pre, a, mid, b, post, hs, hb, hab, hnd2, hee⟩ :=
      generate_properties_go_error ps.properties [] [] [] [] e
        (by simp [lookupName_nil])
        (by intro s sp h; rw [lookupName_nil] at h; exact absurd h (by simp))
        (by simp) hgo
    rw [show ([] : List ast.Property) ++ ps.properties = ps.properties from rfl] at hs
    rw [hs] at hnd
    exact not_nodup_of_dup_split propName pre mid post a b hab hnd

/-- A well-formed properties-definition list lowers successfully (loop
form, generalized over the scanning state). -/
theorem generate_properties_definition_go_ok_exists :
    ∀ (props : List ast.PropertyDefinition) (dp : Option ir.PropertyDefinition)
      (tp : Option ir.Identifier) (acc : List ir.PropertyDefinition)
      (names : List (String × Span)),
      (props.map declNameStr).Nodup →
      (∀ p ∈ props, lookupName names (declNameStr p) = none) →
      props.countP isDefaultDeclB ≤ (if dp.isSome then 0 else 1) →
      props.countP isTextDeclB ≤ (if tp.isSome then 0 else 1) →
      (∀ p ∈ props, pdeclValuelessB p = true) →
      ∃ r, generate_properties_definition_go props dp tp acc names = .ok r := by
  intro props
  induction props with
  | nil => intro dp tp acc names h1 h2 h3 h4 h5; exact ⟨_, rfl⟩
  | cons p rest ih =>
    intro dp tp acc names hnd hlook hdc htc hval
    have hnd2 := hnd
    rw [List.map_cons, List.nodup_cons] at hnd2
    obtain ⟨hhead, hrest⟩ := hnd2
    rw [generate_properties_definition_go]
    cases hk : p.kind with
    | default d =>
      have hdp : dp = none := by
        cases hdpc : dp with
        | none => rfl
        | some x =>
          exfalso
          have hcnt : 1 ≤ (p :: rest).countP isDefaultDeclB := by
            rw [List.countP_cons]
            simp [isDefaultDeclB, hk]
          rw [hdpc] at hdc
          have hdc2 : (p :: rest).countP isDefaultDeclB ≤ 0 := hdc
          omega
      subst hdp
      have hl : lookupName names d.name.name = none := by
        have := hlook p (by simp)
        simpa [declNameStr, hk] using this
      have hv : d.default_value = none := by
        have hival := hval p (by simp)
        simp [pdeclValuelessB, hk, Option.isNone_iff_eq_none] at hival
        exact hival
      simp only [hk, hl, hv]
      refine ih _ _ _ _ hrest ?_ ?_ ?_ (fun q hq => hval q (by simp [hq]))
      · intro q hq
        rw [lookupName_cons]
        have hne : d.name.name ≠ declNameStr q := by
          intro heq
          refine hhead ?_
          have : declNameStr p = declNameStr q := by simp [declNameStr, hk, heq]
          rw [this]
          exact List.mem_map_of_mem declNameStr hq
        rw [if_neg hne]
        exact hlook q (by simp [hq])
      · show rest.countP isDefaultDeclB ≤ 0
        have hdc2 : (p :: rest).countP isDefaultDeclB ≤ 1 := hdc
        have hstep : (p :: rest).countP isDefaultDeclB =
            rest.countP isDefaultDeclB + 1 := by
          rw [List.countP_cons]
          simp [isDefaultDeclB, hk]
        omega
      · have hstep : (p :: rest).countP isTextDeclB = rest.countP isTextDeclB := by
          rw [List.countP_cons]
          simp [isTextDeclB, hk]
        rw [← hstep]
        exact htc
    | text d =>
      have htp : tp = none := by
        cases htpc : tp with
        | none => rfl
        | some x =>
          exfalso
          have hcnt : 1 ≤ (p :: rest).countP isTextDeclB := by
            rw [List.countP_cons]
            simp [isTextDeclB, hk]
          rw [htpc] at htc
          have htc2 : (p :: rest).countP isTextDeclB ≤ 0 := htc
          omega
      subst htp
      have hl : lookupName names d.name.name = none := by
        have := hlook p (by simp)
        simpa [declNameStr, hk] using this
      simp only [hk, hl]
      refine ih _ _ _ _ hrest ?_ ?_ ?_ (fun q hq => hval q (by simp [hq]))
      · intro q hq
        rw [lookupName_cons]
        have hne : d.name.name ≠ declNameStr q := by
          intro heq
          refine hhead ?_
          have : declNameStr p = declNameStr q := by simp [declNameStr, hk, heq]
          rw [this]
          exact List.mem_map_of_mem declNameStr hq
        rw [if_neg hne]
        exact hlook q (by simp [hq])
      · have hstep : (p :: rest).countP isDefaultDeclB =
            rest.countP isDefaultDeclB := by
          rw [List.countP_cons]
          simp [isDefaultDeclB, hk]
        rw [← hstep]
        exact hdc
      · show rest.countP isTextDeclB ≤ 0
        have htc2 : (p :: rest).countP isTextDeclB ≤ 1 := htc
        have hstep : (p :: rest).countP isTextDeclB =
            rest.countP isTextDeclB + 1 := by
          rw [List.countP_cons]
          simp [isTextDeclB, hk]
        omega
    | named d =>
      have hl : lookupName names d.name.name = none := by
        have := hlook p (by simp)
        simpa [declNameStr, hk] using this
      simp only [hk, hl]
      refine ih _ _ _ _ hrest ?_ ?_ ?_ (fun q hq => hval q (by simp [hq]))
      · intro q hq
        rw [lookupName_cons]
        have hne : d.name.name ≠ declNameStr q := by
          intro heq
          refine hhead ?_
          have : declNameStr p = declNameStr q := by simp [declNameStr, hk, heq]
          rw [this]
          exact List.mem_map_of_mem declNameStr hq
        rw [if_neg hne]
        exact hlook q (by simp [hq])
      · have hstep : (p :: rest).countP isDefaultDeclB =
            rest.countP isDefaultDeclB := by
          rw [List.countP_cons]
          simp [isDefaultDeclB, hk]
        rw [← hstep]
        exact hdc
      · have hstep : (p :: rest).countP isTextDeclB = rest.countP isTextDeclB := by
          rw [List.countP_cons]
          simp [isTextDeclB, hk]
        rw [← hstep]
        exact htc

/-- A well-formed properties definition lowers successfully. -/
theorem generate_properties_definition_ok_exists (pd : ast.PropertiesDefinition)
    (hok : propertiesDefinitionOkB pd = true) :
    ∃ r, generate_properties_definition pd = .ok r := by
  rw [propertiesDefinitionOkB] at hok
  simp only [Bool.and_eq_true, decide_eq_true_eq] at hok
  obtain ⟨⟨⟨hnd, hdc⟩, htc⟩, hval⟩ := hok
  obtain ⟨r, hr⟩ := generate_properties_definition_go_ok_exists pd.properties
    none none [] [] hnd (fun q hq => lookupName_nil _) (by simpa using hdc)
    (by simpa using htc) (List.all_eq_true.mp hval)
  refine ⟨{ span := pd.span, default_property := r.1, text_property := r.2.1,
            properties := r.2.2 }, ?_⟩
  rw [generate_properties_definition, hr]
  rfl

/-- A list of components each of which lowers successfully lowers
successfully as a list. -/
theorem generate_components_ok_of_members :
    ∀ (cs : List ast.Component),
      (∀ c ∈ cs, ∃ ic, generate_component c = .ok ic) →
      ∃ ics, generate_components cs = .ok ics := by
  intro cs
  induction cs with
  | nil => intro hmem; exact ⟨[], by rw [generate_components]⟩
  | cons c rest ih =>
    intro hmem
    obtain ⟨ic, hic⟩ := hmem c (by simp)
    obtain ⟨ics, hics⟩ := ih (fun c2 hm => hmem c2 (by simp [hm]))
    refine ⟨ic :: ics, ?_⟩
    rw [generate_components, hic, hics]

theorem componentsOkB_mem {cs : List ast.Component} {c : ast.Component}
    (h : componentsOkB cs = true) (hm : c ∈ cs) : componentOkB c = true := by
  induction cs with
  | nil => cases hm
  | cons c1 rest ih =>
    rw [componentsOkB] at h
    simp only [Bool.and_eq_true] at h
    rcases List.mem_cons.mp hm with rfl | hm2
    · exact h.1
    · exact ih h.2 hm2

/-- A component satisfying the lowering precondition lowers successfully. -/
theorem generate_component_ok :
    ∀ (c : ast.Component), componentOkB c = true →
      ∃ ic, generate_component c = .ok ic := by
  have main := componentStrongInduction
    (fun c => componentOkB c = true → ∃ ic, generate_component c = .ok ic)
  intro c
  refine main ?_ c
  intro sp n pr ch tx hrec hok
  cases ch with
  | some chv =>
    obtain ⟨sp2, cs⟩ := chv
    cases tx with
    | some txv => rw [componentOkB] at hok; cases hok
    | none =>
      rw [componentOkB] at hok
      simp only [Bool.and_eq_true] at hok
      obtain ⟨hpr, hcs⟩ := hok
      obtain ⟨ics, hics⟩ := generate_components_ok_of_members cs
        (fun c2 hm => hrec sp2 cs c2 rfl hm (componentsOkB_mem hcs hm))
      cases pr with
      | some props =>
        simp only [propsOkB, decide_eq_true_eq] at hpr
        obtain ⟨r, hr⟩ := generate_properties_ok_of_nodup props hpr
        refine ⟨.mk sp (generate_identifier n) r ics none, ?_⟩
        rw [generate_component.eq_1]
        simp only [hr, ast.ComponentChildren.children, hics]
      | none =>
        refine ⟨.mk sp (generate_identifier n)
          { default := none, flag_properties := [], named_properties := [] }
          ics none, ?_⟩
        rw [generate_component.eq_3]
        simp only [ast.ComponentChildren.children, hics]
  | none =>
    cases pr with
    | some props =>
      rw [componentOkB] at hok
      simp only [propsOkB, decide_eq_true_eq] at hok
      obtain ⟨r, hr⟩ := generate_properties_ok_of_nodup props hok
      refine ⟨.mk sp (generate_identifier n) r [] (tx.map generate_text), ?_⟩
      rw [generate_component.eq_1]
      simp only [hr]
    | none =>
      refine ⟨.mk sp (generate_identifier n)
        { default := none, flag_properties := [], named_properties := [] }
        [] (tx.map generate_text), ?_⟩
      rw [generate_component.eq_4]

/-- A component definition satisfying the lowering precondition lowers
successfully. -/
theorem generate_component_definition_ok (d : ast.ComponentDefinition)
    (hok : componentDefinitionOkB d = true) :
    ∃ r, generate_component_definition d = .ok r := by
  rw [componentDefinitionOkB] at hok
  simp only [Bool.and_eq_true] at hok
  obtain ⟨⟨hcs, hnames⟩, hpd⟩ := hok
  obtain ⟨ics, hics⟩ := generate_components_ok_of_members (childrenList d)
    (fun c2 hm => generate_component_ok c2 (componentsOkB_mem hcs hm))
  have hfind : ics.find? (fun child =>
      child.name.as_str = (generate_identifier d.name).as_str) = none := by
    rw [List.find?_eq_none]
    intro i hi
    simp only [ir.Identifier.as_str, generate_identifier_name, decide_eq_true_eq]
    intro heq
    have : ∃ a ∈ childrenList d, a.name.name = d.name.name :=
      (generate_components_name_mem d.name.name (childrenList d) ics hics).mp
        ⟨i, hi, heq⟩
    obtain ⟨a, ha, han⟩ := this
    have := List.all_eq_true.mp hnames a ha
    simp only [decide_eq_true_eq] at this
    exact this han
  rw [generate_component_definition_find d ics hics, hfind]
  cases hps : d.properties with
  | some pd =>
    simp only [hps] at hpd
    obtain ⟨r, hr⟩ := generate_properties_definition_ok_exists pd hpd
    refine ⟨{ span := d.span, name := generate_identifier d.name,
              properties := r, children := ics }, ?_⟩
    simp only [hr]
  | none =>
    refine ⟨{ span := d.span, name := generate_identifier d.name,
              properties := { span := d.name.span, text_property := none,
                              default_property := none, properties := [] },
              children := ics }, ?_⟩
    rfl

/-- A module satisfying the lowering precondition lowers successfully. -/
theorem generate_ok (m : ast.Module) (hok : moduleOkB m = true) :
    ∃ r, generate m = .ok r := by
  have hall := List.all_eq_true.mp hok
  have hgo : ∀ (items : List ast.ModuleItem),
      (∀ item ∈ items, itemOkB item = true) →
      ∃ rs, generate_module_items items = .ok rs := by
    intro items
    induction items with
    | nil => intro hmem; exact ⟨[], by rw [generate_module_items]⟩
    | cons item rest ih =>
      intro hmem
      obtain ⟨rs, hrs⟩ := ih (fun it hm => hmem it (by simp [hm]))
      have hitem := hmem item (by simp)
      cases item with
      | component c =>
        rw [itemOkB] at hitem
        obtain ⟨ic, hic⟩ := generate_component_ok c hitem
        refine ⟨.component ic :: rs, ?_⟩
        rw [generate_module_items, generate_module_item, hic]
        simp only [Except.map, hrs]
      | componentDefinition dd =>
        rw [itemOkB] at hitem
        obtain ⟨ic, hic⟩ := generate_component_definition_ok dd hitem
        refine ⟨.componentDefinition ic :: rs, ?_⟩
        rw [generate_module_items, generate_module_item, hic]
        simp only [Except.map, hrs]
  obtain ⟨rs, hrs⟩ := hgo m.items hall
  refine ⟨{ span := m.span, items := rs }, ?_⟩
  rw [generate, generate_module, hrs]
  rfl

/-- Anything that succeeds in the properties-definition loop collides with
nothing already scanned. -/
theorem generate_properties_definition_go_ok_lookup :
    ∀ (props : List ast.PropertyDefinition) (dp : Option ir.PropertyDefinition)
      (tp : Option ir.Identifier) (acc : List ir.PropertyDefinition)
      (names : List (String × Span))
      (res : Option ir.PropertyDefinition × Option ir.Identifier ×
        List ir.PropertyDefinition),
      generate_properties_definition_go props dp tp acc names = .ok res →
      ∀ p ∈ props, lookupName names (declNameStr p) = none := by
  intro props
  induction props with
  | nil => intro dp tp acc names res h p hp; cases hp
  | cons q rest ih =>
    intro dp tp acc names res h p hp
    rw [generate_properties_definition_go] at h
    split at h
    · rename_i d hk
      split at h
      · simp at h
      · split at h
        · simp at h
        · rename_i hl
          split at h
          · simp at h
          · rcases List.mem_cons.mp hp with rfl | hp2
            · simpa [declNameStr, hk] using hl
            · have := ih _ _ _ _ _ h p hp2
              rw [lookupName_cons] at this
              split at this
              · cases this
              · exact this
    · rename_i d hk
      split at h
      · simp at h
      · split at h
        · simp at h
        · rename_i hl
          rcases List.mem_cons.mp hp with rfl | hp2
          · simpa [declNameStr, hk] using hl
          · have := ih _ _ _ _ _ h p hp2
            rw [lookupName_cons] at this
            split at this
            · cases this
            · exact this
    · rename_i d hk
      split at h
      · simp at h
      · rename_i hl
        rcases List.mem_cons.mp hp with rfl | hp2
        · simpa [declNameStr, hk] using hl
        · have := ih _ _ _ _ _ h p hp2
          rw [lookupName_cons] at this
          split at this
          · cases this
          · exact this

/-- Success of the properties-definition loop implies pairwise-distinct
declared names. -/
theorem generate_properties_definition_go_ok_names :
    ∀ (props : List ast.PropertyDefinition) (dp : Option ir.PropertyDefinition)
      (tp : Option ir.Identifier) (acc : List ir.PropertyDefinition)
      (names : List (String × Span))
      (res : Option ir.PropertyDefinition × Option ir.Identifier ×
        List ir.PropertyDefinition),
      generate_properties_definition_go props dp tp acc names = .ok res →
      (props.map declNameStr).Nodup := by
  intro props
  induction props with
  | nil => intro dp tp acc names res h; simp
  | cons q rest ih =>
    intro dp tp acc names res h
    rw [List.map_cons, List.nodup_cons]
    rw [generate_properties_definition_go] at h
    split at h
    · rename_i d hk
      split at h
      · simp at h
      · split at h
        · simp at h
        · rename_i hl
          split at h
          · simp at h
          · refine ⟨?_, ih _ _ _ _ _ h⟩
            intro hmem
            obtain ⟨p, hp, hpn⟩ := List.mem_map.mp hmem
            have := generate_properties_definition_go_ok_lookup _ _ _ _ _ _ h p hp
            rw [lookupName_cons] at this
            rw [show declNameStr q = d.name.name from by simp [declNameStr, hk]]
              at hpn
            rw [if_pos hpn.symm] at this
            cases this
    · rename_i d hk
      split at h
      · simp at h
      · split at h
        · simp at h
        · rename_i hl
          refine ⟨?_, ih _ _ _ _ _ h⟩
          intro hmem
          obtain ⟨p, hp, hpn⟩ := List.mem_map.mp hmem
          have := generate_properties_definition_go_ok_lookup _ _ _ _ _ _ h p hp
          rw [lookupName_cons] at this
          rw [show declNameStr q = d.name.name from by simp [declNameStr, hk]]
            at hpn
          rw [if_pos hpn.symm] at this
          cases this
    · rename_i d hk
      split at h
      · simp at h
      · rename_i hl
        refine ⟨?_, ih _ _ _ _ _ h⟩
        intro hmem
        obtain ⟨p, hp, hpn⟩ := List.mem_map.mp hmem
        have := generate_properties_definition_go_ok_lookup _ _ _ _ _ _ h p hp
        rw [lookupName_cons] at this
        rw [show declNameStr q = d.name.name from by simp [declNameStr, hk]]
          at hpn
        rw [if_pos hpn.symm] at this
        cases this

/-- Success shape of the properties-definition loop: the result set is the
accumulator followed by the images of all named AND default declarations
(text declarations are skipped), and the dedicated fields receive the first
default and first text images. -/
theorem generate_properties_definition_go_ok_spec :
    ∀ (props : List ast.PropertyDefinition) (dp : Option ir.PropertyDefinition)
      (tp : Option ir.Identifier) (acc : List ir.PropertyDefinition)
      (names : List (String × Span))
      (res : Option ir.PropertyDefinition × Option ir.Identifier ×
        List ir.PropertyDefinition),
      generate_properties_definition_go props dp tp acc names = .ok res →
      res.2.2 = acc ++ props.filterMap declImage ∧
      res.1 = (match dp with
               | some x => some x
               | none => props.findSome? defaultImage) ∧
      res.2.1 = (match tp with
                 | some x => some x
                 | none => props.findSome? textImage) := by
  intro props
  induction props with
  | nil =>
    intro dp tp acc names res h
    have hres : (dp, tp, acc) = res := by
      simpa [generate_properties_definition_go] using h
    rw [← hres]
    refine ⟨by simp, ?_, ?_⟩ <;> cases dp <;> cases tp <;> simp
  | cons p rest ih =>
    intro dp tp acc names res h
    rw [generate_properties_definition_go] at h
    split at h
    · rename_i d hk
      split at h
      · simp at h
      · rename_i hdp
        split at h
        · simp at h
        · rename_i hl
          split at h
          · simp at h
          · rename_i hv
            obtain ⟨h1, h2, h3⟩ := ih _ _ _ _ _ h
            refine ⟨?_, ?_, ?_⟩
            · rw [h1]
              simp [List.filterMap_cons, declImage, hk]
            · rw [h2]
              simp [List.findSome?_cons, defaultImage, hk]
            · rw [h3]
              simp [List.findSome?_cons, textImage, hk]
    · rename_i d hk
      split at h
      · simp at h
      · rename_i htp
        split at h
        · simp at h
        · rename_i hl
          obtain ⟨h1, h2, h3⟩ := ih _ _ _ _ _ h
          refine ⟨?_, ?_, ?_⟩
          · rw [h1]
            simp [List.filterMap_cons, declImage, hk]
          · rw [h2]
            simp [List.findSome?_cons, defaultImage, hk]
          · rw [h3]
            simp [List.findSome?_cons, textImage, hk]
    · rename_i d hk
      split at h
      · simp at h
      · rename_i hl
        obtain ⟨h1, h2, h3⟩ := ih _ _ _ _ _ h
        refine ⟨?_, ?_, ?_⟩
        · rw [h1]
          simp [List.filterMap_cons, declImage, hk]
        · rw [h2]
          simp [List.findSome?_cons, defaultImage, hk]
        · rw [h3]
          simp [List.findSome?_cons, textImage, hk]

/-- Success shape of `generate_properties_definition`. -/
theorem generate_properties_definition_ok_spec (pd : ast.PropertiesDefinition)
    (r : ir.PropertiesDefinition)
    (h : generate_properties_definition pd = .ok r) :
    r.default_property = pd.properties.findSome? defaultImage ∧
    r.text_property = pd.properties.findSome? textImage ∧
    r.properties = pd.properties.filterMap declImage ∧
    (pd.properties.map declNameStr).Nodup := by
  have hgo : ∃ res, generate_properties_definition_go pd.properties none none [] [] =
      .ok res ∧
      r = { span := pd.span, default_property := res.1, text_property := res.2.1,
            properties := res.2.2 } := by
    revert h
    unfold generate_properties_definition
    cases hg : generate_properties_definition_go pd.properties none none [] [] with
    | error e => intro h; simp [Except.map] at h
    | ok res =>
      intro h
      refine ⟨res, rfl, ?_⟩
      have := h.symm
      simpa [Except.map] using this
  obtain ⟨res, hres, hr⟩ := hgo
  obtain ⟨h1, h2, h3⟩ := generate_properties_definition_go_ok_spec _ _ _ _ _ _ hres
  have h4 := generate_properties_definition_go_ok_names _ _ _ _ _ _ hres
  subst hr
  exact ⟨by simpa using h2, by simpa using h3, by simpa using h1, h4⟩

theorem flagImage_name {q : ast.Property} {i : ir.Identifier}
    (h : flagImage q = some i) : i.name = propName q := by
  cases hk : q.kind with
  | flag key =>
    simp [flagImage, hk] at h
    rw [← h]
    simp [generate_identifier_name, propName, propertyKey, hk]
  | keyValue key value => simp [flagImage, hk] at h

theorem kvImage_key_name {q : ast.Property} {p : ir.Property}
    (h : kvImage q = some p) : p.key.name = propName q := by
  cases hk : q.kind with
  | flag key => simp [kvImage, hk] at h
  | keyValue key value =>
    simp [kvImage, hk] at h
    rw [← h]
    simp [generate_identifier_name, propName, propertyKey, hk]

theorem declImage_name {q : ast.PropertyDefinition} {p : ir.PropertyDefinition}
    (h : declImage q = some p) : p.name.name = declNameStr q := by
  cases hk : q.kind with
  | text d => simp [declImage, hk] at h
  | default d =>
    simp [declImage, hk] at h
    rw [← h]
    simp [generate_identifier_name, declNameStr, hk]
  | named d =>
    simp [declImage, hk] at h
    rw [← h]
    simp [generate_identifier_name, declNameStr, hk]

/-- Distinct images under a partial projection that preserves a distinct
name. -/
theorem nodup_map_filterMap {α β γ : Type} (f : α → Option β) (g : β → γ)
    (nm : α → γ) (hf : ∀ a b, f a = some b → g b = nm a) :
    ∀ (l : List α), (l.map nm).Nodup → ((l.filterMap f).map g).Nodup := by
  intro l
  induction l with
  | nil => simp
  | cons a rest ih =>
    intro hnd
    rw [List.map_cons, List.nodup_cons] at hnd
    obtain ⟨hna, hnr⟩ := hnd
    rw [List.filterMap_cons]
    cases hfa : f a with
    | none => exact ih hnr
    | some b =>
      rw [List.map_cons, List.nodup_cons]
      refine ⟨?_, ih hnr⟩
      intro hmem
      obtain ⟨c, hc, hgc⟩ := List.mem_map.mp hmem
      obtain ⟨q, hq, hfq⟩ := List.mem_filterMap.mp hc
      refine hna ?_
      rw [← hf a b hfa, ← hgc, hf q c hfq]
      exact List.mem_map_of_mem nm hq

/-- A duplicate-free image list makes the mapped function injective on the
list. -/
theorem nodup_map_eq_of_mem {α γ : Type} (f : α → γ) :
    ∀ (l : List α), (l.map f).Nodup →
      ∀ a ∈ l, ∀ b ∈ l, f a = f b → a = b := by
  intro l
  induction l with
  | nil => intro h a ha; cases ha
  | cons x xs ih =>
    intro hnd a ha b hb hfe
    rw [List.map_cons, List.nodup_cons] at hnd
    obtain ⟨hx, hxs⟩ := hnd
    rcases List.mem_cons.mp ha with rfl | ha2 <;>
      rcases List.mem_cons.mp hb with rfl | hb2
    · rfl
    · exact absurd (hfe ▸ List.mem_map_of_mem f hb2) hx
    · exact absurd (hfe ▸ List.mem_map_of_mem f ha2) hx
    · exact ih hxs a ha2 b hb2 hfe

/-- Distinct property names yield distinct names across the union of the
flag and key-value IR images. -/
theorem flag_named_names_nodup :
    ∀ (props : List ast.Property), (props.map propName).Nodup →
      ((props.filterMap flagImage).map ir.Identifier.name ++
        (props.filterMap kvImage).map (fun p => p.key.name)).Nodup := by
  intro props
  induction props with
  | nil => simp
  | cons p rest ih =>
    intro hnd
    rw [List.map_cons, List.nodup_cons] at hnd
    obtain ⟨hni, hnr⟩ := hnd
    have hsubf : ∀ s, s ∈ (rest.filterMap flagImage).map ir.Identifier.name →
        s ∈ rest.map propName := by
      intro s hs
      obtain ⟨i, hi, rfl⟩ := List.mem_map.mp hs
      obtain ⟨q, hq, himg⟩ := List.mem_filterMap.mp hi
      rw [flagImage_name himg]
      exact List.mem_map_of_mem propName hq
    have hsubk : ∀ s, s ∈ (rest.filterMap kvImage).map (fun p => p.key.name) →
        s ∈ rest.map propName := by
      intro s hs
      obtain ⟨i, hi, rfl⟩ := List.mem_map.mp hs
      obtain ⟨q, hq, himg⟩ := List.mem_filterMap.mp hi
      rw [kvImage_key_name himg]
      exact List.mem_map_of_mem propName hq
    cases hk : p.kind with
    | flag key =>
      have hfl : flagImage p = some (generate_identifier key) := by
        simp [flagImage, hk]
      have hkv : kvImage p = none := by simp [kvImage, hk]
      rw [List.filterMap_cons_some hfl, List.filterMap_cons_none hkv]
      rw [List.map_cons, List.cons_append, List.nodup_cons]
      refine ⟨?_, ih hnr⟩
      intro hmem
      have hkey : (generate_identifier key).name = propName p := by
        simp [generate_identifier_name, propName, propertyKey, hk]
      rw [hkey] at hmem
      rcases List.mem_append.mp hmem with hmf | hmk
      · exact hni (hsubf _ hmf)
      · exact hni (hsubk _ hmk)
    | keyValue key value =>
      have hkv : kvImage p = some (ir.Property.mk p.span (generate_identifier key)
          (generate_value value)) := by simp [kvImage, hk]
      have hfl : flagImage p = none := by simp [flagImage, hk]
      rw [List.filterMap_cons_none hfl, List.filterMap_cons_some hkv]
      rw [List.map_cons, List.nodup_middle, List.nodup_cons]
      refine ⟨?_, ih hnr⟩
      intro hmem
      have hkey : (ir.Property.mk p.span (generate_identifier key)
          (generate_value value)).key.name = propName p := by
        simp [generate_identifier_name, propName, propertyKey, hk]
      rw [hkey] at hmem
      rcases List.mem_append.mp hmem with hmf | hmk
      · exact hni (hsubf _ hmf)
      · exact hni (hsubk _ hmk)

/-- Success shape of `generate_properties`: the two sets are the flag and
key-value images and the property names were pairwise distinct. -/
theorem generate_properties_ok_spec (ps : ast.Properties) (r : ir.Properties)
    (h : generate_properties ps = .ok r) :
    r.named_properties = ps.properties.filterMap kvImage ∧
    r.flag_properties = ps.properties.filterMap flagImage ∧
    (ps.properties.map propName).Nodup := by
  have hgo : ∃ v, generate_properties_go ps.properties [] [] [] = .ok v ∧
      r = { default := ps.default.map generate_value, named_properties := v.1,
            flag_properties := v.2 } := by
    revert h
    unfold generate_properties
    cases hg : generate_properties_go ps.properties [] [] [] with
    | error e => intro h; simp [Except.map] at h
    | ok v =>
      intro h
      refine ⟨v, rfl, ?_⟩
      have := h.symm
      simpa [Except.map] using this
  obtain ⟨v, hv, hr⟩ := hgo
  obtain ⟨v1, v2⟩ := v
  obtain ⟨hnd, hnamed, hflag⟩ := generate_properties_go_ok ps.properties [] [] [] []
    v1 v2 (by simp [lookupName_nil]) (by simp) hv
  subst hr
  exact ⟨by simpa using hnamed, by simpa using hflag, by simpa using hnd⟩

/-- A component whose subtree is conflict-free has no top-level conflict. -/
theorem noBothB_not_both {c : ast.Component} (h : noBothB c = true) :
    ¬ (c.text.isSome ∧ c.children.isSome) := by
  cases c with
  | mk sp n pr ch tx =>
    cases ch with
    | none => rintro ⟨-, hch⟩; simp [ast.Component.children] at hch
    | some chv =>
      cases tx with
      | none => rintro ⟨htx, -⟩; simp [ast.Component.text] at htx
      | some txv => rw [noBothB] at h; cases h

end irgen

namespace validator

/-- Errors of the component-property validation loop are always
`DuplicatedPropertyName`. -/
theorem validate_component_properties_go_not_text (code : List Char)
    (componentName : ast.Identifier) :
    ∀ (props : List ast.Property) (keys : List (String × SourceSpan))
      (e : ValidatorError),
      validate_component_properties_go code componentName props keys = .error e →
      ∀ s1 s2 s3, e ≠ .textComponentWithChildren s1 s2 s3 := by
  intro props
  induction props with
  | nil => intro keys e h; simp [validate_component_properties_go] at h
  | cons p rest ih =>
    intro keys e h
    rw [validate_component_properties_go] at h
    split at h
    · injection h with h2
      subst h2
      simp
    · exact ih _ e h

/-- Errors of the definition-name validation loop are always
`DuplicatedPropertyName`. -/
theorem validate_definition_names_go_not_text (code : List Char)
    (componentName : ast.Identifier) :
    ∀ (props : List ast.PropertyDefinition) (keys : List (String × SourceSpan))
      (e : ValidatorError),
      validate_definition_names_go code componentName props keys = .error e →
      ∀ s1 s2 s3, e ≠ .textComponentWithChildren s1 s2 s3 := by
  intro props
  induction props with
  | nil => intro keys e h; simp [validate_definition_names_go] at h
  | cons p rest ih =>
    intro keys e h
    rw [validate_definition_names_go] at h
    split at h
    · injection h with h2
      subst h2
      simp
    · exact ih _ e h

/-- Validating a component definition never reports
`TextComponentWithChildren`. -/
theorem validate_component_definition_not_text (code : List Char)
    (d : ast.ComponentDefinition) (e : ValidatorError)
    (h : validate_component_definition code d = .error e) :
    ∀ s1 s2 s3, e ≠ .textComponentWithChildren s1 s2 s3 := by
  rw [validate_component_definition] at h
  split at h
  · rename_i props hps
    rw [validate_component_definition_properties] at h
    split at h
    · injection h with h2; subst h2; simp
    · split at h
      · injection h with h2; subst h2; simp
      · split at h
        · injection h with h2; subst h2; simp
        · split at h
          · injection h with h2; subst h2; simp
          · split at h
            · injection h with h2; subst h2; simp
            · exact validate_definition_names_go_not_text code d.name _ _ e h
  · simp at h

/-- A component free of the text/children conflict at top level is never
rejected as `TextComponentWithChildren` by the validator (which does not
descend into children). -/
theorem validate_component_not_text (code : List Char) (c : ast.Component)
    (hno : ¬ (c.text.isSome ∧ c.children.isSome)) (e : ValidatorError)
    (h : validate_component code c = .error e) :
    ∀ s1 s2 s3, e ≠ .textComponentWithChildren s1 s2 s3 := by
  rw [validate_component] at h
  split at h
  · rename_i text children htext hchildren
    exact absurd ⟨by simp [htext], by simp [hchildren]⟩ hno
  · rename_i harms
    split at h
    · rename_i props hps
      exact validate_component_properties_go_not_text code c.name _ _ e h
    · simp at h

/-- The validator never reports `TextComponentWithChildren` on a module none
of whose top-level component items has both `children` and `text`. -/
theorem validate_not_text (code : List Char) (m : ast.Module)
    (hno : ∀ c, ast.ModuleItem.component c ∈ m.items →
      ¬ (c.text.isSome ∧ c.children.isSome))
    (e : ValidatorError) (h : validate code m = .error e) :
    ∀ s1 s2 s3, e ≠ .textComponentWithChildren s1 s2 s3 := by
  rw [validate, validate_module] at h
  revert h
  have hgo : ∀ (items : List ast.ModuleItem),
      (∀ c, ast.ModuleItem.component c ∈ items →
        ¬ (c.text.isSome ∧ c.children.isSome)) →
      validate_module_items code items = .error e →
      ∀ s1 s2 s3, e ≠ .textComponentWithChildren s1 s2 s3 := by
    intro items
    induction items with
    | nil => intro hall h; simp [validate_module_items] at h
    | cons item rest ih =>
      intro hall h
      rw [validate_module_items] at h
      split at h
      · rename_i e2 h2
        injection h with h3
        subst h3
        cases item with
        | component c =>
          rw [validate_module_item] at h2
          exact validate_component_not_text code c (hall c (by simp)) e2 h2
        | componentDefinition d =>
          rw [validate_module_item] at h2
          exact validate_component_definition_not_text code d e2 h2
      · exact ih (fun c hm => hall c (by simp [hm])) h
  exact hgo m.items hno

end validator

/-! ## Claims -/

/-- C9: span union (the `BitOr` operation on `Span`, taking the minimum of
the two starts and the maximum of the two ends under the line-then-column
ordering on `Position`) is associative and commutative. -/
theorem claim_C9_span_union_assoc_comm :
    (∀ a b c : Span, (a.bitor b).bitor c = a.bitor (b.bitor c)) ∧
    (∀ a b : Span, a.bitor b = b.bitor a) := by
  constructor
  · intro a b c
    simp [Span.bitor, Position.minP_assoc, Position.maxP_assoc]
  · intro a b
    simp [Span.bitor, Position.minP_comm, Position.maxP_comm]

/-- C6 (code bug): the specified line-joining rule holds on the claim's own
example (`"this\n  is\n  multiline"` lexes to the single content
`"this is multiline"`), but fails when a line ending is immediately followed
by a non-whitespace character: in the literal `"a\nb"` the scanner calls
`try_consume_line_ending` on the already consumed `'\n'`, whose `skip()`
then swallows the `b`, producing content `"a"` instead of the specified
`"a b"`. -/
theorem claim_C6_literal_line_joining :
    ((lexer.lex "\"this\n  is\n  multiline\"".toList).map
        (fun r => r.1.map Prod.fst) =
      some [token.TokenKind.stringLiteral
        { content := "this is multiline", is_closed := true }]) ∧
    ((lexer.lex "\"a\nb\"".toList).map (fun r => r.1.map Prod.fst) =
      some [token.TokenKind.stringLiteral { content := "a", is_closed := true }]) := by
  constructor
  · rfl
  · rfl

/-- C3: for every input string, `Lexer::lex` terminates and returns a token
list plus an EOF span and never returns an error (the fuel supplied by `lex`
always suffices, so the fuel-exhaustion `none` is unreachable); moreover a
character that begins no recognized token is consumed and emitted as a
single `Invalid`-kind token, and lexing continues with the remaining
input. -/
theorem claim_C3_lexer_total_invalid_recovery :
    (∀ input : List Char, ∃ tokens eof, lexer.lex input = some (tokens, eof)) ∧
    (∀ (fuel : Nat) (st : lexer.Lexer) (acc : List (token.TokenKind × Span))
        (ch : Char) (cs : List Char),
      st.interpolation_mode = [] → st.chars = ch :: cs →
      lexer.unrecognizedChar ch = true →
      lexer.Lexer.lexLoop (fuel + 1) st acc =
        lexer.Lexer.lexLoop fuel st.skip
          ((token.TokenKind.invalid,
            { start := st.position, stop := st.skip.position }) :: acc)) := by
  constructor
  · intro input
    obtain ⟨⟨tokens, eof⟩, h⟩ := Option.isSome_iff_exists.mp (lexer.lex_isSome input)
    exact ⟨tokens, eof, h⟩
  · intro fuel st acc ch cs hmode hc hun
    exact lexer.Lexer.lexLoop_invalid_step fuel st acc ch cs hmode hc hun

/-- C1: `generate_properties` fails with a `DuplicatedProperty` error iff two
properties (flag or key-value, in any combination) share a name; the error
names the colliding name, the earliest occurrence's key span as first span
and the collision site's key span as second span (the collision site being
the first duplicate in scan order, witnessed by the distinctness of
everything before it); and for a duplicate-free list every flag and
key-value property is placed in the corresponding IR set. -/
theorem claim_C1_duplicate_properties (properties : ast.Properties) :
    ((∃ e, irgen.generate_properties properties = .error e) ↔
      ¬ (properties.properties.map irgen.propName).Nodup) ∧
    (∀ e, irgen.generate_properties properties = .error e →
      ∃ pre a mid b post,
        properties.properties = pre ++ a :: (mid ++ b :: post) ∧
        irgen.propName a = irgen.propName b ∧
        ((pre ++ a :: mid).map irgen.propName).Nodup ∧
        e = .duplicatedProperty (irgen.propName b) (irgen.propKeySpan a)
          (irgen.propKeySpan b)) ∧
    (∀ r, irgen.generate_properties properties = .ok r →
      ∀ p ∈ properties.properties,
        (∀ key value, p.kind = .keyValue key value →
          ({ span := p.span, key := irgen.generate_identifier key,
             value := irgen.generate_value value } : ir.Property) ∈ r.named_properties) ∧
        (∀ key, p.kind = .flag key →
          irgen.generate_identifier key ∈ r.flag_properties)) := by
  have herr : ∀ e, irgen.generate_properties properties = .error e →
      irgen.generate_properties_go properties.properties [] [] [] = .error e := by
    intro e he
    revert he
    unfold irgen.generate_properties
    cases irgen.generate_properties_go properties.properties [] [] [] with
    | error e' => intro he; simpa [Except.map] using he
    | ok r => intro he; simp [Except.map] at he
  have hsplit_err : ∀ e, irgen.generate_properties properties = .error e →
      ∃ pre a mid b post,
        properties.properties = pre ++ a :: (mid ++ b :: post) ∧
        irgen.propName a = irgen.propName b ∧
        ((pre ++ a :: mid).map irgen.propName).Nodup ∧
        e = .duplicatedProperty (irgen.propName b) (irgen.propKeySpan a)
          (irgen.propKeySpan b) := by
    intro e he
    obtain ⟨pre, a, mid, b, post, hs, hb, hab, hnd, hee⟩ :=
      irgen.generate_properties_go_error properties.properties [] [] [] [] e
        (by simp [irgen.lookupName_nil])
        (by intro s sp h; rw [irgen.lookupName_nil] at h; exact absurd h (by simp))
        (by simp) (herr e he)
    exact ⟨pre, a, mid, b, post, by simpa using hs, hab, hnd, hee⟩
  refine ⟨⟨?_, ?_⟩, hsplit_err, ?_⟩
  · rintro ⟨e, he⟩
    obtain ⟨pre, a, mid, b, post, hs, hab, hnd, hee⟩ := hsplit_err e he
    rw [hs]
    exact irgen.not_nodup_of_dup_split irgen.propName pre mid post a b hab
  · intro hnot
    cases hr : irgen.generate_properties properties with
    | error e => exact ⟨e, rfl⟩
    | ok r =>
      exfalso
      revert hr
      unfold irgen.generate_properties
      cases hgo : irgen.generate_properties_go properties.properties [] [] [] with
      | error e => intro hr; simp [Except.map] at hr
      | ok pr =>
        intro hr
        obtain ⟨named', flag'⟩ := pr
        obtain ⟨hnd, -, -⟩ :=
          irgen.generate_properties_go_ok properties.properties [] [] [] [] named' flag'
            (by simp [irgen.lookupName_nil]) (by simp) hgo
        exact hnot (by simpa using hnd)
  · intro r hr p hp
    revert hr
    unfold irgen.generate_properties
    cases hgo : irgen.generate_properties_go properties.properties [] [] [] with
    | error e => intro hr; simp [Except.map] at hr
    | ok pr =>
      intro hr
      obtain ⟨named', flag'⟩ := pr
      obtain ⟨-, hnamed, hflag⟩ :=
        irgen.generate_properties_go_ok properties.properties [] [] [] [] named' flag'
          (by simp [irgen.lookupName_nil]) (by simp) hgo
      have hrn : r.named_properties = named' := by
        simp [Except.map] at hr
        rw [← hr]
      have hrf : r.flag_properties = flag' := by
        simp [Except.map] at hr
        rw [← hr]
      constructor
      · intro key value hk
        rw [hrn, hnamed]
        simp only [List.nil_append]
        exact List.mem_filterMap.mpr ⟨p, hp, by simp [irgen.kvImage, hk]⟩
      · intro key hk
        rw [hrf, hflag]
        simp only [List.nil_append]
        exact List.mem_filterMap.mpr ⟨p, hp, by simp [irgen.flagImage, hk]⟩

/-- Witness for C1: instantiated on `box[a, a]` (error case, with the exact
spans of the two occurrences) and `box[x = 1, y]` (success case, with both
properties placed in their IR sets). -/
theorem claim_C1_witness :
    (∃ pre a mid b post,
      c1dup.properties = pre ++ a :: (mid ++ b :: post) ∧
      irgen.propName a = irgen.propName b ∧
      ((pre ++ a :: mid).map irgen.propName).Nodup ∧
      IrGeneratorError.duplicatedProperty "a"
          { start := ⟨1, 5⟩, stop := ⟨1, 6⟩ } { start := ⟨1, 8⟩, stop := ⟨1, 9⟩ } =
        .duplicatedProperty (irgen.propName b) (irgen.propKeySpan a)
          (irgen.propKeySpan b)) ∧
    (({ span := { start := ⟨1, 5⟩, stop := ⟨1, 10⟩ },
        key := { span := { start := ⟨1, 5⟩, stop := ⟨1, 6⟩ }, name := "x" },
        value := { span := { start := ⟨1, 9⟩, stop := ⟨1, 10⟩ },
                   kind := .integer 1 } } : ir.Property) ∈ c1okResult.named_properties ∧
      ({ span := { start := ⟨1, 12⟩, stop := ⟨1, 13⟩ }, name := "y" } : ir.Identifier) ∈
        c1okResult.flag_properties) :=
  ⟨(claim_C1_duplicate_properties c1dup).2.1
      (.duplicatedProperty "a" { start := ⟨1, 5⟩, stop := ⟨1, 6⟩ }
        { start := ⟨1, 8⟩, stop := ⟨1, 9⟩ }) (by rfl),
   ⟨((claim_C1_duplicate_properties c1ok).2.2 c1okResult (by rfl)
        c1okP1 (by simp [c1ok]) |>.1)
      { span := { start := ⟨1, 5⟩, stop := ⟨1, 6⟩ }, name := "x" }
      { span := { start := ⟨1, 9⟩, stop := ⟨1, 10⟩ }, kind := .integer 1 } (by rfl),
    ((claim_C1_duplicate_properties c1ok).2.2 c1okResult (by rfl)
        c1okP2 (by simp [c1ok]) |>.2)
      { span := { start := ⟨1, 12⟩, stop := ⟨1, 13⟩ }, name := "y" } (by rfl)⟩⟩

/-- Witness for C3: instantiated on the input `"%"`, whose only character is
unrecognized; lexing consumes it, emits one `Invalid` token and succeeds. -/
theorem claim_C3_witness :
    (∃ tokens eof, lexer.lex "%".toList = some (tokens, eof)) ∧
    (lexer.Lexer.lexLoop 1 (lexer.Lexer.new "%".toList) [] =
      lexer.Lexer.lexLoop 0 (lexer.Lexer.new "%".toList).skip
        ((token.TokenKind.invalid,
          { start := (lexer.Lexer.new "%".toList).position,
            stop := (lexer.Lexer.new "%".toList).skip.position }) :: [])) :=
  ⟨claim_C3_lexer_total_invalid_recovery.1 "%".toList,
    claim_C3_lexer_total_invalid_recovery.2 0 (lexer.Lexer.new "%".toList) [] '%' []
      (by rfl) (by rfl) (by decide)⟩

/-- C5: `generate_component_definition` fails with a `CircularDefinition`
error iff the children list lowers without error and some immediate child
bears the definition's own name. A deeper occurrence of the name does not
trigger the check, since only immediate children are searched. -/
theorem claim_C5_circular_definition (d : ast.ComponentDefinition) :
    (∃ s1 s2, irgen.generate_component_definition d =
      .error (.circularDefinition s1 s2)) ↔
    ((∃ irs, irgen.generate_components (irgen.childrenList d) = .ok irs) ∧
      ∃ a ∈ irgen.childrenList d, a.name.name = d.name.name) := by
  constructor
  · rintro ⟨s1, s2, h⟩
    rw [irgen.generate_component_definition_eq] at h
    split at h
    · rename_i e hg
      injection h with h2
      rcases irgen.generate_components_error_shape _ e hg with
        ⟨n, t1, t2, rfl⟩ | ⟨t1, t2, t3, rfl⟩ <;> simp at h2
    · rename_i children hg
      split at h
      · rename_i child hfind
        refine ⟨⟨children, hg⟩, ?_⟩
        have hmem := List.mem_of_find?_eq_some hfind
        have hp := List.find?_some hfind
        have hname : child.name.name = d.name.name := by
          simpa [ir.Identifier.as_str, irgen.generate_identifier_name] using hp
        exact (irgen.generate_components_name_mem d.name.name (irgen.childrenList d)
          children hg).mp ⟨child, hmem, hname⟩
      · split at h
        · rename_i e heq
          injection h with h2
          split at heq
          · rename_i props hps
            rcases irgen.generate_properties_definition_error_shape props e heq with
              ⟨n, t1, t2, rfl⟩ | ⟨t1, t2, t3, rfl⟩ | ⟨t1, t2, t3, rfl⟩ |
                ⟨t1, t2, t3, rfl⟩ <;> simp at h2
          · simp at heq
        · simp at h
  · rintro ⟨⟨irs, hok⟩, a, ha, hname⟩
    obtain ⟨i, hi, hn⟩ := (irgen.generate_components_name_mem d.name.name
      (irgen.childrenList d) irs hok).mpr ⟨a, ha, hname⟩
    have hsome : (irs.find? (fun child =>
        child.name.as_str = (irgen.generate_identifier d.name).as_str)).isSome := by
      rw [List.find?_isSome]
      exact ⟨i, hi, by
        simp [ir.Identifier.as_str, irgen.generate_identifier_name, hn]⟩
    obtain ⟨child, hfind⟩ := Option.isSome_iff_exists.mp hsome
    rw [irgen.generate_component_definition_find d irs hok, hfind]
    exact ⟨_, _, rfl⟩

/-- Witness for C5: `component custom { custom }` is rejected as circular
(its single child lowers fine and bears the name `custom`), while the
nested `component custom { box { custom } }` is not circular by this
check (no immediate child is named `custom`). -/
theorem claim_C5_witness :
    (∃ s1 s2, irgen.generate_component_definition c5def =
      .error (.circularDefinition s1 s2)) ∧
    ¬ (∃ s1 s2, irgen.generate_component_definition c5nested =
      .error (.circularDefinition s1 s2)) :=
  ⟨(claim_C5_circular_definition c5def).mpr
      ⟨⟨[.mk ⟨⟨0, 19⟩, ⟨0, 25⟩⟩ { span := ⟨⟨0, 19⟩, ⟨0, 25⟩⟩, name := "custom" }
           { default := none, flag_properties := [], named_properties := [] }
           [] none],
         by simp [c5def, irgen.childrenList, ast.ComponentChildren.children,
           irgen.generate_components, irgen.generate_component.eq_4,
           irgen.generate_identifier]⟩,
        ⟨.mk ⟨⟨0, 19⟩, ⟨0, 25⟩⟩ { span := ⟨⟨0, 19⟩, ⟨0, 25⟩⟩, name := "custom" }
          none none none,
          by simp [c5def, irgen.childrenList, ast.ComponentChildren.children], rfl⟩⟩,
    fun hcirc => by
      obtain ⟨-, a, ha, hname⟩ := (claim_C5_circular_definition c5nested).mp hcirc
      simp [c5nested, irgen.childrenList, ast.ComponentChildren.children] at ha
      rw [ha] at hname
      exact absurd hname (by decide)⟩

/-- C2 (corrected): a component with both `text` and `children` populated is
rejected, but each stage checks its own scope. The validator checks only
top-level module items, so it rejects exactly the top-level conflicts (with
the component-name, text and children spans in miette form); the IR
generator rejects a conflicted component at any depth, but only after its
properties have lowered without a duplicate (absent or successful
properties). On a module without any conflicted component, at any depth,
neither stage ever reports `TextComponentWithChildren`. -/
theorem claim_C2_text_children_conflict :
    (∀ (code : List Char) (c : ast.Component) (tx : ast.Text)
        (ch : ast.ComponentChildren),
      c.text = some tx → c.children = some ch →
      validator.validate_component code c =
        .error (.textComponentWithChildren
          (validator.Span.to_miette_span c.name.span code)
          (validator.Span.to_miette_span tx.span code)
          (validator.Span.to_miette_span ch.span code))) ∧
    (∀ (sp : Span) (n : ast.Identifier) (pr : Option ast.Properties)
        (ch : ast.ComponentChildren) (tx : ast.Text),
      (pr = none ∨ ∃ props r, pr = some props ∧
        irgen.generate_properties props = .ok r) →
      irgen.generate_component (.mk sp n pr (some ch) (some tx)) =
        .error (.textComponentWithChildren n.span ch.span tx.span)) ∧
    (∀ (code : List Char) (m : ast.Module), irgen.noBothModuleB m = true →
      (∀ e, validator.validate code m = .error e →
        ∀ s1 s2 s3, e ≠ .textComponentWithChildren s1 s2 s3) ∧
      (∀ e, irgen.generate m = .error e →
        ∀ s1 s2 s3, e ≠ .textComponentWithChildren s1 s2 s3)) := by
  refine ⟨?_, ?_, ?_⟩
  · intro code c tx ch htx hch
    cases c with
    | mk sp n pr chf txf =>
      simp [ast.Component.text] at htx
      simp [ast.Component.children] at hch
      subst htx
      subst hch
      simp [validator.validate_component, ast.Component.text,
        ast.Component.children, ast.Component.name]
  · intro sp n pr ch tx hpr
    rcases hpr with rfl | ⟨props, r, rfl, hok⟩
    · rw [irgen.generate_component.eq_2]
    · rw [irgen.generate_component.eq_1, hok]
  · intro code m hno
    constructor
    · intro e h
      refine validator.validate_not_text code m ?_ e h
      intro c hm
      have hitem := List.all_eq_true.mp hno _ hm
      rw [irgen.noBothItemB] at hitem
      exact irgen.noBothB_not_both hitem
    · exact irgen.generate_not_text m hno

/-- Counterexample for C2: the module `box { paragraph { box } (text) }`
holds a conflicted component (both `children` and `text` populated) at
nesting depth one, yet validation succeeds — the validator never descends
into children, so only top-level conflicts are caught. -/
theorem claim_C2_counterexample :
    c2nested.children.isSome ∧ c2nested.text.isSome ∧
    c2top.children = some (.mk ⟨⟨0, 4⟩, ⟨0, 37⟩⟩ [c2nested]) ∧
    c2mod.items = [.component c2top] ∧
    validator.validate [] c2mod = .ok () :=
  ⟨rfl, rfl, rfl, rfl, rfl⟩

/-- Witness for C2: the conflicted `paragraph` is rejected by both stages
when presented at top level, with the exact spans; and on the conflict-free
module `box[a, a]` both stages fail with duplicate-property errors, which
are not `TextComponentWithChildren`. -/
theorem claim_C2_witness :
    (validator.validate_component [] c2nested =
      .error (.textComponentWithChildren ⟨0, 0⟩ ⟨0, 0⟩ ⟨0, 0⟩)) ∧
    (irgen.generate_component c2nested =
      .error (.textComponentWithChildren ⟨⟨0, 10⟩, ⟨0, 19⟩⟩ ⟨⟨0, 20⟩, ⟨0, 28⟩⟩
        ⟨⟨0, 30⟩, ⟨0, 33⟩⟩)) ∧
    ((.duplicatedPropertyName ⟨0, 0⟩ ⟨0, 0⟩ ⟨0, 0⟩ "a" : validator.ValidatorError) ≠
      .textComponentWithChildren ⟨0, 0⟩ ⟨0, 0⟩ ⟨0, 0⟩) ∧
    ((.duplicatedProperty "a" ⟨⟨0, 4⟩, ⟨0, 5⟩⟩ ⟨⟨0, 7⟩, ⟨0, 8⟩⟩ : IrGeneratorError) ≠
      .textComponentWithChildren ⟨⟨0, 0⟩, ⟨0, 0⟩⟩ ⟨⟨0, 0⟩, ⟨0, 0⟩⟩ ⟨⟨0, 0⟩, ⟨0, 0⟩⟩) :=
  ⟨claim_C2_text_children_conflict.1 [] c2nested c2text c2innerChildren rfl rfl,
   claim_C2_text_children_conflict.2.1 ⟨⟨0, 10⟩, ⟨0, 35⟩⟩
     { span := ⟨⟨0, 10⟩, ⟨0, 19⟩⟩, name := "paragraph" } none c2innerChildren c2text
     (Or.inl rfl),
   (claim_C2_text_children_conflict.2.2 [] c2dupmod
       (by simp [irgen.noBothModuleB, c2dupmod, c2dupcomp, irgen.noBothItemB,
         irgen.noBothB])).1
     (.duplicatedPropertyName ⟨0, 0⟩ ⟨0, 0⟩ ⟨0, 0⟩ "a") (by rfl) ⟨0, 0⟩ ⟨0, 0⟩ ⟨0, 0⟩,
   (claim_C2_text_children_conflict.2.2 [] c2dupmod
       (by simp [irgen.noBothModuleB, c2dupmod, c2dupcomp, irgen.noBothItemB,
         irgen.noBothB])).2
     (.duplicatedProperty "a" ⟨⟨0, 4⟩, ⟨0, 5⟩⟩ ⟨⟨0, 7⟩, ⟨0, 8⟩⟩)
     (by simp [irgen.generate, irgen.generate_module, irgen.generate_module_items,
       irgen.generate_module_item, c2dupmod, c2dupcomp,
       irgen.generate_component.eq_1, irgen.generate_properties,
       irgen.generate_properties_go, irgen.lookupName, irgen.generate_identifier,
       ir.Identifier.as_str, ast.Component.properties, Except.map, List.find?])
     ⟨⟨0, 0⟩, ⟨0, 0⟩⟩ ⟨⟨0, 0⟩, ⟨0, 0⟩⟩ ⟨⟨0, 0⟩, ⟨0, 0⟩⟩⟩

/-- C4 (corrected): missing optional fields indeed lower to empty containers
(empty property sets, empty child vector, `None` text; a definition without
properties gets an empty properties definition anchored at its name span).
But lowering is not total over validated ASTs: it is total over modules
satisfying `moduleOkB` (distinct property and declaration names, no
component with both children and text, no direct self-reference, at most
one default and one text declaration, valueless defaults), a strictly
stronger condition than `Validator::validate` returning `Ok`. -/
theorem claim_C4_lowering_totality :
    (∀ (sp : Span) (n : ast.Identifier),
      irgen.generate_component (.mk sp n none none none) =
        .ok (.mk sp (irgen.generate_identifier n)
          { default := none, flag_properties := [], named_properties := [] }
          [] none)) ∧
    (∀ d : ast.ComponentDefinition, d.properties = none → d.children = none →
      irgen.generate_component_definition d =
        .ok { span := d.span, name := irgen.generate_identifier d.name,
              properties := { span := d.name.span, text_property := none,
                              default_property := none, properties := [] },
              children := [] }) ∧
    (∀ m : ast.Module, irgen.moduleOkB m = true →
      ∃ r, irgen.generate m = .ok r) := by
  refine ⟨?_, ?_, irgen.generate_ok⟩
  · intro sp n
    rw [irgen.generate_component.eq_4]
    rfl
  · intro d hp hc
    rw [irgen.generate_component_definition_eq]
    have h1 : irgen.childrenList d = [] := by simp [irgen.childrenList, hc]
    rw [h1]
    simp only [show irgen.generate_components [] = .ok [] from
        by rw [irgen.generate_components],
      List.find?_nil, hp]

/-- Counterexample for C4: the circular module `component custom { custom }`
passes validation (the validator has no circular-definition check) yet
lowering fails with a `CircularDefinition` error, so `validate = Ok` does
not make `generate` total. -/
theorem claim_C4_counterexample :
    validator.validate [] c4circmod = .ok () ∧
    irgen.generate c4circmod =
      .error (.circularDefinition ⟨⟨0, 10⟩, ⟨0, 16⟩⟩ ⟨⟨0, 19⟩, ⟨0, 25⟩⟩) :=
  ⟨rfl,
   by simp [irgen.generate, irgen.generate_module, irgen.generate_module_items,
     irgen.generate_module_item, c4circmod, c4circdef,
     irgen.generate_component_definition, irgen.generate_children,
     irgen.generate_components, irgen.generate_component.eq_4,
     irgen.generate_identifier, ir.Identifier.as_str, ir.Component.name,
     ir.Component.span, ast.ComponentChildren.children, Except.map,
     List.find?]⟩

/-- Witness for C4: the empty-container equations at a concrete `box` and a
concrete plain definition, plus totality on a concrete well-formed module. -/
theorem claim_C4_witness :
    (irgen.generate_component
        (.mk ⟨⟨0, 0⟩, ⟨0, 3⟩⟩ { span := ⟨⟨0, 0⟩, ⟨0, 3⟩⟩, name := "box" }
          none none none) =
      .ok (.mk ⟨⟨0, 0⟩, ⟨0, 3⟩⟩ { span := ⟨⟨0, 0⟩, ⟨0, 3⟩⟩, name := "box" }
        { default := none, flag_properties := [], named_properties := [] }
        [] none)) ∧
    (irgen.generate_component_definition c4plaindef =
      .ok { span := { start := ⟨0, 0⟩, stop := ⟨0, 16⟩ },
            name := { span := ⟨⟨0, 10⟩, ⟨0, 16⟩⟩, name := "custom" },
            properties := { span := ⟨⟨0, 10⟩, ⟨0, 16⟩⟩, text_property := none,
                            default_property := none, properties := [] },
            children := [] }) ∧
    (∃ r, irgen.generate c4okmod = .ok r) :=
  ⟨claim_C4_lowering_totality.1 ⟨⟨0, 0⟩, ⟨0, 3⟩⟩
      { span := ⟨⟨0, 0⟩, ⟨0, 3⟩⟩, name := "box" },
   claim_C4_lowering_totality.2.1 c4plaindef rfl rfl,
   claim_C4_lowering_totality.2.2 c4okmod
     (by simp [irgen.moduleOkB, c4okmod, c4okcomp, irgen.itemOkB,
       irgen.componentOkB, irgen.componentsOkB, irgen.propsOkB,
       irgen.propName, irgen.propertyKey])⟩

/-- C8 (corrected): in every `ir::PropertiesDefinition` produced by
successful lowering, the at-most-one default and at-most-one text
declarations go to the dedicated optional fields, and text declarations
are never members of the `properties` set (the set holds exactly the
images of the named and default declarations, in order); but contrary to
the claim text, the default declaration is inserted into the `properties`
set as well, so it is present in both places. -/
theorem claim_C8_properties_definition_separation (pd : ast.PropertiesDefinition)
    (r : ir.PropertiesDefinition)
    (h : irgen.generate_properties_definition pd = .ok r) :
    r.default_property = pd.properties.findSome? irgen.defaultImage ∧
    r.text_property = pd.properties.findSome? irgen.textImage ∧
    r.properties = pd.properties.filterMap irgen.declImage ∧
    (∀ dpd, r.default_property = some dpd → dpd ∈ r.properties) := by
  obtain ⟨h1, h2, h3, h4⟩ := irgen.generate_properties_definition_ok_spec pd r h
  refine ⟨h1, h2, h3, ?_⟩
  intro dpd hdp
  rw [h1] at hdp
  obtain ⟨q, hq, hfq⟩ := List.exists_of_findSome?_eq_some hdp
  rw [h3]
  refine List.mem_filterMap.mpr ⟨q, hq, ?_⟩
  cases hk : q.kind with
  | default d =>
    simp [irgen.defaultImage, hk] at hfq
    simp [irgen.declImage, hk]
    exact hfq
  | text d => simp [irgen.defaultImage, hk] at hfq
  | named d => simp [irgen.defaultImage, hk] at hfq

/-- Counterexample for C8: lowering `c8pd` succeeds and its default
declaration appears in `default_property` and, contrary to the claim, also
as a member of the `properties` set. -/
theorem claim_C8_counterexample :
    ∃ r, irgen.generate_properties_definition c8pd = .ok r ∧
      ∃ dpd, r.default_property = some dpd ∧ dpd ∈ r.properties :=
  ⟨c8res, rfl, c8irdef, rfl, by simp [c8res]⟩

/-- Witness for C8: the corrected separation instantiated on `c8pd`. -/
theorem claim_C8_witness :
    c8res.default_property = c8pd.properties.findSome? irgen.defaultImage ∧
    c8res.text_property = c8pd.properties.findSome? irgen.textImage ∧
    c8res.properties = c8pd.properties.filterMap irgen.declImage ∧
    (∀ dpd, c8res.default_property = some dpd → dpd ∈ c8res.properties) :=
  claim_C8_properties_definition_separation c8pd c8res (by rfl)

/-- C10 (corrected): in every `ir::Properties` built by the generator the
names across the union of `flag_properties` and `named_properties` are
pairwise distinct; in every generated `ir::PropertiesDefinition` the names
of the `properties` set are pairwise distinct and the `text_property` name
never occurs among them — but the full claimed invariant fails, because a
default declaration's name occurs both as `default_property` and inside
the `properties` set. -/
theorem claim_C10_name_uniqueness :
    (∀ (ps : ast.Properties) (r : ir.Properties),
      irgen.generate_properties ps = .ok r →
      ((r.flag_properties.map ir.Identifier.name) ++
        (r.named_properties.map (fun p => p.key.name))).Nodup) ∧
    (∀ (pd : ast.PropertiesDefinition) (r : ir.PropertiesDefinition),
      irgen.generate_properties_definition pd = .ok r →
      (r.properties.map (fun p => p.name.name)).Nodup ∧
      (∀ t, r.text_property = some t →
        t.name ∉ r.properties.map (fun p => p.name.name))) := by
  constructor
  · intro ps r h
    obtain ⟨hn, hf, hnd⟩ := irgen.generate_properties_ok_spec ps r h
    rw [hn, hf]
    exact irgen.flag_named_names_nodup ps.properties hnd
  · intro pd r h
    obtain ⟨h1, h2, h3, h4⟩ := irgen.generate_properties_definition_ok_spec pd r h
    constructor
    · rw [h3]
      exact irgen.nodup_map_filterMap irgen.declImage _ irgen.declNameStr
        (fun a b hb => irgen.declImage_name hb) pd.properties h4
    · intro t ht hmem
      rw [h2] at ht
      obtain ⟨q, hq, hfq⟩ := List.exists_of_findSome?_eq_some ht
      rw [h3] at hmem
      obtain ⟨ip, hip, hipn⟩ := List.mem_map.mp hmem
      obtain ⟨q2, hq2, hfq2⟩ := List.mem_filterMap.mp hip
      have htq : t.name = irgen.declNameStr q := by
        cases hk : q.kind with
        | text d =>
          simp [irgen.textImage, hk] at hfq
          rw [← hfq]
          simp [irgen.generate_identifier_name, irgen.declNameStr, hk]
        | default d => simp [irgen.textImage, hk] at hfq
        | named d => simp [irgen.textImage, hk] at hfq
      have hq2n : ip.name.name = irgen.declNameStr q2 := irgen.declImage_name hfq2
      have heqn : irgen.declNameStr q = irgen.declNameStr q2 := by
        rw [← htq, ← hipn, hq2n]
      have hqq : q = q2 := irgen.nodup_map_eq_of_mem irgen.declNameStr
        pd.properties h4 q hq q2 hq2 heqn
      subst hqq
      cases hk : q.kind with
      | text d => simp [irgen.declImage, hk] at hfq2
      | default d => simp [irgen.textImage, hk] at hfq
      | named d => simp [irgen.textImage, hk] at hfq

/-- Counterexample for C10: lowering the single-default block `c10pd3`
succeeds, and the name `b` occurs twice across the union of
`default_property` and the `properties` set, refuting the claimed
module-wide name-uniqueness invariant. -/
theorem claim_C10_counterexample :
    ∃ r, irgen.generate_properties_definition c10pd3 = .ok r ∧
      ¬ (((r.default_property.map (fun p => p.name.name)).toList ++
          r.properties.map (fun p => p.name.name)).Nodup) :=
  ⟨c10res3, rfl, by decide⟩

/-- Witness for C10: the corrected invariants instantiated on `box[a, b =
"x"]` and on a text-plus-named definition block. -/
theorem claim_C10_witness :
    (((c10res1.flag_properties.map ir.Identifier.name) ++
      (c10res1.named_properties.map (fun p => p.key.name))).Nodup) ∧
    ((c10res2.properties.map (fun p => p.name.name)).Nodup ∧
      ("t" : String) ∉ c10res2.properties.map (fun p => p.name.name)) :=
  ⟨claim_C10_name_uniqueness.1 c10ps c10res1 (by rfl),
   ⟨(claim_C10_name_uniqueness.2 c10pd2 c10res2 (by rfl)).1,
    (claim_C10_name_uniqueness.2 c10pd2 c10res2 (by rfl)).2
      { span := ⟨⟨1, 5⟩, ⟨1, 6⟩⟩, name := "t" } rfl⟩⟩

namespace parser
open token

/-- What one folding step adds: nothing for an empty literal, the segment
itself otherwise. -/
theorem foldSegment_spec (acc : Span × List ast.InterpolationSegment)
    (x : ast.InterpolationSegment) :
    ∃ added, (foldSegment acc x).2 = acc.2 ++ added ∧
      ∀ s ∈ added, (∃ i, s.kind = .var i) ∨
        (∃ str, s.kind = .literal str ∧ str ≠ "") := by
  cases hk : x.kind with
  | literal s =>
    by_cases hs : s = ""
    · refine ⟨[], ?_, by simp⟩
      simp [foldSegment, hk, hs]
    · refine ⟨[x], ?_, ?_⟩
      · simp [foldSegment, hk, hs]
      · intro s2 hs2
        simp at hs2
        subst hs2
        exact Or.inr ⟨s, hk, hs⟩
  | var i =>
    refine ⟨[x], ?_, ?_⟩
    · simp [foldSegment, hk]
    · intro s2 hs2
      simp at hs2
      subst hs2
      exact Or.inl ⟨i, hk⟩

/-- The repeated-segment fold only appends variables and non-empty
literals, preserving the accumulator prefix. -/
theorem segments_go_spec
    (lit : List Tok → Option (ast.InterpolationSegment × List Tok)) :
    ∀ (fuel : Nat) (acc : Span × List ast.InterpolationSegment)
      (toks : List Tok),
      ∃ added, (segments_go lit fuel acc toks).1.2 = acc.2 ++ added ∧
        ∀ s ∈ added, (∃ i, s.kind = .var i) ∨
          (∃ str, s.kind = .literal str ∧ str ≠ "") := by
  intro fuel
  induction fuel with
  | zero =>
    intro acc toks
    exact ⟨[], by simp [segments_go], by simp⟩
  | succ n ih =>
    intro acc toks
    cases hv : variable_interpolation toks with
    | some pr =>
      obtain ⟨seg, rest⟩ := pr
      obtain ⟨a0, hf0, hg0⟩ := foldSegment_spec acc seg
      obtain ⟨a1, h1, hg1⟩ := ih (foldSegment acc seg) rest
      refine ⟨a0 ++ a1, ?_, ?_⟩
      · rw [segments_go]
        simp only [hv]
        rw [h1, hf0, List.append_assoc]
      · intro s hs
        rcases List.mem_append.mp hs with h | h
        · exact hg0 s h
        · exact hg1 s h
    | none =>
      cases hl : lit toks with
      | some pr =>
        obtain ⟨seg, rest⟩ := pr
        obtain ⟨a0, hf0, hg0⟩ := foldSegment_spec acc seg
        obtain ⟨a1, h1, hg1⟩ := ih (foldSegment acc seg) rest
        refine ⟨a0 ++ a1, ?_, ?_⟩
        · rw [segments_go]
          simp only [hv, hl]
          rw [h1, hf0, List.append_assoc]
        · intro s hs
          rcases List.mem_append.mp hs with h | h
          · exact hg0 s h
          · exact hg1 s h
      | none =>
        refine ⟨[], ?_, by simp⟩
        rw [segments_go]
        simp only [hv, hl]
        simp

end parser

/-- C7 (corrected): a successfully parsed text or string value always
starts with the literal segment of its first token — kept even when its
content is empty — and every later segment is a variable or a non-empty
literal (the fold drops later empty literals only). A value made of a
single literal token parses to exactly one literal segment holding its
contents. The original per-interpolation-count bounds fail: the head
literal may be empty, and adjacent literal tokens yield several literal
segments without any interpolation. -/
theorem claim_C7_segment_folding :
    (∀ (fuel : Nat) (toks : List parser.Tok) (res : ast.Text)
        (rest : List parser.Tok),
      parser.text fuel toks = some (res, rest) →
      ∃ t sp rest0 others,
        toks = (token.TokenKind.text t, sp) :: rest0 ∧
        res.segments = { span := sp, kind := .literal t.content } :: others ∧
        ∀ s ∈ others, (∃ i, s.kind = .var i) ∨
          (∃ str, s.kind = .literal str ∧ str ≠ "")) ∧
    (∀ (fuel : Nat) (t : token.Text) (sp : Span),
      parser.text fuel [(token.TokenKind.text t, sp)] =
        some ({ span := sp,
                segments := [{ span := sp, kind := .literal t.content }] }, [])) ∧
    (∀ (fuel : Nat) (toks : List parser.Tok) (res : ast.Value)
        (rest : List parser.Tok),
      parser.string fuel toks = some (res, rest) →
      ∃ s sp rest0 v others,
        toks = (token.TokenKind.stringLiteral s, sp) :: rest0 ∧
        res.kind = .string v ∧
        v.segments = { span := sp, kind := .literal s.content } :: others ∧
        ∀ sg ∈ others, (∃ i, sg.kind = .var i) ∨
          (∃ str, sg.kind = .literal str ∧ str ≠ "")) ∧
    (∀ (fuel : Nat) (s : token.StringLiteral) (sp : Span),
      parser.string fuel [(token.TokenKind.stringLiteral s, sp)] =
        some ({ span := sp,
                kind := .string { span := sp,
                                  segments := [{ span := sp,
                                                 kind := .literal s.content }] } },
          [])) := by
  refine ⟨?_, ?_, ?_, ?_⟩
  · intro fuel toks res rest h
    match toks with
    | [] => simp [parser.text, parser.text_literal] at h
    | (.text t, sp) :: rest0 =>
      obtain ⟨a, ha, hg⟩ := parser.segments_go_spec parser.text_literal fuel
        (sp, [{ span := sp, kind := .literal t.content }]) rest0
      have h2 := h
      simp only [parser.text, parser.text_literal, Option.map] at h2
      injection h2 with h3
      rw [Prod.mk.injEq] at h3
      obtain ⟨hres, hrest⟩ := h3
      refine ⟨t, sp, rest0, a, rfl, ?_, hg⟩
      rw [← hres]
      simpa using ha
    | (.invalid, sp) :: rest0 => simp [parser.text, parser.text_literal] at h
    | (.punctuator p, sp) :: rest0 => simp [parser.text, parser.text_literal] at h
    | (.keyword k, sp) :: rest0 => simp [parser.text, parser.text_literal] at h
    | (.type ty, sp) :: rest0 => simp [parser.text, parser.text_literal] at h
    | (.identifier nm, sp) :: rest0 => simp [parser.text, parser.text_literal] at h
    | (.booleanLiteral b, sp) :: rest0 => simp [parser.text, parser.text_literal] at h
    | (.integerLiteral n, sp) :: rest0 => simp [parser.text, parser.text_literal] at h
    | (.stringLiteral s, sp) :: rest0 => simp [parser.text, parser.text_literal] at h
  · intro fuel t sp
    cases fuel with
    | zero => rfl
    | succ n => rfl
  · intro fuel toks res rest h
    match toks with
    | [] => simp [parser.string, parser.string_literal] at h
    | (.stringLiteral s, sp) :: rest0 =>
      obtain ⟨a, ha, hg⟩ := parser.segments_go_spec parser.string_literal fuel
        (sp, [{ span := sp, kind := .literal s.content }]) rest0
      have h2 := h
      simp only [parser.string, parser.string_literal, Option.map] at h2
      injection h2 with h3
      rw [Prod.mk.injEq] at h3
      obtain ⟨hres, hrest⟩ := h3
      refine ⟨s, sp, rest0,
        { span := (parser.segments_go parser.string_literal fuel
            (sp, [{ span := sp, kind := .literal s.content }]) rest0).1.1,
          segments := (parser.segments_go parser.string_literal fuel
            (sp, [{ span := sp, kind := .literal s.content }]) rest0).1.2 },
        a, rfl, ?_, ?_, hg⟩
      · rw [← hres]
      · simpa using ha
    | (.invalid, sp) :: rest0 => simp [parser.string, parser.string_literal] at h
    | (.punctuator p, sp) :: rest0 => simp [parser.string, parser.string_literal] at h
    | (.keyword k, sp) :: rest0 => simp [parser.string, parser.string_literal] at h
    | (.type ty, sp) :: rest0 => simp [parser.string, parser.string_literal] at h
    | (.identifier nm, sp) :: rest0 => simp [parser.string, parser.string_literal] at h
    | (.booleanLiteral b, sp) :: rest0 => simp [parser.string, parser.string_literal] at h
    | (.integerLiteral n, sp) :: rest0 => simp [parser.string, parser.string_literal] at h
    | (.text t, sp) :: rest0 => simp [parser.string, parser.string_literal] at h
  · intro fuel s sp
    cases fuel with
    | zero => rfl
    | succ n => rfl

/-- Counterexample for C7: the real token stream of `(${x})` parses to one
variable segment preceded by an empty literal segment (the claim forbids
empty literal segments), and the stream of `(a)(b)` parses to two literal
segments with zero interpolations (the claim demands exactly one). -/
theorem claim_C7_counterexample :
    (((lexer.lex "(${x})".toList).map (fun r =>
        (parser.text r.1.length r.1).map (fun p =>
          p.1.segments.map (fun s => s.kind)))) =
      some (some [.literal "",
        .var { span := ⟨⟨1, 4⟩, ⟨1, 5⟩⟩, name := "x" }])) ∧
    (((lexer.lex "(a)(b)".toList).map (fun r =>
        (parser.text r.1.length r.1).map (fun p =>
          p.1.segments.map (fun s => s.kind)))) =
      some (some [.literal "a", .literal "b"])) :=
  ⟨rfl, rfl⟩

/-- Witness for C7: the folding shape on the `(${x})` token stream and on a
string stream with a leading empty literal, plus the single-token parses. -/
theorem claim_C7_witness :
    (∃ t sp rest0 others,
      c7toks = (token.TokenKind.text t, sp) :: rest0 ∧
      c7res.segments = { span := sp, kind := .literal t.content } :: others ∧
      ∀ s ∈ others, (∃ i, s.kind = .var i) ∨
        (∃ str, s.kind = .literal str ∧ str ≠ "")) ∧
    (parser.text 3 [(token.TokenKind.text { content := "hi", is_closed := true },
        ⟨⟨1, 1⟩, ⟨1, 5⟩⟩)] =
      some ({ span := ⟨⟨1, 1⟩, ⟨1, 5⟩⟩,
              segments := [{ span := ⟨⟨1, 1⟩, ⟨1, 5⟩⟩, kind := .literal "hi" }] },
        [])) ∧
    (∃ s sp rest0 v others,
      c7stoks = (token.TokenKind.stringLiteral s, sp) :: rest0 ∧
      c7sres.kind = .string v ∧
      v.segments = { span := sp, kind := .literal s.content } :: others ∧
      ∀ sg ∈ others, (∃ i, sg.kind = .var i) ∨
        (∃ str, sg.kind = .literal str ∧ str ≠ "")) ∧
    (parser.string 2 [(token.TokenKind.stringLiteral
        { content := "ab", is_closed := true }, ⟨⟨1, 1⟩, ⟨1, 5⟩⟩)] =
      some ({ span := ⟨⟨1, 1⟩, ⟨1, 5⟩⟩,
              kind := .string { span := ⟨⟨1, 1⟩, ⟨1, 5⟩⟩,
                                segments := [{ span := ⟨⟨1, 1⟩, ⟨1, 5⟩⟩,
                                               kind := .literal "ab" }] } },
        [])) :=
  ⟨claim_C7_segment_folding.1 6 c7toks c7res [] (by rfl),
   claim_C7_segment_folding.2.1 3 { content := "hi", is_closed := true }
     ⟨⟨1, 1⟩, ⟨1, 5⟩⟩,
   claim_C7_segment_folding.2.2.1 5 c7stoks c7sres [] (by rfl),
   claim_C7_segment_folding.2.2.2 2 { content := "ab", is_closed := true }
     ⟨⟨1, 1⟩, ⟨1, 5⟩⟩⟩

end MarkerML
